import Mathlib

/-!
# Configuration binding engine: a shallow embedding

The Go package `config` binds the annotated fields of a structure to values
read from ordered chains of engines.  This file embeds the package in Lean:

* `errors.go`   : the package-level error values and `errors.Is` on them;
* `engine.go`   : the `Engine` interface, as a record of its typed getters;
* `config.go`   : `Manager`, its options and registrations, `Populate`,
  `unmarshalObj` and `readFromEnginesInSequence`;
* `engine_map.go` : `MapEngine`, its typed getters, `flattenMap`;
* `engine_env.go` : `EnvEngine`, its name mapping and its typed getters, with
  the functions of `strconv`, `strings` and `time` they call;
* `engine_yaml.go` : `YAMLEngine`, its `Load` and the promoted getters.

Conventions of the embedding.

* A Go `error` is an `Option GoError`; `none` is `nil`.
* A Go call returning `(value, error)` returns a pair.
* A slice is an `Option (List α)`; `none` is the nil slice.
* A pointer held in an `interface{}` is an `Option` of its pointee.
* `int` and `uint` are 64 bits wide.  Integers are `Int` and `Nat`; a store
  into a narrower field wraps explicitly.
* Reflection is replaced by data: a structure is its type name and the list of
  its fields, each field the value of its `config` tag and its current value.
  Fields are exported and their types are built from the predeclared types,
  `time.Duration` and structures; a slice of `time.Duration` is not
  represented.
* A map is the list of its entries; a key is looked up from the front.
* The environment of the process, `strconv.ParseFloat`, the upper case table
  of package `unicode` for the runes above ASCII and the YAML decoder are
  parameters of the definitions that use them.
* The run of `Populate` is observed through the list of events it produces:
  the typed reads made on engines and the validation hooks invoked.
-/

namespace Config

/-! ## errors.go -/

/-- The error values declared at package level (`errors.go`, and
`ErrUnterminatedString` of `engine_env.go`). -/
inductive Sentinel
  | keyNotFound
  | typeMismatch
  | noSecretEngineDefined
  | noPlainEngineDefined
  | engineNotLoaded
  | configNotPointer
  | unterminatedString
  deriving DecidableEq, Repr

/-- A non-nil Go error, as far as the package can tell errors apart:
a package-level value itself, a `fmt.Errorf("%w...")` wrapper around one, or
an error made elsewhere (by `strconv`, by `time`, by a `Validate` method). -/
inductive GoError
  | sentinel (s : Sentinel)
  | wrapped (s : Sentinel) (msg : String)
  | foreign (msg : String)
  deriving DecidableEq, Repr

abbrev ErrKeyNotFound : GoError := GoError.sentinel Sentinel.keyNotFound
abbrev ErrTypeMismatch : GoError := GoError.sentinel Sentinel.typeMismatch
abbrev ErrNoSecretEngineDefined : GoError := GoError.sentinel Sentinel.noSecretEngineDefined
abbrev ErrNoPlainEngineDefined : GoError := GoError.sentinel Sentinel.noPlainEngineDefined
abbrev ErrEngineNotLoaded : GoError := GoError.sentinel Sentinel.engineNotLoaded
abbrev ErrConfigNotPointer : GoError := GoError.sentinel Sentinel.configNotPointer

/-- The Go call `errors.Is(err, target)` for a package-level `target`: true for the
value itself and for a `%w` wrapper around it, false for `nil` and for any
other error. -/
def errorsIs : Option GoError → Sentinel → Bool
  | none, _ => false
  | some (GoError.sentinel s), t => decide (s = t)
  | some (GoError.wrapped s _), t => decide (s = t)
  | some (GoError.foreign _), _ => false

/-! ## engine.go -/

/-- A Go slice: `none` is the nil slice. -/
abbrev Slice (α : Type) := Option (List α)

/-- A `float64`, by its IEEE-754 bit pattern.  The package only moves such
values around. -/
structure Float64 where
  bits : Nat
  deriving DecidableEq, Repr

/-- A `float32`, represented by the `float64` it was converted from: the
conversion `float32(x)` is recorded, not evaluated. -/
structure Float32 where
  ofFloat64 : Float64
  deriving DecidableEq, Repr

/-- The typed getters of the `Engine` interface. -/
inductive Accessor
  | GetString | GetStringSlice
  | GetInt | GetIntSlice
  | GetUint | GetUintSlice
  | GetInt64 | GetInt64Slice
  | GetUint64 | GetUint64Slice
  | GetBool | GetBoolSlice
  | GetFloat | GetFloatSlice
  | GetDuration
  deriving DecidableEq, Repr

/-- The `Engine` interface of `engine.go`, as the record of the typed getters of
one implementing object.  `ident` stands for the identity of that object; it is
what an event names.  A `time.Duration` is its count of nanoseconds. -/
structure Engine where
  ident : Nat
  GetString : String → String × Option GoError
  GetStringSlice : String → Slice String × Option GoError
  GetInt : String → Int × Option GoError
  GetIntSlice : String → Slice Int × Option GoError
  GetUint : String → Nat × Option GoError
  GetUintSlice : String → Slice Nat × Option GoError
  GetInt64 : String → Int × Option GoError
  GetInt64Slice : String → Slice Int × Option GoError
  GetUint64 : String → Nat × Option GoError
  GetUint64Slice : String → Slice Nat × Option GoError
  GetBool : String → Bool × Option GoError
  GetBoolSlice : String → Slice Bool × Option GoError
  GetFloat : String → Float64 × Option GoError
  GetFloatSlice : String → Slice Float64 × Option GoError
  GetDuration : String → Int × Option GoError

/-- What a run of `Populate` does that can be observed from outside: a typed
read on an engine, and a call of a structure's `Validate` method (named by
the key path of the structure, empty for the target itself). -/
inductive Event
  | read (engine : Nat) (accessor : Accessor) (key : String)
  | validate (path : String)
  deriving DecidableEq, Repr

/-! ## The target of `Populate` -/

/-- The signed kinds that `unmarshalObj` reads with `GetInt`. -/
inductive IntKind
  | int | int8 | int16 | int32
  deriving DecidableEq, Repr

/-- The unsigned kinds that `unmarshalObj` reads with `GetUint`. -/
inductive UintKind
  | uint | uint8 | uint16 | uint32
  deriving DecidableEq, Repr

def IntKind.bits : IntKind → Nat
  | IntKind.int => 64
  | IntKind.int8 => 8
  | IntKind.int16 => 16
  | IntKind.int32 => 32

def UintKind.bits : UintKind → Nat
  | UintKind.uint => 64
  | UintKind.uint8 => 8
  | UintKind.uint16 => 16
  | UintKind.uint32 => 32

/-- The Go conversion of an integer to a signed type of `w` bits: it keeps the
low `w` bits, read in two's complement. -/
def wrapSigned (w : Nat) (x : Int) : Int :=
  (x + 2 ^ (w - 1)) % 2 ^ w - 2 ^ (w - 1)

/-- The Go conversion of an unsigned integer to an unsigned type of `w` bits. -/
def wrapUnsigned (w : Nat) (x : Nat) : Nat :=
  x % 2 ^ w

/-- The value of a structure field, with the kind `reflect` reports for it.
A structure is its type name and its fields in declaration order, each
field the value of its `config` tag (empty when there is none) and its value.
`unsupported` stands for every kind `unmarshalObj` has no case for (map,
pointer, interface, array, complex, ...), `otherSlice` for a slice whose
element kind the slice case does not list. -/
inductive FieldValue
  | struct (typeName : String) (fields : List (String × FieldValue))
  | structSlice (elems : List FieldValue)
  | intSlice (v : Slice Int)
  | int64Slice (v : Slice Int)
  | stringSlice (v : Slice String)
  | boolSlice (v : Slice Bool)
  | float64Slice (v : Slice Float64)
  | otherSlice
  | string (v : String)
  | int (k : IntKind) (v : Int)
  | int64 (v : Int)
  | duration (v : Int)
  | uint (k : UintKind) (v : Nat)
  | uint64 (v : Nat)
  | float64 (v : Float64)
  | float32 (v : Float32)
  | bool (v : Bool)
  | unsupported

/-- The fields of a structure: tag and value, in declaration order. -/
abbrev Fields := List (String × FieldValue)

/-- The method sets of the program's structure types, as far as the package
looks at them: for a type name, its `Validate` method if it has one.  The
method is modelled as an observer of the structure's fields. -/
abbrev Hooks := String → Option (Fields → Option GoError)

/-- The argument of `Populate`: a value that is not a pointer (`none` for the
nil interface), a nil pointer, or a pointer to a value. -/
inductive Target
  | nonPointer (v : Option FieldValue)
  | nilPointer
  | pointer (v : FieldValue)

/-- How a call ends: it returns nil, returns an error, or panics. -/
inductive Outcome
  | ok
  | error (e : GoError)
  | panic (msg : String)
  deriving DecidableEq, Repr

/-! ## config.go: the Manager -/

def defaultKeySeparator : String := "."

/-- The `Manager` of `config.go`.  `init` is the state of the `sync.Once`: whether
`initialize` has run.  `keySeparator` is a pointer, `none` when nil. -/
structure Manager where
  init : Bool
  keySeparator : Option String
  secrets : List Engine
  plains : List Engine

/-- An `Option` of `config.go`: a function applied to the new Manager. -/
abbrev ManagerOption := Manager → Manager

def NewManager (opts : List ManagerOption) : Manager :=
  opts.foldl (fun r opt => opt r)
    { init := false, keySeparator := none, secrets := [], plains := [] }

def WithKeySeparator (separator : String) : ManagerOption :=
  fun m => { m with keySeparator := some separator }

def Manager.initialize (m : Manager) : Manager :=
  { m with
    keySeparator := (match m.keySeparator with
      | none => some defaultKeySeparator
      | some s => some s)
    secrets := []
    plains := [] }

/-- The call `m.init.Do(m.initialize)`. -/
def Manager.initDo (m : Manager) : Manager :=
  if m.init then m else { Manager.initialize m with init := true }

def Manager.AddSecretEngine (m : Manager) (engine : Engine) : Manager :=
  let m1 := Manager.initDo m
  { m1 with secrets := m1.secrets ++ [engine] }

def Manager.AddPlainEngine (m : Manager) (engine : Engine) : Manager :=
  let m1 := Manager.initDo m
  { m1 with plains := m1.plains ++ [engine] }

/-! ## config.go: the field annotation -/

/-- The pieces of a list of characters between the occurrences of `sep`: what
`strings.Split` returns for a separator of one ASCII character. -/
def splitChars (sep : Char) : List Char → List (List Char)
  | [] => [[]]
  | c :: cs =>
    if c = sep then [] :: splitChars sep cs
    else match splitChars sep cs with
      | [] => [[c]]
      | t :: ts => (c :: t) :: ts

/-- The Go call `strings.Split(configTag, ",")`. -/
def splitTag (configTag : String) : List String :=
  (splitChars ',' configTag.data).map String.mk

/-- The loop of `unmarshalObj` over `configTagTokens[1:]`: the pair
`(isRequired, isSecret)` it leaves. -/
def parseFlags (toks : List String) : Bool × Bool :=
  toks.foldl
    (fun (acc : Bool × Bool) tok =>
      if tok = "required" then (true, acc.2)
      else if tok = "secret" then (acc.1, true)
      else acc)
    (false, false)

/-- The first token of the annotation, `configTagTokens[0]`. -/
def propName (configTag : String) : String :=
  (splitTag configTag).headD ""

def isRequired (configTag : String) : Bool :=
  (parseFlags (splitTag configTag).tail).1

def isSecret (configTag : String) : Bool :=
  (parseFlags (splitTag configTag).tail).2

/-- A field is bound when the loop body does not leave at its first
`continue`. -/
def isBound (configTag : String) : Bool :=
  !(propName configTag = "-" || propName configTag = "")

/-! ## config.go: readFromEnginesInSequence -/

/-- The loop of `readFromEnginesInSequence`, with `lastErr` as an argument.  The
closure `f` acts on a state `σ` (in `unmarshalObj`: the field it sets). -/
def readLoop {σ : Type} (f : Engine → σ → σ × Option GoError) :
    List Engine → Option GoError → σ → σ × Option GoError
  | [], lastErr, s =>
    match lastErr with
    | some e => (s, some e)
    | none => (s, some ErrKeyNotFound)
  | engine :: rest, _, s =>
    match f engine s with
    | (s1, some err) =>
      if errorsIs (some err) Sentinel.keyNotFound then readLoop f rest (some err) s1
      else (s1, some err)
    | (s1, none) => (s1, none)

def readFromEnginesInSequence {σ : Type} (engines : List Engine)
    (f : Engine → σ → σ × Option GoError) (s : σ) : σ × Option GoError :=
  readLoop f engines none s

/-! ## config.go: unmarshalObj -/

/-- The state a closure of `unmarshalObj` acts on: the field it may set, and
the reads made so far for that field. -/
abbrev FieldState := FieldValue × List Event

/-- The closure of a scalar case of `unmarshalObj`: it calls the getter `get`
(named `acc`) with `key`; on a key-not-found error of a field that is not
required it returns nil without setting the field; on any other error it
returns the error; otherwise it sets the field to `set value`. -/
def scalarClosure {α : Type} (acc : Accessor) (get : Engine → String → α × Option GoError)
    (set : α → FieldValue) (required : Bool) (key : String) :
    Engine → FieldState → FieldState × Option GoError :=
  fun engine st =>
    let r := get engine key
    let tr := st.2 ++ [Event.read engine.ident acc key]
    if (!required && errorsIs r.2 Sentinel.keyNotFound) = true then ((st.1, tr), none)
    else match r.2 with
      | some err => ((st.1, tr), some err)
      | none => ((set r.1, tr), none)

/-- The closure of a slice case of `unmarshalObj`: it calls the getter, returns
its error if there is one, and otherwise sets the field.  The required flag
is not consulted. -/
def sliceClosure {α : Type} (acc : Accessor) (get : Engine → String → α × Option GoError)
    (set : α → FieldValue) (key : String) :
    Engine → FieldState → FieldState × Option GoError :=
  fun engine st =>
    let r := get engine key
    let tr := st.2 ++ [Event.read engine.ident acc key]
    match r.2 with
    | some err => ((st.1, tr), some err)
    | none => ((set r.1, tr), none)

/-- A case of the switch that resolves the field through
`readFromEnginesInSequence`: an error ends `unmarshalObj`, nil lets the loop
go on to the next field. -/
def resolveField (engines : List Engine)
    (f : Engine → FieldState → FieldState × Option GoError) (v : FieldValue) :
    FieldValue × List Event × Outcome :=
  match readFromEnginesInSequence engines f (v, []) with
  | (st, some err) => (st.1, st.2, Outcome.error err)
  | (st, none) => (st.1, st.2, Outcome.ok)

/-- The key of a field: the parent path, the separator if the parent path is
not empty, and the field's key segment.  `none` when the separator pointer is
nil where it is dereferenced. -/
def fieldKey (m : Manager) (pfx : String) (name : String) : Option String :=
  if pfx = "" then some name
  else match m.keySeparator with
    | none => none
    | some sep => some (pfx ++ sep ++ name)

/-- The switch of `unmarshalObj` for a field that is not a structure: the cases
in source order (the second `Int64` case of the source is never reached and
has no counterpart here). -/
def unmarshalLeaf (engines : List Engine) (required : Bool) (key : String) :
    FieldValue → FieldValue × List Event × Outcome
  | FieldValue.struct tn fs => (FieldValue.struct tn fs, [], Outcome.ok)
  | FieldValue.structSlice es =>
    (FieldValue.structSlice es, [],
      Outcome.panic "reflect: call of reflect.Value.NumField on slice Value")
  | FieldValue.intSlice v =>
    resolveField engines
      (sliceClosure Accessor.GetIntSlice Engine.GetIntSlice FieldValue.intSlice key)
      (FieldValue.intSlice v)
  | FieldValue.int64Slice v =>
    resolveField engines
      (sliceClosure Accessor.GetInt64Slice Engine.GetInt64Slice FieldValue.int64Slice key)
      (FieldValue.int64Slice v)
  | FieldValue.stringSlice v =>
    resolveField engines
      (sliceClosure Accessor.GetStringSlice Engine.GetStringSlice FieldValue.stringSlice key)
      (FieldValue.stringSlice v)
  | FieldValue.boolSlice v =>
    resolveField engines
      (sliceClosure Accessor.GetBoolSlice Engine.GetBoolSlice FieldValue.boolSlice key)
      (FieldValue.boolSlice v)
  | FieldValue.float64Slice v =>
    resolveField engines
      (sliceClosure Accessor.GetFloatSlice Engine.GetFloatSlice FieldValue.float64Slice key)
      (FieldValue.float64Slice v)
  | FieldValue.otherSlice => (FieldValue.otherSlice, [], Outcome.ok)
  | FieldValue.string v =>
    resolveField engines
      (scalarClosure Accessor.GetString Engine.GetString FieldValue.string required key)
      (FieldValue.string v)
  | FieldValue.int k v =>
    resolveField engines
      (scalarClosure Accessor.GetInt Engine.GetInt
        (fun x => FieldValue.int k (wrapSigned k.bits x)) required key)
      (FieldValue.int k v)
  | FieldValue.int64 v =>
    resolveField engines
      (scalarClosure Accessor.GetInt64 Engine.GetInt64 FieldValue.int64 required key)
      (FieldValue.int64 v)
  | FieldValue.duration v =>
    resolveField engines
      (scalarClosure Accessor.GetDuration Engine.GetDuration FieldValue.duration required key)
      (FieldValue.duration v)
  | FieldValue.uint k v =>
    resolveField engines
      (scalarClosure Accessor.GetUint Engine.GetUint
        (fun x => FieldValue.uint k (wrapUnsigned k.bits x)) required key)
      (FieldValue.uint k v)
  | FieldValue.uint64 v =>
    resolveField engines
      (scalarClosure Accessor.GetUint64 Engine.GetUint64 FieldValue.uint64 required key)
      (FieldValue.uint64 v)
  | FieldValue.float64 v =>
    resolveField engines
      (scalarClosure Accessor.GetFloat Engine.GetFloat FieldValue.float64 required key)
      (FieldValue.float64 v)
  | FieldValue.float32 v =>
    resolveField engines
      (scalarClosure Accessor.GetFloat Engine.GetFloat
        (fun x => FieldValue.float32 (Float32.mk x)) required key)
      (FieldValue.float32 v)
  | FieldValue.bool v =>
    resolveField engines
      (scalarClosure Accessor.GetBool Engine.GetBool FieldValue.bool required key)
      (FieldValue.bool v)
  | FieldValue.unsupported => (FieldValue.unsupported, [], Outcome.ok)

/-- The end of `unmarshalObj`, after the loop over the fields: when the loop
ran through without error and the structure's type has a `Validate` method, the
method is called on the structure as populated and its error, if any, is
returned. -/
def runValidator (hooks : Hooks) (path : String) (typeName : String) :
    Fields × List Event × Outcome → Fields × List Event × Outcome
  | (fs, tr, Outcome.ok) =>
    match hooks typeName with
    | some validate =>
      match validate fs with
      | some err => (fs, tr ++ [Event.validate path], Outcome.error err)
      | none => (fs, tr ++ [Event.validate path], Outcome.ok)
    | none => (fs, tr, Outcome.ok)
  | (fs, tr, out) => (fs, tr, out)

mutual
/-- The body of the loop of `unmarshalObj` for one field with annotation
`configTag` and value `v`, under the parent path `pfx`: the field afterwards,
the events produced, and whether the loop goes on (`Outcome.ok`). -/
def unmarshalField (m : Manager) (hooks : Hooks) (pfx : String) (configTag : String)
    (v : FieldValue) : FieldValue × List Event × Outcome :=
  if propName configTag = "-" ∨ propName configTag = "" then (v, [], Outcome.ok)
  else if isSecret configTag = true ∧ m.secrets.length = 0 then
    (v, [], Outcome.error ErrNoSecretEngineDefined)
  else if isSecret configTag = false ∧ m.plains.length = 0 then
    (v, [], Outcome.error ErrNoPlainEngineDefined)
  else if configTag ≠ "" ∧ m.plains.length = 0 then
    (v, [], Outcome.error ErrNoPlainEngineDefined)
  else
    match fieldKey m pfx (propName configTag) with
    | none => (v, [], Outcome.panic "invalid memory address or nil pointer dereference")
    | some key =>
      match v with
      | FieldValue.struct tn fs =>
        match runValidator hooks key tn (unmarshalFields m hooks key fs) with
        | (fs1, tr, out) => (FieldValue.struct tn fs1, tr, out)
      | w =>
        unmarshalLeaf (if isSecret configTag = true then m.secrets else m.plains)
          (isRequired configTag) key w
/-- The loop of `unmarshalObj` over the fields, in declaration order; it
stops at the first field that does not end with `Outcome.ok`. -/
def unmarshalFields (m : Manager) (hooks : Hooks) (pfx : String) :
    List (String × FieldValue) → List (String × FieldValue) × List Event × Outcome
  | [] => ([], [], Outcome.ok)
  | (configTag, v) :: rest =>
    match unmarshalField m hooks pfx configTag v with
    | (v1, tr, Outcome.ok) =>
      match unmarshalFields m hooks pfx rest with
      | (rest1, tr1, out) => ((configTag, v1) :: rest1, tr ++ tr1, out)
    | (v1, tr, out) => ((configTag, v1) :: rest, tr, out)
end

/-- The function `unmarshalObj` on a pointer to a structure of type `typeName`
with the given fields. -/
def unmarshalObj (m : Manager) (hooks : Hooks) (keyPrefix : String) (typeName : String)
    (fs : Fields) : Fields × List Event × Outcome :=
  runValidator hooks keyPrefix typeName (unmarshalFields m hooks keyPrefix fs)

/-- The method `Populate`: the target afterwards, the events produced and the
outcome.  A nil pointer and a pointer to something that is not a structure
make `unmarshalObj` panic in `reflect`. -/
def Manager.Populate (m : Manager) (hooks : Hooks) : Target → Target × List Event × Outcome
  | Target.nonPointer v => (Target.nonPointer v, [], Outcome.error ErrConfigNotPointer)
  | Target.nilPointer =>
    (Target.nilPointer, [], Outcome.panic "reflect: call of reflect.Value.Type on zero Value")
  | Target.pointer (FieldValue.struct tn fs) =>
    match unmarshalObj m hooks "" tn fs with
    | (fs1, tr, out) => (Target.pointer (FieldValue.struct tn fs1), tr, out)
  | Target.pointer w =>
    (Target.pointer w, [], Outcome.panic "reflect: call of reflect.Value.NumField on a value that is not a struct")

/-! ## The Go library function time.ParseDuration

`MapEngine.GetDuration` hands a stored string to `time.ParseDuration`.  The
function is modelled after its Go source: an optional sign, then one or more
groups of digits, optional fraction and unit.  A `Duration` is a count of
nanoseconds.  One departure: Go scales the digits after the decimal point
through `float64`; here that product is computed exactly, which agrees with Go
whenever the float64 operations are exact (in particular for every string
without a decimal point). -/

def isDigit (c : Char) : Bool := decide ('0' ≤ c) && decide (c ≤ '9')

def digitValue (c : Char) : Nat := c.toNat - '0'.toNat

/-- The Go helper `leadingInt`: the leading digits as a number and the rest of
the string; `none` when the number exceeds `1<<63`. -/
def leadingInt : List Char → Nat → Option (Nat × List Char)
  | [], x => some (x, [])
  | c :: cs, x =>
    if isDigit c = true then
      if x > 2 ^ 63 / 10 then none
      else if x * 10 + digitValue c > 2 ^ 63 then none
      else leadingInt cs (x * 10 + digitValue c)
    else some (x, c :: cs)

/-- The Go helper `leadingFraction`: the digits after the decimal point as a
number `x` and a scale, the value being `x / scale`, and the rest of the
string.  Digits that would overflow are consumed and dropped. -/
def leadingFraction : List Char → Nat → Nat → Bool → Nat × Nat × List Char
  | [], x, scale, _ => (x, scale, [])
  | c :: cs, x, scale, overflow =>
    if isDigit c = true then
      if overflow = true then leadingFraction cs x scale true
      else if x > (2 ^ 63 - 1) / 10 then leadingFraction cs x scale true
      else if x * 10 + digitValue c > 2 ^ 63 then leadingFraction cs x scale true
      else leadingFraction cs (x * 10 + digitValue c) (scale * 10) false
    else (x, scale, c :: cs)

/-- The table `unitMap` of package `time`. -/
def unitMap (u : String) : Option Nat :=
  if u = "ns" then some 1
  else if u = "us" then some 1000
  else if u = "\u00b5s" then some 1000
  else if u = "\u03bcs" then some 1000
  else if u = "ms" then some 1000000
  else if u = "s" then some 1000000000
  else if u = "m" then some 60000000000
  else if u = "h" then some 3600000000000
  else none

/-- The Go helper `quote` of package `time`, for a string that needs no escape. -/
def quote (s : String) : String := "\"" ++ s ++ "\""

def invalidDuration (orig : String) : GoError :=
  GoError.foreign ("time: invalid duration " ++ quote orig)

/-- The loop of `time.ParseDuration` over the groups of the string, `d` being
the total so far.  Every round consumes a character, so a fuel equal to the
length of the string is never used up. -/
def parseDurationLoop (orig : String) : Nat → List Char → Nat → Nat × Option GoError
  | _, [], d => (d, none)
  | 0, _ :: _, _ => (0, some (invalidDuration orig))
  | fuel + 1, c :: cs, d =>
    if !(c = '.' || isDigit c) then (0, some (invalidDuration orig))
    else
      match leadingInt (c :: cs) 0 with
      | none => (0, some (invalidDuration orig))
      | some (v, s1) =>
        let pre := decide ((c :: cs).length ≠ s1.length)
        let fr : Nat × Nat × List Char × Bool :=
          match s1 with
          | '.' :: s2 =>
            let r := leadingFraction s2 0 1 false
            (r.1, r.2.1, r.2.2, decide (s2.length ≠ r.2.2.length))
          | _ => (0, 1, s1, false)
        if (!pre && !fr.2.2.2) = true then (0, some (invalidDuration orig))
        else
          let u := fr.2.2.1.takeWhile (fun x => !(x = '.' || isDigit x))
          let s3 := fr.2.2.1.dropWhile (fun x => !(x = '.' || isDigit x))
          if u.length = 0 then
            (0, some (GoError.foreign ("time: missing unit in duration " ++ quote orig)))
          else
            match unitMap (String.mk u) with
            | none =>
              (0, some (GoError.foreign
                ("time: unknown unit " ++ quote (String.mk u) ++ " in duration " ++ quote orig)))
            | some unit =>
              if v > 2 ^ 63 / unit then (0, some (invalidDuration orig))
              else
                let v1 := v * unit + (if fr.1 > 0 then fr.1 * unit / fr.2.1 else 0)
                if fr.1 > 0 ∧ v1 > 2 ^ 63 then (0, some (invalidDuration orig))
                else if d + v1 > 2 ^ 63 then (0, some (invalidDuration orig))
                else parseDurationLoop orig fuel s3 (d + v1)

/-- The Go function `time.ParseDuration`. -/
def parseDuration (s : String) : Int × Option GoError :=
  let neg := decide (s.data.head? = some '-')
  let body : List Char :=
    match s.data with
    | '-' :: cs => cs
    | '+' :: cs => cs
    | cs => cs
  if body = ['0'] then (0, none)
  else if body = [] then (0, some (invalidDuration s))
  else
    match parseDurationLoop s body.length body 0 with
    | (_, some err) => (0, some err)
    | (d, none) =>
      if neg = true then (-(d : Int), none)
      else if d > 2 ^ 63 - 1 then (0, some (invalidDuration s))
      else ((d : Int), none)

/-! ## engine_map.go -/

/-- A value held in an `interface{}`, by dynamic type: the types the getters of
`MapEngine` look for, and `other` for any other type (by its `%T` name). -/
inductive GoValue
  | nil
  | string (v : String)
  | stringPtr (p : Option String)
  | int (v : Int)
  | intPtr (p : Option Int)
  | uint (v : Nat)
  | uintPtr (p : Option Nat)
  | int64 (v : Int)
  | int64Ptr (p : Option Int)
  | uint64 (v : Nat)
  | uint64Ptr (p : Option Nat)
  | bool (v : Bool)
  | boolPtr (p : Option Bool)
  | float64 (v : Float64)
  | float64Ptr (p : Option Float64)
  | duration (v : Int)
  | durationPtr (p : Option Int)
  | stringSlice (v : Slice String)
  | intSlice (v : Slice Int)
  | uintSlice (v : Slice Nat)
  | int64Slice (v : Slice Int)
  | uint64Slice (v : Slice Nat)
  | boolSlice (v : Slice Bool)
  | float64Slice (v : Slice Float64)
  | ifaceSlice (v : List GoValue)
  | map (v : List (String × GoValue))
  | other (typeName : String)

/-- What `%T` prints for a value. -/
def GoValue.typeName : GoValue → String
  | GoValue.nil => "<nil>"
  | GoValue.string _ => "string"
  | GoValue.stringPtr _ => "*string"
  | GoValue.int _ => "int"
  | GoValue.intPtr _ => "*int"
  | GoValue.uint _ => "uint"
  | GoValue.uintPtr _ => "*uint"
  | GoValue.int64 _ => "int64"
  | GoValue.int64Ptr _ => "*int64"
  | GoValue.uint64 _ => "uint64"
  | GoValue.uint64Ptr _ => "*uint64"
  | GoValue.bool _ => "bool"
  | GoValue.boolPtr _ => "*bool"
  | GoValue.float64 _ => "float64"
  | GoValue.float64Ptr _ => "*float64"
  | GoValue.duration _ => "time.Duration"
  | GoValue.durationPtr _ => "*time.Duration"
  | GoValue.stringSlice _ => "[]string"
  | GoValue.intSlice _ => "[]int"
  | GoValue.uintSlice _ => "[]uint"
  | GoValue.int64Slice _ => "[]int64"
  | GoValue.uint64Slice _ => "[]uint64"
  | GoValue.boolSlice _ => "[]bool"
  | GoValue.float64Slice _ => "[]float64"
  | GoValue.ifaceSlice _ => "[]interface {}"
  | GoValue.map _ => "map[string]interface {}"
  | GoValue.other t => t

/-- The function `newErrTypeMismatch` of `errors.go`:
`fmt.Errorf("%w: %s: %T found", ErrTypeMismatch, key, value)`. -/
def newErrTypeMismatch (key : String) (value : GoValue) : GoError :=
  GoError.wrapped Sentinel.typeMismatch
    ("type mismatch: " ++ key ++ ": " ++ value.typeName ++ " found")

/-- The call `newErrTypeMismatch(value)` as every call site of `engine_map.go`
writes it: the value alone is passed, no key.  The key of the message is
modelled as empty. -/
def typeMismatchOf (value : GoValue) : GoError :=
  newErrTypeMismatch "" value

/-- The error `fmt.Errorf("%w: %s", ErrKeyNotFound, key)`. -/
def keyNotFoundOf (key : String) : GoError :=
  GoError.wrapped Sentinel.keyNotFound ("key not found: " ++ key)

/-- The `MapEngine`: its `data` map, `none` when nil.  A map is the list of its
entries; a key is looked up from the front. -/
structure MapEngine where
  data : Option (List (String × GoValue))

def MapEngine.Load (_engine : MapEngine) : Option GoError := none

def MapEngine.Unload (_engine : MapEngine) : MapEngine × Option GoError :=
  ({ data := none }, none)

/-- The common start of every getter: the nil check on `data` and the lookup of
the key; `fromValue` is the type switch of the getter and what follows it. -/
def MapEngine.get {α : Type} (engine : MapEngine) (key : String) (zero : α)
    (fromValue : GoValue → α × Option GoError) : α × Option GoError :=
  match engine.data with
  | none => (zero, some ErrEngineNotLoaded)
  | some data =>
    match data.lookup key with
    | none => (zero, some (keyNotFoundOf key))
    | some value => fromValue value

def MapEngine.GetString (engine : MapEngine) (key : String) : String × Option GoError :=
  MapEngine.get engine key "" fun value =>
    match value with
    | GoValue.string t => (t, none)
    | GoValue.stringPtr none => ("", none)
    | GoValue.stringPtr (some t) => (t, none)
    | _ => ("", some (typeMismatchOf value))

def MapEngine.GetInt (engine : MapEngine) (key : String) : Int × Option GoError :=
  MapEngine.get engine key 0 fun value =>
    match value with
    | GoValue.int t => (t, none)
    | GoValue.intPtr none => (0, none)
    | GoValue.intPtr (some t) => (t, none)
    | _ => (0, some (typeMismatchOf value))

def MapEngine.GetUint (engine : MapEngine) (key : String) : Nat × Option GoError :=
  MapEngine.get engine key 0 fun value =>
    match value with
    | GoValue.uint t => (t, none)
    | GoValue.uintPtr none => (0, none)
    | GoValue.uintPtr (some t) => (t, none)
    | _ => (0, some (typeMismatchOf value))

def MapEngine.GetInt64 (engine : MapEngine) (key : String) : Int × Option GoError :=
  MapEngine.get engine key 0 fun value =>
    match value with
    | GoValue.int64 t => (t, none)
    | GoValue.int64Ptr none => (0, none)
    | GoValue.int64Ptr (some t) => (t, none)
    | _ => (0, some (typeMismatchOf value))

def MapEngine.GetUint64 (engine : MapEngine) (key : String) : Nat × Option GoError :=
  MapEngine.get engine key 0 fun value =>
    match value with
    | GoValue.uint64 t => (t, none)
    | GoValue.uint64Ptr none => (0, none)
    | GoValue.uint64Ptr (some t) => (t, none)
    | _ => (0, some (typeMismatchOf value))

def MapEngine.GetBool (engine : MapEngine) (key : String) : Bool × Option GoError :=
  MapEngine.get engine key false fun value =>
    match value with
    | GoValue.bool t => (t, none)
    | GoValue.boolPtr none => (false, none)
    | GoValue.boolPtr (some t) => (t, none)
    | _ => (false, some (typeMismatchOf value))

def MapEngine.GetFloat (engine : MapEngine) (key : String) : Float64 × Option GoError :=
  MapEngine.get engine key (Float64.mk 0) fun value =>
    match value with
    | GoValue.float64 t => (t, none)
    | GoValue.float64Ptr none => (Float64.mk 0, none)
    | GoValue.float64Ptr (some t) => (t, none)
    | _ => (Float64.mk 0, some (typeMismatchOf value))

def MapEngine.GetDuration (engine : MapEngine) (key : String) : Int × Option GoError :=
  MapEngine.get engine key 0 fun value =>
    match value with
    | GoValue.string t => parseDuration t
    | GoValue.stringPtr none => (0, none)
    | GoValue.stringPtr (some t) => parseDuration t
    | GoValue.duration t => (t, none)
    | GoValue.durationPtr none => (0, none)
    | GoValue.durationPtr (some t) => (t, none)
    | _ => (0, some (typeMismatchOf value))

/-- The common shape of the seven `convertInterfaceSliceTo...` functions: `pick`
is the type switch on one element (`none` for the default case).  The result
is allocated at full length, so a success is never the nil slice; the first
element that matches no case ends the call with a type mismatch naming that
element. -/
def convertInterfaceSlice {α : Type} (pick : GoValue → Option α) :
    List GoValue → Slice α × Option GoError
  | [] => (some [], none)
  | v :: rest =>
    match pick v with
    | none => (none, some (typeMismatchOf v))
    | some x =>
      match convertInterfaceSlice pick rest with
      | (some xs, none) => (some (x :: xs), none)
      | (_, err) => (none, err)

def convertInterfaceSliceToStringSlice (data : List GoValue) : Slice String × Option GoError :=
  convertInterfaceSlice
    (fun v => match v with
      | GoValue.string x => some x
      | GoValue.stringPtr (some x) => some x
      | GoValue.stringPtr none => some ""
      | _ => none)
    data

def convertInterfaceSliceToIntSlice (data : List GoValue) : Slice Int × Option GoError :=
  convertInterfaceSlice
    (fun v => match v with
      | GoValue.int x => some x
      | GoValue.intPtr (some x) => some x
      | GoValue.intPtr none => some 0
      | _ => none)
    data

def convertInterfaceSliceToUintSlice (data : List GoValue) : Slice Nat × Option GoError :=
  convertInterfaceSlice
    (fun v => match v with
      | GoValue.uint x => some x
      | GoValue.uintPtr (some x) => some x
      | GoValue.uintPtr none => some 0
      | _ => none)
    data

def convertInterfaceSliceToInt64Slice (data : List GoValue) : Slice Int × Option GoError :=
  convertInterfaceSlice
    (fun v => match v with
      | GoValue.int64 x => some x
      | GoValue.int64Ptr (some x) => some x
      | GoValue.int64Ptr none => some 0
      | _ => none)
    data

def convertInterfaceSliceToUint64Slice (data : List GoValue) : Slice Nat × Option GoError :=
  convertInterfaceSlice
    (fun v => match v with
      | GoValue.uint64 x => some x
      | GoValue.uint64Ptr (some x) => some x
      | GoValue.uint64Ptr none => some 0
      | _ => none)
    data

def convertInterfaceSliceToBoolSlice (data : List GoValue) : Slice Bool × Option GoError :=
  convertInterfaceSlice
    (fun v => match v with
      | GoValue.bool x => some x
      | GoValue.boolPtr (some x) => some x
      | GoValue.boolPtr none => some false
      | _ => none)
    data

def convertInterfaceSliceToFloat64Slice (data : List GoValue) : Slice Float64 × Option GoError :=
  convertInterfaceSlice
    (fun v => match v with
      | GoValue.float64 x => some x
      | GoValue.float64Ptr (some x) => some x
      | GoValue.float64Ptr none => some (Float64.mk 0)
      | _ => none)
    data

def MapEngine.GetStringSlice (engine : MapEngine) (key : String) : Slice String × Option GoError :=
  MapEngine.get engine key none fun value =>
    match value with
    | GoValue.stringSlice t => (t, none)
    | GoValue.ifaceSlice t => convertInterfaceSliceToStringSlice t
    | _ => (none, some (typeMismatchOf value))

def MapEngine.GetIntSlice (engine : MapEngine) (key : String) : Slice Int × Option GoError :=
  MapEngine.get engine key none fun value =>
    match value with
    | GoValue.intSlice t => (t, none)
    | GoValue.ifaceSlice t => convertInterfaceSliceToIntSlice t
    | _ => (none, some (typeMismatchOf value))

def MapEngine.GetUintSlice (engine : MapEngine) (key : String) : Slice Nat × Option GoError :=
  MapEngine.get engine key none fun value =>
    match value with
    | GoValue.uintSlice t => (t, none)
    | GoValue.ifaceSlice t => convertInterfaceSliceToUintSlice t
    | _ => (none, some (typeMismatchOf value))

def MapEngine.GetInt64Slice (engine : MapEngine) (key : String) : Slice Int × Option GoError :=
  MapEngine.get engine key none fun value =>
    match value with
    | GoValue.int64Slice t => (t, none)
    | GoValue.ifaceSlice t => convertInterfaceSliceToInt64Slice t
    | _ => (none, some (typeMismatchOf value))

def MapEngine.GetUint64Slice (engine : MapEngine) (key : String) : Slice Nat × Option GoError :=
  MapEngine.get engine key none fun value =>
    match value with
    | GoValue.uint64Slice t => (t, none)
    | GoValue.ifaceSlice t => convertInterfaceSliceToUint64Slice t
    | _ => (none, some (typeMismatchOf value))

def MapEngine.GetBoolSlice (engine : MapEngine) (key : String) : Slice Bool × Option GoError :=
  MapEngine.get engine key none fun value =>
    match value with
    | GoValue.boolSlice t => (t, none)
    | GoValue.ifaceSlice t => convertInterfaceSliceToBoolSlice t
    | _ => (none, some (typeMismatchOf value))

def MapEngine.GetFloatSlice (engine : MapEngine) (key : String) : Slice Float64 × Option GoError :=
  MapEngine.get engine key none fun value =>
    match value with
    | GoValue.float64Slice t => (t, none)
    | GoValue.ifaceSlice t => convertInterfaceSliceToFloat64Slice t
    | _ => (none, some (typeMismatchOf value))

/-- A `MapEngine` seen through the `Engine` interface; `ident` names the object. -/
def MapEngine.toEngine (engine : MapEngine) (ident : Nat) : Engine :=
  { ident := ident
    GetString := MapEngine.GetString engine
    GetStringSlice := MapEngine.GetStringSlice engine
    GetInt := MapEngine.GetInt engine
    GetIntSlice := MapEngine.GetIntSlice engine
    GetUint := MapEngine.GetUint engine
    GetUintSlice := MapEngine.GetUintSlice engine
    GetInt64 := MapEngine.GetInt64 engine
    GetInt64Slice := MapEngine.GetInt64Slice engine
    GetUint64 := MapEngine.GetUint64 engine
    GetUint64Slice := MapEngine.GetUint64Slice engine
    GetBool := MapEngine.GetBool engine
    GetBoolSlice := MapEngine.GetBoolSlice engine
    GetFloat := MapEngine.GetFloat engine
    GetFloatSlice := MapEngine.GetFloatSlice engine
    GetDuration := MapEngine.GetDuration engine }

/-! ## Notions used to state the properties -/

/-- The checks of the loop body that stand before the key is built let the
field through: it is bound, its class has an engine, and the plain chain is
not empty. -/
def passesChecks (m : Manager) (configTag : String) : Bool :=
  isBound configTag && !(isSecret configTag && decide (m.secrets.length = 0))
    && !decide (m.plains.length = 0)

/-- The chain `unmarshalObj` selects for a field. -/
def chainOf (m : Manager) (configTag : String) : List Engine :=
  if isSecret configTag = true then m.secrets else m.plains

/-- The traversal of the fields `fs` under the parent path `pfx` reaches the
field with annotation `tag` and value `v`, which sits in a structure whose
path is `fpfx`, and every field before it has been bound without error: the
field is one of `fs` after fields that bind without error, or it is reached
inside a nested structure of `fs` that stands after such fields and passes
the checks. -/
inductive Reaches (m : Manager) (hooks : Hooks) :
    String → Fields → String → String → FieldValue → Prop
  | here (pfx : String) (pre pre1 : Fields) (tr : List Event) (tag : String)
      (v : FieldValue) (post : Fields) :
      unmarshalFields m hooks pfx pre = (pre1, tr, Outcome.ok) →
      Reaches m hooks pfx (pre ++ (tag, v) :: post) pfx tag v
  | inside (pfx : String) (pre pre1 : Fields) (tr : List Event) (t tn : String)
      (inner post : Fields) (key fpfx tag : String) (v : FieldValue) :
      unmarshalFields m hooks pfx pre = (pre1, tr, Outcome.ok) →
      passesChecks m t = true →
      fieldKey m pfx (propName t) = some key →
      Reaches m hooks key inner fpfx tag v →
      Reaches m hooks pfx (pre ++ (t, FieldValue.struct tn inner) :: post) fpfx tag v

/-- The fields `unmarshalObj` reads through an accessor: the scalars of a
supported kind and the slices of int, int64, string, bool and float64. -/
def isReadKind : FieldValue → Bool
  | FieldValue.struct _ _ => false
  | FieldValue.structSlice _ => false
  | FieldValue.otherSlice => false
  | FieldValue.unsupported => false
  | _ => true

/-- The scalars of a supported kind. -/
def isScalarKind : FieldValue → Bool
  | FieldValue.string _ => true
  | FieldValue.int _ _ => true
  | FieldValue.int64 _ => true
  | FieldValue.duration _ => true
  | FieldValue.uint _ _ => true
  | FieldValue.uint64 _ => true
  | FieldValue.float64 _ => true
  | FieldValue.float32 _ => true
  | FieldValue.bool _ => true
  | _ => false

/-- The accessor `unmarshalObj` uses for a field of this kind, if it reads it. -/
def accessorOf : FieldValue → Option Accessor
  | FieldValue.intSlice _ => some Accessor.GetIntSlice
  | FieldValue.int64Slice _ => some Accessor.GetInt64Slice
  | FieldValue.stringSlice _ => some Accessor.GetStringSlice
  | FieldValue.boolSlice _ => some Accessor.GetBoolSlice
  | FieldValue.float64Slice _ => some Accessor.GetFloatSlice
  | FieldValue.string _ => some Accessor.GetString
  | FieldValue.int _ _ => some Accessor.GetInt
  | FieldValue.int64 _ => some Accessor.GetInt64
  | FieldValue.duration _ => some Accessor.GetDuration
  | FieldValue.uint _ _ => some Accessor.GetUint
  | FieldValue.uint64 _ => some Accessor.GetUint64
  | FieldValue.float64 _ => some Accessor.GetFloat
  | FieldValue.float32 _ => some Accessor.GetFloat
  | FieldValue.bool _ => some Accessor.GetBool
  | _ => none

/-- The error an engine returns when asked for `key` through the accessor of a
field of this kind (nil for a kind that is not read). -/
def readError (e : Engine) (key : String) : FieldValue → Option GoError
  | FieldValue.intSlice _ => (e.GetIntSlice key).2
  | FieldValue.int64Slice _ => (e.GetInt64Slice key).2
  | FieldValue.stringSlice _ => (e.GetStringSlice key).2
  | FieldValue.boolSlice _ => (e.GetBoolSlice key).2
  | FieldValue.float64Slice _ => (e.GetFloatSlice key).2
  | FieldValue.string _ => (e.GetString key).2
  | FieldValue.int _ _ => (e.GetInt key).2
  | FieldValue.int64 _ => (e.GetInt64 key).2
  | FieldValue.duration _ => (e.GetDuration key).2
  | FieldValue.uint _ _ => (e.GetUint key).2
  | FieldValue.uint64 _ => (e.GetUint64 key).2
  | FieldValue.float64 _ => (e.GetFloat key).2
  | FieldValue.float32 _ => (e.GetFloat key).2
  | FieldValue.bool _ => (e.GetBool key).2
  | _ => none

/-- The value a field of this kind holds once it has been set from what the
engine returns for `key`: the returned value, converted to the width of the
field where the field is narrower than the accessor's result. -/
def storedValue (e : Engine) (key : String) : FieldValue → FieldValue
  | FieldValue.intSlice _ => FieldValue.intSlice (e.GetIntSlice key).1
  | FieldValue.int64Slice _ => FieldValue.int64Slice (e.GetInt64Slice key).1
  | FieldValue.stringSlice _ => FieldValue.stringSlice (e.GetStringSlice key).1
  | FieldValue.boolSlice _ => FieldValue.boolSlice (e.GetBoolSlice key).1
  | FieldValue.float64Slice _ => FieldValue.float64Slice (e.GetFloatSlice key).1
  | FieldValue.string _ => FieldValue.string (e.GetString key).1
  | FieldValue.int k _ => FieldValue.int k (wrapSigned k.bits (e.GetInt key).1)
  | FieldValue.int64 _ => FieldValue.int64 (e.GetInt64 key).1
  | FieldValue.duration _ => FieldValue.duration (e.GetDuration key).1
  | FieldValue.uint k _ => FieldValue.uint k (wrapUnsigned k.bits (e.GetUint key).1)
  | FieldValue.uint64 _ => FieldValue.uint64 (e.GetUint64 key).1
  | FieldValue.float64 _ => FieldValue.float64 (e.GetFloat key).1
  | FieldValue.float32 _ => FieldValue.float32 (Float32.mk (e.GetFloat key).1)
  | FieldValue.bool _ => FieldValue.bool (e.GetBool key).1
  | w => w

/-- The closures of the switch, in one form: a read of `key` on the engine
through the accessor `acc` of the field `v`; when `lenient` (a scalar that is
not required) a key-not-found error is answered with nil and the field is left
alone; another error is returned; a success sets the field. -/
def leafClosure (lenient : Bool) (acc : Accessor) (v : FieldValue) (key : String) :
    Engine → FieldState → FieldState × Option GoError :=
  fun engine st =>
    if (lenient && errorsIs (readError engine key v) Sentinel.keyNotFound) = true then
      ((st.1, st.2 ++ [Event.read engine.ident acc key]), none)
    else match readError engine key v with
      | some err => ((st.1, st.2 ++ [Event.read engine.ident acc key]), some err)
      | none => ((storedValue engine key v, st.2 ++ [Event.read engine.ident acc key]), none)

mutual
/-- The field is provided for: if it is bound, it is a structure whose fields
are provided for under its key, or a scalar of a supported kind for which the
first engine of its chain returns a value without error. -/
def fieldProvided (m : Manager) (pfx : String) (configTag : String) (v : FieldValue) : Bool :=
  if isBound configTag = true then
    match fieldKey m pfx (propName configTag) with
    | none => false
    | some key =>
      match v with
      | FieldValue.struct _ inner => fieldsProvided m key inner
      | w =>
        isScalarKind w &&
          (match (chainOf m configTag).head? with
            | some e => decide (readError e key w = none)
            | none => false)
  else true
/-- Every field of the list is provided for. -/
def fieldsProvided (m : Manager) (pfx : String) : List (String × FieldValue) → Bool
  | [] => true
  | (configTag, v) :: rest => fieldProvided m pfx configTag v && fieldsProvided m pfx rest
end

mutual
/-- The field with every bound scalar in it, at any depth, set from what the
first engine of its chain returns for its key; fields that are not bound are
left as they are. -/
def fieldFromHead (m : Manager) (pfx : String) (configTag : String) (v : FieldValue) :
    FieldValue :=
  if isBound configTag = true then
    match fieldKey m pfx (propName configTag) with
    | none => v
    | some key =>
      match v with
      | FieldValue.struct tn inner => FieldValue.struct tn (fieldsFromHead m key inner)
      | w =>
        match (chainOf m configTag).head? with
        | some e => storedValue e key w
        | none => w
  else v
/-- The fields, each as `fieldFromHead` leaves it. -/
def fieldsFromHead (m : Manager) (pfx : String) :
    List (String × FieldValue) → List (String × FieldValue)
  | [] => []
  | (configTag, v) :: rest =>
    (configTag, fieldFromHead m pfx configTag v) :: fieldsFromHead m pfx rest
end

mutual
/-- No `Validate` method called for the field fails: if the field is bound and
holds a structure, the methods called for the fields of that structure do not
fail, and the method of its type, if it has one, returns nil on the structure
as populated. -/
def fieldAccepted (m : Manager) (hooks : Hooks) (pfx : String) (configTag : String)
    (v : FieldValue) : Bool :=
  if isBound configTag = true then
    match fieldKey m pfx (propName configTag) with
    | none => true
    | some key =>
      match v with
      | FieldValue.struct tn inner =>
        fieldsAccepted m hooks key inner &&
          (match hooks tn with
            | some validate => (validate (fieldsFromHead m key inner)).isNone
            | none => true)
      | _ => true
  else true
/-- No `Validate` method called for a field of the list fails. -/
def fieldsAccepted (m : Manager) (hooks : Hooks) (pfx : String) :
    List (String × FieldValue) → Bool
  | [] => true
  | (configTag, v) :: rest =>
    fieldAccepted m hooks pfx configTag v && fieldsAccepted m hooks pfx rest
end

/-- No `Validate` method that `Populate` calls on the target of type `typeName`
fails: none of those called for its fields, at any depth, and not the one of
the target itself, each on its structure as populated. -/
def hooksAccept (m : Manager) (hooks : Hooks) (typeName : String) (fs : Fields) : Bool :=
  fieldsAccepted m hooks "" fs &&
    (match hooks typeName with
      | some validate => (validate (fieldsFromHead m "" fs)).isNone
      | none => true)

/-- No structure type has a `Validate` method. -/
def noHooks : Hooks := fun _ => none

/-- An engine backed by a loaded `MapEngine` holding `entries`. -/
def mapSource (ident : Nat) (entries : List (String × GoValue)) : Engine :=
  MapEngine.toEngine { data := some entries } ident

/-! ## Sample inputs -/

/-- The structure `MyTestWithNestedConfig` of the tests, with a scalar of its
own: every field at its zero value. -/
def nestedConfigFields : Fields :=
  [("dsn,required", FieldValue.string ""),
   ("timeout", FieldValue.duration 0),
   ("database", FieldValue.struct "MyTestWithNestedConfigDatabase"
      [("dsn,required", FieldValue.string ""), ("timeout", FieldValue.duration 0)]),
   ("tokens", FieldValue.struct "MyTestWithNestedConfigTokens"
      [("access_token,required,secret", FieldValue.string "")])]

/-- A source holding every key of `nestedConfigFields`; one timeout is stored
as the string "10s", the other as a `time.Duration`. -/
def nestedConfigSource : Engine :=
  mapSource 1
    [("dsn", GoValue.string "X"),
     ("timeout", GoValue.string "10s"),
     ("database.dsn", GoValue.string "postgres://user@host:port/database"),
     ("database.timeout", GoValue.duration 10000000000),
     ("tokens.access_token", GoValue.string "token value")]

/-- A Manager with `nestedConfigSource` registered as plain and as secret. -/
def nestedConfigManager : Manager :=
  Manager.AddSecretEngine (Manager.AddPlainEngine (NewManager []) nestedConfigSource)
    nestedConfigSource

/-- A structure with one field of kind int8. -/
def int8Fields : Fields := [("n", FieldValue.int IntKind.int8 0)]

/-- A Manager whose only source, plain and secret, stores the int 300 under "n". -/
def int8Manager : Manager :=
  Manager.AddSecretEngine
    (Manager.AddPlainEngine (NewManager []) (mapSource 1 [("n", GoValue.int 300)]))
    (mapSource 1 [("n", GoValue.int 300)])

/-- A Manager with three plain sources registered in this order: the first
lacks the key "k", the second stores "a" under it, the third "b". -/
def threeSourceManager : Manager :=
  Manager.AddPlainEngine
    (Manager.AddPlainEngine
      (Manager.AddPlainEngine (NewManager []) (mapSource 1 []))
      (mapSource 2 [("k", GoValue.string "a")]))
    (mapSource 3 [("k", GoValue.string "b")])

/-- The structure `MyTestConfig` of the tests, every field at its zero value. -/
def myTestConfigFields : Fields :=
  [("dsn,required", FieldValue.string ""),
   ("password,required,secret", FieldValue.string ""),
   ("timeout", FieldValue.duration 0)]

/-- The Manager of the test "required fields not provided": a plain and a
secret source, each holding a timeout only. -/
def timeoutOnlyManager : Manager :=
  Manager.AddSecretEngine
    (Manager.AddPlainEngine (NewManager [])
      (mapSource 1 [("timeout", GoValue.duration 1000000000)]))
    (mapSource 2 [("timeout", GoValue.duration 1000000000)])

/-- A Manager with one plain and one secret source, both empty. -/
def emptySourcesManager : Manager :=
  Manager.AddSecretEngine (Manager.AddPlainEngine (NewManager []) (mapSource 1 []))
    (mapSource 2 [])

/-- A Manager whose plain source holds the key "password" and whose secret
source does not. -/
def crossedManager : Manager :=
  Manager.AddSecretEngine
    (Manager.AddPlainEngine (NewManager [])
      (mapSource 1 [("password", GoValue.string "in the plain source")]))
    (mapSource 2 [("token", GoValue.string "t")])

/-- The Manager of the test "no secret engine defined": one plain source
holding the dsn, no secret source. -/
def plainOnlyManager : Manager :=
  Manager.AddPlainEngine (NewManager [])
    (mapSource 1 [("dsn", GoValue.string "postgres://user@host:port/database")])

/-- A Manager with one secret source holding the key "password" and no plain
source. -/
def secretOnlyManager : Manager :=
  Manager.AddSecretEngine (NewManager []) (mapSource 1 [("password", GoValue.string "12345")])

/-- The error `errMustBePositive` of the tests. -/
def errMustBePositive : GoError := GoError.foreign "n must be positive"

/-- The structure `MyTestConfigWithValidation` of the tests. -/
def validationFields : Fields := [("n", FieldValue.int IntKind.int 0)]

/-- The method `Validate` of `MyTestConfigWithValidation`: it fails when `N` is
negative. -/
def validateN : Fields → Option GoError
  | [(_, FieldValue.int _ n)] => if n < 0 then some errMustBePositive else none
  | _ => none

/-- The method sets of the tests: only `MyTestConfigWithValidation` has a
`Validate` method. -/
def validationHooks : Hooks := fun typeName =>
  if typeName = "MyTestConfigWithValidation" then some validateN else none

/-- The Manager of the test "should fail due to invalid config". -/
def negativeManager : Manager :=
  Manager.AddPlainEngine (NewManager []) (mapSource 1 [("n", GoValue.int (-1))])

/-- A Manager whose plain and secret source both store the int 1 under "n". -/
def positiveManager : Manager :=
  Manager.AddSecretEngine
    (Manager.AddPlainEngine (NewManager []) (mapSource 1 [("n", GoValue.int 1)]))
    (mapSource 2 [("n", GoValue.int 1)])

/-! ## Notions for the registrations, the key path and the annotation -/

/-- A call of `AddPlainEngine` or of `AddSecretEngine`. -/
inductive Registration
  | plain (engine : Engine)
  | secret (engine : Engine)

/-- The Manager after one registration call. -/
def Manager.register (m : Manager) : Registration → Manager
  | Registration.plain engine => Manager.AddPlainEngine m engine
  | Registration.secret engine => Manager.AddSecretEngine m engine

/-- The Manager after a sequence of registration calls, in call order. -/
def Manager.registerAll (m : Manager) (rs : List Registration) : Manager :=
  rs.foldl Manager.register m

/-- The engines passed to `AddPlainEngine` among the calls, in call order. -/
def plainEngines : List Registration → List Engine
  | [] => []
  | Registration.plain engine :: rest => engine :: plainEngines rest
  | Registration.secret _ :: rest => plainEngines rest

/-- The engines passed to `AddSecretEngine` among the calls, in call order. -/
def secretEngines : List Registration → List Engine
  | [] => []
  | Registration.plain _ :: rest => secretEngines rest
  | Registration.secret engine :: rest => engine :: secretEngines rest

/-- The key segments joined by the separator: `k1 + sep + k2 + sep + ... + kn`,
the empty string for no segment. -/
def joinPath (sep : String) : List String → String
  | [] => ""
  | k :: ks => ks.foldl (fun acc x => acc ++ sep ++ x) k

/-- As `Reaches`, with the key segments of the nested structure fields the
traversal has entered on its way to the field, outermost first. -/
inductive ReachesVia (m : Manager) (hooks : Hooks) :
    String → Fields → List String → String → String → FieldValue → Prop
  | here (pfx : String) (pre pre1 : Fields) (tr : List Event) (tag : String)
      (v : FieldValue) (post : Fields) :
      unmarshalFields m hooks pfx pre = (pre1, tr, Outcome.ok) →
      ReachesVia m hooks pfx (pre ++ (tag, v) :: post) [] pfx tag v
  | inside (pfx : String) (pre pre1 : Fields) (tr : List Event) (t tn : String)
      (inner post : Fields) (key : String) (segs : List String) (fpfx tag : String)
      (v : FieldValue) :
      unmarshalFields m hooks pfx pre = (pre1, tr, Outcome.ok) →
      passesChecks m t = true →
      fieldKey m pfx (propName t) = some key →
      ReachesVia m hooks key inner segs fpfx tag v →
      ReachesVia m hooks pfx (pre ++ (t, FieldValue.struct tn inner) :: post)
        (propName t :: segs) fpfx tag v

/-- The lists of characters joined by `sep`. -/
def joinChars (sep : Char) : List (List Char) → List Char
  | [] => []
  | [t] => t
  | t :: u :: rest => t ++ sep :: joinChars sep (u :: rest)

/-- The annotation made of the given tokens: the tokens joined by commas. -/
def joinTag (toks : List String) : String :=
  String.mk (joinChars ',' (toks.map String.data))

/-- The token holds no comma. -/
def commaFree (tok : String) : Bool := !tok.data.contains ','

/-! ## Notions for the chain resolver -/

/-- The state once `f` has been invoked on each engine of the list in turn. -/
def stateAfter {σ : Type} (f : Engine → σ → σ × Option GoError) : List Engine → σ → σ
  | [], s => s
  | engine :: rest, s => stateAfter f rest (f engine s).1

/-- Invoked on each engine of the list in turn, `f` returns a key-not-found
error every time. -/
def allAbsent {σ : Type} (f : Engine → σ → σ × Option GoError) : List Engine → σ → Bool
  | [], _ => true
  | engine :: rest, s =>
    errorsIs (f engine s).2 Sentinel.keyNotFound && allAbsent f rest (f engine s).1

/-- The closure `f` with a record of its invocations: the state carries the
list of the engines `f` has been invoked on, by identity, in order. -/
def logged {σ : Type} (f : Engine → σ → σ × Option GoError) :
    Engine → σ × List Nat → (σ × List Nat) × Option GoError :=
  fun engine st => (((f engine st.1).1, st.2 ++ [engine.ident]), (f engine st.1).2)

/-- A structure whose only field is a nested `MyTestConfigWithValidation` under
the key "sub". -/
def outerFields : Fields :=
  [("sub", FieldValue.struct "MyTestConfigWithValidation" validationFields)]

/-- The error of the `Validate` method of the outer structure. -/
def errOuter : GoError := GoError.foreign "outer is invalid"

/-- Method sets in which the nested `MyTestConfigWithValidation` validates its
field and the outer structure type `Outer` has a `Validate` method that always
fails. -/
def nestedValidationHooks : Hooks := fun typeName =>
  if typeName = "MyTestConfigWithValidation" then some validateN
  else if typeName = "Outer" then some (fun _ => some errOuter)
  else none

/-- A Manager whose plain source stores -1 under "sub.n". -/
def nestedNegativeManager : Manager :=
  Manager.AddPlainEngine (NewManager []) (mapSource 1 [("sub.n", GoValue.int (-1))])

/-- The slices `unmarshalObj` reads: those of int, int64, string, bool and
float64. -/
def isSliceKind : FieldValue → Bool
  | FieldValue.intSlice _ => true
  | FieldValue.int64Slice _ => true
  | FieldValue.stringSlice _ => true
  | FieldValue.boolSlice _ => true
  | FieldValue.float64Slice _ => true
  | _ => false

/-- A Manager whose only source, plain and secret, stores the uint 256 under
"level" and the slice of ints [1, 2] under "levels". -/
def levelManager : Manager :=
  Manager.AddSecretEngine
    (Manager.AddPlainEngine (NewManager [])
      (mapSource 1 [("level", GoValue.uint 256), ("levels", GoValue.intSlice (some [1, 2]))]))
    (mapSource 1 [("level", GoValue.uint 256), ("levels", GoValue.intSlice (some [1, 2]))])

/-- A Manager on which nothing has been registered. -/
def freshManager : Manager := NewManager []

/-! ## engine_map.go: flattenMap and NewMapEngine -/

/-- The assignment `result[k] = v` on a map held as the list of its entries: the
entry of the key is replaced where it stands, a new key is added at the end. -/
def mapSet : List (String × GoValue) → String → GoValue → List (String × GoValue)
  | [], k, v => [(k, v)]
  | (k1, v1) :: rest, k, v =>
    if k1 = k then (k1, v) :: rest else (k1, v1) :: mapSet rest k v

/-- The inner loop of `flattenMap`: `result[k+"."+kk] = vv` for every entry
`(kk, vv)` of the flattened inner map. -/
def setAllUnder (k : String) :
    List (String × GoValue) → List (String × GoValue) → List (String × GoValue)
  | result, [] => result
  | result, (kk, vv) :: rest => setAllUnder k (mapSet result (k ++ "." ++ kk) vv) rest

mutual
/-- The body of the outer loop of `flattenMap` for the entry `(k, v)`: the type
switch on `v`. -/
def flattenValue (result : List (String × GoValue)) (k : String) :
    GoValue → List (String × GoValue)
  | GoValue.map inner => setAllUnder k result (flattenLoop [] inner)
  | v => mapSet result k v
/-- The outer loop of `flattenMap`, `result` being the map built so far.  Go
ranges over a map in an order it does not specify; the loop takes the entries
in the order of the list, so the order of the list stands for the order of the
run. -/
def flattenLoop (result : List (String × GoValue)) :
    List (String × GoValue) → List (String × GoValue)
  | [] => result
  | kv :: rest => flattenLoop (flattenValue result kv.1 kv.2) rest
end

def flattenMap (data : List (String × GoValue)) : List (String × GoValue) :=
  flattenLoop [] data

/-- The constructor `NewMapEngine`; a nil `data` is the empty list, and
`flattenMap` returns a map that is not nil for it as for any other. -/
def NewMapEngine (data : List (String × GoValue)) : MapEngine :=
  { data := some (flattenMap data) }

/-! ## Library functions used by engine_env.go

`strings.ToUpper`, `strings.ReplaceAll`, `strings.TrimSpace` and the parsers of
`strconv` in base 10, modelled after their Go sources on strings of characters,
that is on valid UTF-8 text.  `ToUpper` maps every rune through
`unicode.ToUpper`, which computes the result for a rune of ASCII and looks a
rune above ASCII up in the case tables of the Unicode version of the Go
release; the tables are a parameter of the model. -/

/-- The Go function `unicode.ToUpper`: a rune up to `unicode.MaxASCII` is mapped
by arithmetic, `a` to `z` to `A` to `Z` and any other to itself; a rune above it
is mapped by `unicode.To(unicode.UpperCase, r)`, the parameter `table`. -/
def unicodeToUpper (table : Char → Char) (r : Char) : Char :=
  if r.toNat ≤ 127 then
    if 'a' ≤ r ∧ r ≤ 'z' then Char.ofNat (r.toNat - 32) else r
  else table r

/-- The Go function `strings.ToUpper`: with and without a rune above ASCII in
the text, the result is the text with every rune mapped by `unicode.ToUpper`. -/
def toUpper (table : Char → Char) (s : String) : String :=
  String.mk (s.data.map (unicodeToUpper table))

/-- The Go call `strings.ReplaceAll(s, old, new)` for `old` and `new` of one
character each. -/
def replaceAll (s : String) (old new : Char) : String :=
  String.mk (s.data.map fun c => if c = old then new else c)

/-- The Go predicate `unicode.IsSpace`. -/
def isSpace (c : Char) : Bool :=
  let n := c.toNat
  decide (9 ≤ n ∧ n ≤ 13) || n == 32 || n == 0x85 || n == 0xA0 || n == 0x1680 ||
    decide (0x2000 ≤ n ∧ n ≤ 0x200A) || n == 0x2028 || n == 0x2029 || n == 0x202F ||
    n == 0x205F || n == 0x3000

/-- The Go function `strings.TrimSpace`. -/
def trimSpace (s : String) : String :=
  String.mk ((s.data.dropWhile isSpace).reverse.dropWhile isSpace).reverse

/-- The two causes a `*strconv.NumError` of these parsers carries: `ErrSyntax`
and `ErrRange`. -/
inductive NumErrKind
  | ErrSyntax
  | ErrRange
  deriving DecidableEq, Repr

/-- The Go type `strconv.NumError`. -/
structure NumError where
  Func : String
  Num : String
  Err : NumErrKind
  deriving DecidableEq, Repr

/-- The method `Error` of `*strconv.NumError`. -/
def NumError.Error (e : NumError) : String :=
  "strconv." ++ e.Func ++ ": parsing " ++ quote e.Num ++ ": " ++
    (match e.Err with
     | NumErrKind.ErrSyntax => "invalid syntax"
     | NumErrKind.ErrRange => "value out of range")

/-- A `*strconv.NumError` as an error of the embedding: it wraps no error of
the package. -/
def NumError.toError (e : NumError) : GoError := GoError.foreign e.Error

/-- The digit loop of `strconv.ParseUint` in base 10, `n` being the number read
so far: a character that is not a digit is a syntax error with value 0, a
number above `maxVal = 1<<bitSize - 1` a range error with value `maxVal`. -/
def parseUintLoop (bitSize : Nat) : List Char → Nat → Nat × Option NumErrKind
  | [], n => (n, none)
  | c :: cs, n =>
    if isDigit c = false then (0, some NumErrKind.ErrSyntax)
    else if n ≥ (2 ^ 64 - 1) / 10 + 1 then (2 ^ bitSize - 1, some NumErrKind.ErrRange)
    else
      let n1 := (n * 10 + digitValue c) % 2 ^ 64
      if n1 < n * 10 ∨ n1 > 2 ^ bitSize - 1 then (2 ^ bitSize - 1, some NumErrKind.ErrRange)
      else parseUintLoop bitSize cs n1

/-- The Go call `strconv.ParseUint(s, 10, bitSize)`, the error by its cause. -/
def parseUintKind (s : String) (bitSize : Nat) : Nat × Option NumErrKind :=
  if s = "" then (0, some NumErrKind.ErrSyntax) else parseUintLoop bitSize s.data 0

/-- The Go call `strconv.ParseUint(s, 10, bitSize)`. -/
def ParseUint (s : String) (bitSize : Nat) : Nat × Option NumError :=
  match parseUintKind s bitSize with
  | (n, none) => (n, none)
  | (n, some k) => (n, some { Func := "ParseUint", Num := s, Err := k })

/-- The Go call `strconv.ParseInt(s, 10, bitSize)`, the error under the function
name `fn`. -/
def parseIntAs (fn : String) (s : String) (bitSize : Nat) : Int × Option NumError :=
  if s = "" then (0, some { Func := fn, Num := s, Err := NumErrKind.ErrSyntax })
  else
    let neg := decide (s.data.head? = some '-')
    let body : List Char :=
      match s.data with
      | '+' :: cs => cs
      | '-' :: cs => cs
      | cs => cs
    match parseUintKind (String.mk body) bitSize with
    | (_, some NumErrKind.ErrSyntax) => (0, some { Func := fn, Num := s, Err := NumErrKind.ErrSyntax })
    | (un, _) =>
      let cutoff : Nat := 2 ^ (bitSize - 1)
      if neg = false ∧ un ≥ cutoff then
        ((cutoff : Int) - 1, some { Func := fn, Num := s, Err := NumErrKind.ErrRange })
      else if neg = true ∧ un > cutoff then
        (-(cutoff : Int), some { Func := fn, Num := s, Err := NumErrKind.ErrRange })
      else if neg = true then (-(un : Int), none)
      else ((un : Int), none)

/-- The Go call `strconv.ParseInt(s, 10, bitSize)`. -/
def ParseInt (s : String) (bitSize : Nat) : Int × Option NumError :=
  parseIntAs "ParseInt" s bitSize

/-- The Go function `strconv.Atoi`.  Its fast path, taken for a short string,
and its slow path both return what `ParseInt(s, 10, 0)` returns, the error
under the name `Atoi`; an `int` is 64 bits wide. -/
def Atoi (s : String) : Int × Option NumError :=
  parseIntAs "Atoi" s 64

/-- The Go function `strconv.ParseBool`. -/
def ParseBool (str : String) : Bool × Option NumError :=
  if str = "1" ∨ str = "t" ∨ str = "T" ∨ str = "TRUE" ∨ str = "true" ∨ str = "True" then
    (true, none)
  else if str = "0" ∨ str = "f" ∨ str = "F" ∨ str = "FALSE" ∨ str = "false" ∨ str = "False" then
    (false, none)
  else (false, some { Func := "ParseBool", Num := str, Err := NumErrKind.ErrSyntax })

/-! ## engine_env.go -/

/-- What the getters of `EnvEngine` take from outside the package and the model
does not compute: the environment of the process, read through `os.LookupEnv`
(`none` when the variable is not set), `strconv.ParseFloat(s, 64)`, whose
error is a `*strconv.NumError`, and the upper case table of the `unicode`
package, `unicode.To(unicode.UpperCase, r)`, which `strings.ToUpper` consults
for a rune above ASCII. -/
structure Host where
  LookupEnv : String → Option String
  ParseFloat : String → Float64 × Option NumError
  ToUpperCase : Char → Char

structure EnvEngine where
  pfx : String

abbrev EnvOption := EnvEngine → EnvEngine

def WithPrefix (pfx : String) : EnvOption :=
  fun engine => { engine with pfx := pfx }

def NewEnvEngine (opts : List EnvOption) : EnvEngine :=
  opts.foldl (fun engine opt => opt engine) { pfx := "" }

def EnvEngine.Load (_e : EnvEngine) : Option GoError := none

def EnvEngine.Unload (_e : EnvEngine) : Option GoError := none

def EnvEngine.getKey (host : Host) (e : EnvEngine) (key : String) : String :=
  toUpper host.ToUpperCase (replaceAll (e.pfx ++ key) '.' '_')

/-- The shape of every scalar getter: the lookup, `ErrKeyNotFound` itself when
the variable is not set, else what the parser returns. -/
def EnvEngine.scalar {α : Type} (host : Host) (e : EnvEngine) (key : String) (zero : α)
    (parse : String → α × Option GoError) : α × Option GoError :=
  match host.LookupEnv (e.getKey host key) with
  | none => (zero, some ErrKeyNotFound)
  | some value => parse value

/-- The lift of a parser of `strconv` to the error type of the embedding. -/
def viaNumError {α : Type} (r : α × Option NumError) : α × Option GoError :=
  (r.1, r.2.map NumError.toError)

/-- The error `fmt.Errorf("element %d: %w", i, err)` around an error of
`strconv`. -/
def elementError (i : Nat) (err : NumError) : GoError :=
  GoError.foreign ("element " ++ toString i ++ ": " ++ err.Error)

/-- The loop of a slice getter over the pieces of the value, from index `i`:
each piece is parsed and appended; the first failure ends the call with the
nil slice. -/
def parseElements {α : Type} (parse : String → α × Option NumError) :
    Nat → List String → Slice α × Option GoError
  | _, [] => (some [], none)
  | i, v :: rest =>
    match parse v with
    | (_, some err) => (none, some (elementError i err))
    | (u, none) =>
      match parseElements parse (i + 1) rest with
      | (some us, none) => (some (u :: us), none)
      | (_, err) => (none, err)

/-- The Go call `strings.Split(value, ",")`. -/
def splitComma (value : String) : List String :=
  (splitChars ',' value.data).map String.mk

/-- The shape of every slice getter but `GetStringSlice`: the lookup, the nil
slice for the empty value, else the loop over the pieces. -/
def EnvEngine.slice {α : Type} (host : Host) (e : EnvEngine) (key : String)
    (parse : String → α × Option NumError) : Slice α × Option GoError :=
  match host.LookupEnv (e.getKey host key) with
  | none => (none, some ErrKeyNotFound)
  | some value =>
    if value = "" then (none, none)
    else parseElements parse 0 (splitComma value)

def EnvEngine.GetString (host : Host) (e : EnvEngine) (key : String) :
    String × Option GoError :=
  EnvEngine.scalar host e key "" fun value => (value, none)

def EnvEngine.GetStringSlice (host : Host) (e : EnvEngine) (key : String) :
    Slice String × Option GoError :=
  match host.LookupEnv (e.getKey host key) with
  | none => (none, some ErrKeyNotFound)
  | some value =>
    if value = "" then (none, none)
    else (some (splitComma value), none)

def EnvEngine.GetInt (host : Host) (e : EnvEngine) (key : String) : Int × Option GoError :=
  EnvEngine.scalar host e key 0 fun value => viaNumError (Atoi value)

def EnvEngine.GetIntSlice (host : Host) (e : EnvEngine) (key : String) :
    Slice Int × Option GoError :=
  EnvEngine.slice host e key fun v => Atoi (trimSpace v)

def EnvEngine.GetUint (host : Host) (e : EnvEngine) (key : String) : Nat × Option GoError :=
  EnvEngine.scalar host e key 0 fun value => viaNumError (ParseUint value 32)

def EnvEngine.GetUintSlice (host : Host) (e : EnvEngine) (key : String) :
    Slice Nat × Option GoError :=
  EnvEngine.slice host e key fun v => ParseUint (trimSpace v) 32

def EnvEngine.GetInt64 (host : Host) (e : EnvEngine) (key : String) : Int × Option GoError :=
  EnvEngine.scalar host e key 0 fun value => viaNumError (ParseInt value 64)

def EnvEngine.GetInt64Slice (host : Host) (e : EnvEngine) (key : String) :
    Slice Int × Option GoError :=
  EnvEngine.slice host e key fun v => ParseInt (trimSpace v) 64

def EnvEngine.GetUint64 (host : Host) (e : EnvEngine) (key : String) : Nat × Option GoError :=
  EnvEngine.scalar host e key 0 fun value => viaNumError (ParseUint value 64)

def EnvEngine.GetUint64Slice (host : Host) (e : EnvEngine) (key : String) :
    Slice Nat × Option GoError :=
  EnvEngine.slice host e key fun v => ParseUint (trimSpace v) 64

def EnvEngine.GetBool (host : Host) (e : EnvEngine) (key : String) : Bool × Option GoError :=
  EnvEngine.scalar host e key false fun value => viaNumError (ParseBool value)

def EnvEngine.GetBoolSlice (host : Host) (e : EnvEngine) (key : String) :
    Slice Bool × Option GoError :=
  EnvEngine.slice host e key fun v => ParseBool v

def EnvEngine.GetFloat (host : Host) (e : EnvEngine) (key : String) :
    Float64 × Option GoError :=
  EnvEngine.scalar host e key (Float64.mk 0) fun value => viaNumError (host.ParseFloat value)

def EnvEngine.GetFloatSlice (host : Host) (e : EnvEngine) (key : String) :
    Slice Float64 × Option GoError :=
  EnvEngine.slice host e key fun v => host.ParseFloat (trimSpace v)

def EnvEngine.GetDuration (host : Host) (e : EnvEngine) (key : String) :
    Int × Option GoError :=
  EnvEngine.scalar host e key 0 fun value => parseDuration value

/-- An `EnvEngine` seen through the `Engine` interface; `ident` names the object. -/
def EnvEngine.toEngine (host : Host) (e : EnvEngine) (ident : Nat) : Engine :=
  { ident := ident
    GetString := EnvEngine.GetString host e
    GetStringSlice := EnvEngine.GetStringSlice host e
    GetInt := EnvEngine.GetInt host e
    GetIntSlice := EnvEngine.GetIntSlice host e
    GetUint := EnvEngine.GetUint host e
    GetUintSlice := EnvEngine.GetUintSlice host e
    GetInt64 := EnvEngine.GetInt64 host e
    GetInt64Slice := EnvEngine.GetInt64Slice host e
    GetUint64 := EnvEngine.GetUint64 host e
    GetUint64Slice := EnvEngine.GetUint64Slice host e
    GetBool := EnvEngine.GetBool host e
    GetBoolSlice := EnvEngine.GetBoolSlice host e
    GetFloat := EnvEngine.GetFloat host e
    GetFloatSlice := EnvEngine.GetFloatSlice host e
    GetDuration := EnvEngine.GetDuration host e }

/-! ## engine_yaml.go -/

/-- How a call ends: it returns, or the run-time panics. -/
inductive Call (α : Type)
  | returned (a : α)
  | panicked (msg : String)

/-- The message of the panic on a nil pointer. -/
def nilDereference : String :=
  "runtime error: invalid memory address or nil pointer dereference"

/-- A `Loader`, by what its `Load` returns on the call at hand: the text behind
the reader, and the error. -/
structure Loader where
  Load : String × Option GoError

/-- The `YAMLEngine`: the embedded `*MapEngine`, `none` when the pointer is nil,
and the loader. -/
structure YAMLEngine where
  mapEngine : Option MapEngine
  loader : Loader

def NewYAMLEngine (loader : Loader) : YAMLEngine :=
  { mapEngine := none, loader := loader }

/-- The method `Load`.  `decode` stands for the YAML decoder into a
`map[string]interface{}`, which is not part of the package. -/
def YAMLEngine.Load (decode : String → List (String × GoValue) × Option GoError)
    (engine : YAMLEngine) : YAMLEngine × Option GoError :=
  match engine.loader.Load with
  | (_, some err) => (engine, some err)
  | (reader, none) =>
    match decode reader with
    | (_, some err) => (engine, some err)
    | (data, none) =>
      ({ engine with mapEngine := some (NewMapEngine data) }, MapEngine.Load (NewMapEngine data))

/-- A method of `*MapEngine` called on a `YAMLEngine`, to which the embedding
promotes it: the receiver is the embedded pointer, and every such method reads
`engine.data` first, which panics on a nil receiver. -/
def YAMLEngine.promoted {α : Type} (engine : YAMLEngine) (method : MapEngine → α) : Call α :=
  match engine.mapEngine with
  | none => Call.panicked nilDereference
  | some inner => Call.returned (method inner)

/-! ## Notions for the engines -/

mutual
/-- The leaves below the entry `(k, v)` of a nested map: the paths of keys that
end at a value that is not itself a `map[string]interface{}`, each with that
value. -/
def leavesOf (k : String) : GoValue → List (List String × GoValue)
  | GoValue.map inner => (leaves inner).map fun pv => (k :: pv.1, pv.2)
  | v => [([k], v)]
/-- The leaves of a nested map, in the order of its entries. -/
def leaves : List (String × GoValue) → List (List String × GoValue)
  | [] => []
  | kv :: rest => leavesOf kv.1 kv.2 ++ leaves rest
end

/-- The entry the flattened map is said to hold for a leaf: its path joined by
dots, and its value. -/
def dottedEntry (pv : List String × GoValue) : String × GoValue :=
  (joinPath "." pv.1, pv.2)

def isMap : GoValue → Bool
  | GoValue.map _ => true
  | _ => false

/-- A typed read through the `Engine` interface, the value returned held as an
`interface{}`: one form for the fifteen getters. -/
def Engine.call (e : Engine) (acc : Accessor) (key : String) : GoValue × Option GoError :=
  match acc with
  | Accessor.GetString => (GoValue.string (e.GetString key).1, (e.GetString key).2)
  | Accessor.GetStringSlice =>
    (GoValue.stringSlice (e.GetStringSlice key).1, (e.GetStringSlice key).2)
  | Accessor.GetInt => (GoValue.int (e.GetInt key).1, (e.GetInt key).2)
  | Accessor.GetIntSlice => (GoValue.intSlice (e.GetIntSlice key).1, (e.GetIntSlice key).2)
  | Accessor.GetUint => (GoValue.uint (e.GetUint key).1, (e.GetUint key).2)
  | Accessor.GetUintSlice => (GoValue.uintSlice (e.GetUintSlice key).1, (e.GetUintSlice key).2)
  | Accessor.GetInt64 => (GoValue.int64 (e.GetInt64 key).1, (e.GetInt64 key).2)
  | Accessor.GetInt64Slice =>
    (GoValue.int64Slice (e.GetInt64Slice key).1, (e.GetInt64Slice key).2)
  | Accessor.GetUint64 => (GoValue.uint64 (e.GetUint64 key).1, (e.GetUint64 key).2)
  | Accessor.GetUint64Slice =>
    (GoValue.uint64Slice (e.GetUint64Slice key).1, (e.GetUint64Slice key).2)
  | Accessor.GetBool => (GoValue.bool (e.GetBool key).1, (e.GetBool key).2)
  | Accessor.GetBoolSlice => (GoValue.boolSlice (e.GetBoolSlice key).1, (e.GetBoolSlice key).2)
  | Accessor.GetFloat => (GoValue.float64 (e.GetFloat key).1, (e.GetFloat key).2)
  | Accessor.GetFloatSlice =>
    (GoValue.float64Slice (e.GetFloatSlice key).1, (e.GetFloatSlice key).2)
  | Accessor.GetDuration => (GoValue.duration (e.GetDuration key).1, (e.GetDuration key).2)

/-- The zero value of the result type of a getter: the nil slice for a slice
getter. -/
def zeroValue : Accessor → GoValue
  | Accessor.GetString => GoValue.string ""
  | Accessor.GetStringSlice => GoValue.stringSlice none
  | Accessor.GetInt => GoValue.int 0
  | Accessor.GetIntSlice => GoValue.intSlice none
  | Accessor.GetUint => GoValue.uint 0
  | Accessor.GetUintSlice => GoValue.uintSlice none
  | Accessor.GetInt64 => GoValue.int64 0
  | Accessor.GetInt64Slice => GoValue.int64Slice none
  | Accessor.GetUint64 => GoValue.uint64 0
  | Accessor.GetUint64Slice => GoValue.uint64Slice none
  | Accessor.GetBool => GoValue.bool false
  | Accessor.GetBoolSlice => GoValue.boolSlice none
  | Accessor.GetFloat => GoValue.float64 (Float64.mk 0)
  | Accessor.GetFloatSlice => GoValue.float64Slice none
  | Accessor.GetDuration => GoValue.duration 0

/-- The dynamic types a getter of `MapEngine` is said to accept: `T` and `*T`
for a scalar getter of type `T`, `[]T` and `[]interface{}` for a slice getter,
and `string`, `*string`, `time.Duration`, `*time.Duration` for `GetDuration`. -/
def accepts : Accessor → GoValue → Bool
  | Accessor.GetString, GoValue.string _ => true
  | Accessor.GetString, GoValue.stringPtr _ => true
  | Accessor.GetInt, GoValue.int _ => true
  | Accessor.GetInt, GoValue.intPtr _ => true
  | Accessor.GetUint, GoValue.uint _ => true
  | Accessor.GetUint, GoValue.uintPtr _ => true
  | Accessor.GetInt64, GoValue.int64 _ => true
  | Accessor.GetInt64, GoValue.int64Ptr _ => true
  | Accessor.GetUint64, GoValue.uint64 _ => true
  | Accessor.GetUint64, GoValue.uint64Ptr _ => true
  | Accessor.GetBool, GoValue.bool _ => true
  | Accessor.GetBool, GoValue.boolPtr _ => true
  | Accessor.GetFloat, GoValue.float64 _ => true
  | Accessor.GetFloat, GoValue.float64Ptr _ => true
  | Accessor.GetDuration, GoValue.string _ => true
  | Accessor.GetDuration, GoValue.stringPtr _ => true
  | Accessor.GetDuration, GoValue.duration _ => true
  | Accessor.GetDuration, GoValue.durationPtr _ => true
  | Accessor.GetStringSlice, GoValue.stringSlice _ => true
  | Accessor.GetIntSlice, GoValue.intSlice _ => true
  | Accessor.GetUintSlice, GoValue.uintSlice _ => true
  | Accessor.GetInt64Slice, GoValue.int64Slice _ => true
  | Accessor.GetUint64Slice, GoValue.uint64Slice _ => true
  | Accessor.GetBoolSlice, GoValue.boolSlice _ => true
  | Accessor.GetFloatSlice, GoValue.float64Slice _ => true
  | Accessor.GetStringSlice, GoValue.ifaceSlice _ => true
  | Accessor.GetIntSlice, GoValue.ifaceSlice _ => true
  | Accessor.GetUintSlice, GoValue.ifaceSlice _ => true
  | Accessor.GetInt64Slice, GoValue.ifaceSlice _ => true
  | Accessor.GetUint64Slice, GoValue.ifaceSlice _ => true
  | Accessor.GetBoolSlice, GoValue.ifaceSlice _ => true
  | Accessor.GetFloatSlice, GoValue.ifaceSlice _ => true
  | _, _ => false

/-- What a scalar getter of type `T` is said to return, for the stored value
`plain t` of type `T` and `ptr p` of type `*T`: `t` as it is, the pointee of a
pointer that is not nil, the zero value for a nil pointer, each with a nil
error. -/
def ScalarGetterSpec {α : Type} (get : α × Option GoError) (plain : α → GoValue)
    (ptr : Option α → GoValue) (zero : α) (stored : Option GoValue) : Prop :=
  (∀ t, stored = some (plain t) → get = (t, none)) ∧
  (∀ t, stored = some (ptr (some t)) → get = (t, none)) ∧
  (stored = some (ptr none) → get = (zero, none))

/-- One element of a `[]interface{}` as a `T`: a `T` copied, the pointee of a
`*T` that is not nil, the zero value for a nil `*T`; `none` for an element of
any other type. -/
def elementAs {α : Type} (plain : GoValue → Option α) (ptr : GoValue → Option (Option α))
    (zero : α) (v : GoValue) : Option α :=
  match plain v, ptr v with
  | some x, _ => some x
  | none, some (some x) => some x
  | none, some none => some zero
  | none, none => none

/-- What a slice getter of element type `T` is said to return: for a stored
`[]interface{}` whose elements all are a `T` or a `*T`, the slice of the same
length and order; for one with an element of another type, the nil slice and
a type mismatch; a stored `[]T` unchanged. -/
def SliceGetterSpec {α : Type} (get : Slice α × Option GoError) (element : GoValue → Option α)
    (typed : Slice α → GoValue) (stored : Option GoValue) : Prop :=
  (∀ xs ys, stored = some (GoValue.ifaceSlice xs) → xs.map element = ys.map some →
    get = (some ys, none)) ∧
  (∀ xs, stored = some (GoValue.ifaceSlice xs) → (∃ x ∈ xs, element x = none) →
    get.1 = none ∧ errorsIs get.2 Sentinel.typeMismatch = true) ∧
  (∀ t, stored = some (typed t) → get = (t, none))

def asString : GoValue → Option String
  | GoValue.string x => some x
  | _ => none

def asStringPtr : GoValue → Option (Option String)
  | GoValue.stringPtr p => some p
  | _ => none

def asInt : GoValue → Option Int
  | GoValue.int x => some x
  | _ => none

def asIntPtr : GoValue → Option (Option Int)
  | GoValue.intPtr p => some p
  | _ => none

def asUint : GoValue → Option Nat
  | GoValue.uint x => some x
  | _ => none

def asUintPtr : GoValue → Option (Option Nat)
  | GoValue.uintPtr p => some p
  | _ => none

def asInt64 : GoValue → Option Int
  | GoValue.int64 x => some x
  | _ => none

def asInt64Ptr : GoValue → Option (Option Int)
  | GoValue.int64Ptr p => some p
  | _ => none

def asUint64 : GoValue → Option Nat
  | GoValue.uint64 x => some x
  | _ => none

def asUint64Ptr : GoValue → Option (Option Nat)
  | GoValue.uint64Ptr p => some p
  | _ => none

def asBool : GoValue → Option Bool
  | GoValue.bool x => some x
  | _ => none

def asBoolPtr : GoValue → Option (Option Bool)
  | GoValue.boolPtr p => some p
  | _ => none

def asFloat64 : GoValue → Option Float64
  | GoValue.float64 x => some x
  | _ => none

def asFloat64Ptr : GoValue → Option (Option Float64)
  | GoValue.float64Ptr p => some p
  | _ => none

/-- The ways a typed read `r` of a loaded `MapEngine` can end for a key under
which the data holds `value`: with a nil error, for a type the getter accepts;
with the zero value and a type mismatch naming `value`, which the getter has
no case for; with the zero value and a type mismatch naming an element of the
stored `[]interface{}`; for `GetDuration`, with the error of
`time.ParseDuration` on the stored string. -/
def PresentRead (r : GoValue × Option GoError) (acc : Accessor) (value : GoValue) : Prop :=
  (accepts acc value = true ∧ r.2 = none)
  ∨ (accepts acc value = false ∧ r = (zeroValue acc, some (typeMismatchOf value)))
  ∨ (∃ xs bad, value = GoValue.ifaceSlice xs ∧ bad ∈ xs ∧ accepts acc value = true ∧
      r = (zeroValue acc, some (typeMismatchOf bad)))
  ∨ (acc = Accessor.GetDuration ∧ accepts acc value = true ∧ ∃ s msg,
      (value = GoValue.string s ∨ value = GoValue.stringPtr (some s)) ∧
      r = (GoValue.duration 0, some (GoError.foreign msg)) ∧
      (parseDuration s).2 = some (GoError.foreign msg))

/-! ## Sample inputs for the engines -/

/-- A process environment holding three variables, a `ParseFloat` that
accepts no text, and a case table that maps every rune to itself. -/
def sampleHost : Host :=
  { LookupEnv := fun name =>
      if name = "TEST_KEY" then some "abc"
      else if name = "PORTS" then some "80, 443,x"
      else if name = "APP_DB_PORT" then some "5432"
      else none
    ParseFloat := fun s =>
      (Float64.mk 0, some { Func := "ParseFloat", Num := s, Err := NumErrKind.ErrSyntax })
    ToUpperCase := fun r => r }

/-- A process environment holding the variable `CAFÉ_X`, with a case table that
maps the letter é to É and every other rune to itself. -/
def accentHost : Host :=
  { LookupEnv := fun name => if name = "CAFÉ_X" then some "7" else none
    ParseFloat := sampleHost.ParseFloat
    ToUpperCase := fun r => if r = 'é' then 'É' else r }

/-- A map whose one entry holds a string that is no duration. -/
def timeoutData : List (String × GoValue) := [("timeout", GoValue.string "soon")]

/-- A call of `Load` or of `Unload` on an engine. -/
inductive Lifecycle
  | load
  | unload
  deriving DecidableEq, Repr

/-- A sequence of `Load` and `Unload` calls on a `MapEngine`: the engine after
the calls, and the errors the calls returned, in order. -/
def MapEngine.run (engine : MapEngine) : List Lifecycle → MapEngine × List (Option GoError)
  | [] => (engine, [])
  | Lifecycle.load :: rest =>
    ((MapEngine.run engine rest).1, MapEngine.Load engine :: (MapEngine.run engine rest).2)
  | Lifecycle.unload :: rest =>
    ((MapEngine.run (MapEngine.Unload engine).1 rest).1,
      (MapEngine.Unload engine).2 :: (MapEngine.run (MapEngine.Unload engine).1 rest).2)

/-- The two steps of the name mapping of `EnvEngine`, on one character: the dot
replaced by the underscore, then the upper case. -/
def envNameChar (table : Char → Char) (c : Char) : Char :=
  unicodeToUpper table (if c = '.' then '_' else c)

/-! ## Notions for the values of environment variables -/

/-- The number a list of decimal digits writes, continuing from `n`. -/
def decimalFrom (n : Nat) (digits : List Char) : Nat :=
  digits.foldl (fun acc c => acc * 10 + digitValue c) n

/-- The number a decimal string writes. -/
def decimalValue (s : String) : Nat := decimalFrom 0 s.data

/-- A decimal string: one or more of the digits `0` to `9` and nothing else. -/
def isDecimal (s : String) : Bool :=
  !s.data.isEmpty && s.data.all isDigit

/-- The digits of a signed decimal string, after its optional sign. -/
def unsignedPart (s : String) : String :=
  String.mk (match s.data with
    | '+' :: cs => cs
    | '-' :: cs => cs
    | cs => cs)

/-- A valid decimal integer, as the claim about `GetIntSlice` calls it: an
optional sign `+` or `-`, then a decimal string, the number written being an
`int` (of 64 bits). -/
def isDecimalInt (s : String) : Bool :=
  isDecimal (unsignedPart s) &&
    (if s.data.head? = some '-' then decide (decimalValue (unsignedPart s) ≤ 2 ^ 63)
     else decide (decimalValue (unsignedPart s) < 2 ^ 63))

/-- The integer a valid decimal integer writes. -/
def decimalIntValue (s : String) : Int :=
  if s.data.head? = some '-' then -(decimalValue (unsignedPart s) : Int)
  else (decimalValue (unsignedPart s) : Int)

/-! ## Notions for the messages of errors -/

/-- Whether the characters `sub` stand at the start of `s`. -/
def startsWith : List Char → List Char → Bool
  | [], _ => true
  | _ :: _, [] => false
  | a :: as, b :: bs => a == b && startsWith as bs

/-- Whether the characters `sub` occur in `s`, at some place. -/
def occursAt (sub : List Char) : List Char → Bool
  | [] => startsWith sub []
  | c :: cs => startsWith sub (c :: cs) || occursAt sub cs

/-- Whether the text `sub` occurs in the text `s`. -/
def occursIn (sub s : String) : Bool := occursAt sub.data s.data

/-! ## Sample inputs for the traversal of nested fields -/

/-- A structure with one bound field, a slice of structures. -/
def itemsFields : Fields :=
  [("items", FieldValue.structSlice [FieldValue.struct "Item" [("name", FieldValue.string "")]])]

/-- A structure whose one field is tagged secret and required and holds a
structure with a string and a slice of strings, neither of them tagged secret
or required. -/
def credentialsFields : Fields :=
  [("credentials,secret,required", FieldValue.struct "Credentials"
    [("user", FieldValue.string ""), ("scopes", FieldValue.stringSlice none)])]

/-- The nested map with the value "X" at the path `database`, `dsn`. -/
def databaseMap : List (String × GoValue) :=
  [("database", GoValue.map [("dsn", GoValue.string "X")])]

/-- A Manager built with the separator "/" whose one source, plain, is the
`MapEngine` of `databaseMap`. -/
def slashManager : Manager :=
  Manager.AddPlainEngine (NewManager [WithKeySeparator "/"])
    (MapEngine.toEngine (NewMapEngine databaseMap) 1)

/-- A structure with the nested structure `database` and its required string
`dsn`. -/
def databaseFields : Fields :=
  [("database", FieldValue.struct "Database" [("dsn,required", FieldValue.string "")])]

/-! # Properties -/

/-! ## The switch over the kinds, in one form -/

theorem unmarshalLeaf_eq_resolve (engines : List Engine) (required : Bool) (key : String)
    (v : FieldValue) (h : isReadKind v = true) :
    ∃ acc, accessorOf v = some acc ∧
      unmarshalLeaf engines required key v =
        resolveField engines (leafClosure (isScalarKind v && !required) acc v key) v := by
  cases v <;> simp [isReadKind] at h <;>
    exact ⟨_, rfl, rfl⟩

/-! ## The chain resolver on the closures of the switch -/

theorem readLoop_head_found (l : Bool) (acc : Accessor) (v : FieldValue) (key : String)
    (e : Engine) (rest : List Engine) (last : Option GoError) (st : FieldState)
    (h : readError e key v = none) :
    readLoop (leafClosure l acc v key) (e :: rest) last st =
      ((storedValue e key v, st.2 ++ [Event.read e.ident acc key]), none) := by
  simp [readLoop, leafClosure, h, errorsIs]

theorem readLoop_head_lenient (acc : Accessor) (v : FieldValue) (key : String)
    (e : Engine) (rest : List Engine) (last : Option GoError) (st : FieldState)
    (h : errorsIs (readError e key v) Sentinel.keyNotFound = true) :
    readLoop (leafClosure true acc v key) (e :: rest) last st =
      ((st.1, st.2 ++ [Event.read e.ident acc key]), none) := by
  simp [readLoop, leafClosure, h]

theorem errorsIs_some_of_true (o : Option GoError) (t : Sentinel) (h : errorsIs o t = true) :
    ∃ err, o = some err := by
  cases o with
  | none => simp [errorsIs] at h
  | some err => exact ⟨err, rfl⟩

theorem readLoop_strict_absent (acc : Accessor) (v : FieldValue) (key : String) :
    ∀ (engines : List Engine) (last : Option GoError) (st : FieldState),
      (∀ e ∈ engines, errorsIs (readError e key v) Sentinel.keyNotFound = true) →
      (last = none ∨ errorsIs last Sentinel.keyNotFound = true) →
      ∃ err, (readLoop (leafClosure false acc v key) engines last st).2 = some err ∧
        errorsIs (some err) Sentinel.keyNotFound = true ∧
        (readLoop (leafClosure false acc v key) engines last st).1.1 = st.1 := by
  intro engines
  induction engines with
  | nil =>
    intro last st _ hlast
    cases last with
    | none => exact ⟨ErrKeyNotFound, by simp [readLoop], by decide, by simp [readLoop]⟩
    | some e0 =>
      rcases hlast with hl | hl
      · cases hl
      · exact ⟨e0, by simp [readLoop], hl, by simp [readLoop]⟩
  | cons e rest ih =>
    intro last st hall _
    have he : errorsIs (readError e key v) Sentinel.keyNotFound = true :=
      hall e (List.mem_cons_self e rest)
    obtain ⟨err, herr⟩ := errorsIs_some_of_true _ _ he
    have hrest : ∀ x ∈ rest, errorsIs (readError x key v) Sentinel.keyNotFound = true :=
      fun x hx => hall x (List.mem_cons_of_mem e hx)
    have hstep : readLoop (leafClosure false acc v key) (e :: rest) last st =
        readLoop (leafClosure false acc v key) rest (some err)
          (st.1, st.2 ++ [Event.read e.ident acc key]) := by
      rw [herr] at he
      simp [readLoop, leafClosure, herr, he]
    rw [hstep]
    exact ih (some err) (st.1, st.2 ++ [Event.read e.ident acc key]) hrest
      (Or.inr (by rw [← herr]; exact he))

theorem readLoop_trace (l : Bool) (acc : Accessor) (v : FieldValue) (key : String) :
    ∀ (engines : List Engine) (last : Option GoError) (st : FieldState),
      ∃ n, (readLoop (leafClosure l acc v key) engines last st).1.2 =
        st.2 ++ (engines.take n).map (fun e => Event.read e.ident acc key) := by
  intro engines
  induction engines with
  | nil =>
    intro last st
    refine ⟨0, ?_⟩
    cases last <;> simp [readLoop]
  | cons e rest ih =>
    intro last st
    by_cases hl : (l && errorsIs (readError e key v) Sentinel.keyNotFound) = true
    · refine ⟨1, ?_⟩
      simp [readLoop, leafClosure, hl]
    · cases hre : readError e key v with
      | none =>
        refine ⟨1, ?_⟩
        simp [readLoop, leafClosure, hre, errorsIs]
      | some err =>
        rw [hre] at hl
        by_cases hk : errorsIs (some err) Sentinel.keyNotFound = true
        · obtain ⟨n, hn⟩ := ih (some err) (st.1, st.2 ++ [Event.read e.ident acc key])
          refine ⟨n + 1, ?_⟩
          have hlf : l = false := by
            cases l
            · rfl
            · simp [hk] at hl
          have hstep : readLoop (leafClosure l acc v key) (e :: rest) last st =
              readLoop (leafClosure l acc v key) rest (some err)
                (st.1, st.2 ++ [Event.read e.ident acc key]) := by
            simp [readLoop, leafClosure, hre, hlf, hk]
          rw [hstep, hn]
          simp
        · refine ⟨1, ?_⟩
          simp [readLoop, leafClosure, hre, hl, hk]

/-! ## The loop body, case by case -/

theorem isBound_eq_true_iff (configTag : String) :
    isBound configTag = true ↔ ¬(propName configTag = "-" ∨ propName configTag = "") := by
  simp [isBound]

theorem unmarshalField_unbound (m : Manager) (hooks : Hooks) (pfx configTag : String)
    (v : FieldValue) (h : isBound configTag = false) :
    unmarshalField m hooks pfx configTag v = (v, [], Outcome.ok) := by
  have hb : propName configTag = "-" ∨ propName configTag = "" := by
    by_contra hc
    have := (isBound_eq_true_iff configTag).2 hc
    simp [h] at this
  cases v <;> rw [unmarshalField] <;> simp [hb]

theorem unmarshalField_noSecret (m : Manager) (hooks : Hooks) (pfx configTag : String)
    (v : FieldValue) (hb : isBound configTag = true) (hs : isSecret configTag = true)
    (hn : m.secrets = []) :
    unmarshalField m hooks pfx configTag v = (v, [], Outcome.error ErrNoSecretEngineDefined) := by
  have hb1 := (isBound_eq_true_iff configTag).1 hb
  cases v <;> rw [unmarshalField] <;> simp [hb1, hs, hn]

theorem unmarshalField_noPlain (m : Manager) (hooks : Hooks) (pfx configTag : String)
    (v : FieldValue) (hb : isBound configTag = true)
    (hc : isSecret configTag = true → m.secrets ≠ []) (hn : m.plains = []) :
    unmarshalField m hooks pfx configTag v = (v, [], Outcome.error ErrNoPlainEngineDefined) := by
  have hb1 := (isBound_eq_true_iff configTag).1 hb
  have hne : configTag ≠ "" := by
    intro h0
    rw [h0] at hb
    exact absurd hb (by decide)
  cases hsec : isSecret configTag with
  | false => cases v <;> rw [unmarshalField] <;> simp [hb1, hsec, hn]
  | true =>
    have hs := hc hsec
    cases v <;> rw [unmarshalField] <;> simp [hb1, hsec, hn, hs, hne]

theorem passesChecks_iff (m : Manager) (configTag : String) :
    passesChecks m configTag = true ↔
      isBound configTag = true ∧ (isSecret configTag = true → m.secrets ≠ []) ∧
        m.plains ≠ [] := by
  cases hsec : isSecret configTag <;> simp [passesChecks, List.length_eq_zero, hsec, and_assoc]

theorem unmarshalField_leaf (m : Manager) (hooks : Hooks) (pfx configTag key : String)
    (v : FieldValue) (hp : passesChecks m configTag = true)
    (hk : fieldKey m pfx (propName configTag) = some key)
    (hv : ∀ tn fs, v ≠ FieldValue.struct tn fs) :
    unmarshalField m hooks pfx configTag v =
      unmarshalLeaf (chainOf m configTag) (isRequired configTag) key v := by
  obtain ⟨hb, hs, hpl⟩ := (passesChecks_iff m configTag).1 hp
  have hb1 := (isBound_eq_true_iff configTag).1 hb
  cases hsec : isSecret configTag with
  | false =>
    cases v <;> first
      | exact absurd rfl (hv _ _)
      | (rw [unmarshalField]; simp [hb1, hsec, hpl, hk, chainOf])
  | true =>
    have hs1 := hs hsec
    cases v <;> first
      | exact absurd rfl (hv _ _)
      | (rw [unmarshalField]; simp [hb1, hsec, hs1, hpl, hk, chainOf])

theorem unmarshalField_struct (m : Manager) (hooks : Hooks) (pfx configTag key tn : String)
    (fs : Fields) (hp : passesChecks m configTag = true)
    (hk : fieldKey m pfx (propName configTag) = some key) :
    unmarshalField m hooks pfx configTag (FieldValue.struct tn fs) =
      (FieldValue.struct tn (runValidator hooks key tn (unmarshalFields m hooks key fs)).1,
        (runValidator hooks key tn (unmarshalFields m hooks key fs)).2.1,
        (runValidator hooks key tn (unmarshalFields m hooks key fs)).2.2) := by
  obtain ⟨hb, hs, hpl⟩ := (passesChecks_iff m configTag).1 hp
  have hb1 := (isBound_eq_true_iff configTag).1 hb
  cases hsec : isSecret configTag with
  | false =>
    rw [unmarshalField]
    simp [hb1, hsec, hpl, hk]
  | true =>
    have hs1 := hs hsec
    rw [unmarshalField]
    simp [hb1, hsec, hs1, hpl, hk]

/-! ## The loop over the fields -/

/-- The struct case of the switch is the recursive call of `unmarshalObj` on the
nested structure, under the key of the field. -/
theorem unmarshalField_struct_unmarshalObj (m : Manager) (hooks : Hooks)
    (pfx configTag key tn : String) (fs : Fields) (hp : passesChecks m configTag = true)
    (hk : fieldKey m pfx (propName configTag) = some key) :
    unmarshalField m hooks pfx configTag (FieldValue.struct tn fs) =
      (FieldValue.struct tn (unmarshalObj m hooks key tn fs).1,
        (unmarshalObj m hooks key tn fs).2.1, (unmarshalObj m hooks key tn fs).2.2) :=
  unmarshalField_struct m hooks pfx configTag key tn fs hp hk

theorem unmarshalFields_nil (m : Manager) (hooks : Hooks) (pfx : String) :
    unmarshalFields m hooks pfx [] = ([], [], Outcome.ok) := by
  rw [unmarshalFields]

theorem unmarshalFields_cons_ok (m : Manager) (hooks : Hooks) (pfx tag : String)
    (v v1 : FieldValue) (tr : List Event) (rest : Fields)
    (h : unmarshalField m hooks pfx tag v = (v1, tr, Outcome.ok)) :
    unmarshalFields m hooks pfx ((tag, v) :: rest) =
      ((tag, v1) :: (unmarshalFields m hooks pfx rest).1,
        tr ++ (unmarshalFields m hooks pfx rest).2.1,
        (unmarshalFields m hooks pfx rest).2.2) := by
  rw [unmarshalFields, h]

theorem unmarshalFields_cons_stop (m : Manager) (hooks : Hooks) (pfx tag : String)
    (v v1 : FieldValue) (tr : List Event) (out : Outcome) (rest : Fields)
    (h : unmarshalField m hooks pfx tag v = (v1, tr, out)) (hout : out ≠ Outcome.ok) :
    unmarshalFields m hooks pfx ((tag, v) :: rest) = ((tag, v1) :: rest, tr, out) := by
  rw [unmarshalFields, h]
  cases out with
  | ok => exact absurd rfl hout
  | error e => rfl
  | panic msg => rfl

theorem unmarshalFields_append_ok (m : Manager) (hooks : Hooks) (pfx : String) :
    ∀ (pre pre1 : Fields) (tr : List Event) (rest : Fields),
      unmarshalFields m hooks pfx pre = (pre1, tr, Outcome.ok) →
      unmarshalFields m hooks pfx (pre ++ rest) =
        (pre1 ++ (unmarshalFields m hooks pfx rest).1,
          tr ++ (unmarshalFields m hooks pfx rest).2.1,
          (unmarshalFields m hooks pfx rest).2.2) := by
  intro pre
  induction pre with
  | nil =>
    intro pre1 tr rest h
    rw [unmarshalFields_nil] at h
    cases h
    simp
  | cons f pre ih =>
    intro pre1 tr rest h
    obtain ⟨tag, v⟩ := f
    rcases hf : unmarshalField m hooks pfx tag v with ⟨v1, t1, o1⟩
    cases o1 with
    | ok =>
      rw [unmarshalFields_cons_ok m hooks pfx tag v v1 t1 pre hf] at h
      rcases hp : unmarshalFields m hooks pfx pre with ⟨p1, t2, o2⟩
      rw [hp] at h
      cases h
      rw [List.cons_append, unmarshalFields_cons_ok m hooks pfx tag v v1 t1 (pre ++ rest) hf,
        ih p1 t2 rest hp]
      simp
    | error e =>
      rw [unmarshalFields_cons_stop m hooks pfx tag v v1 t1 _ pre hf (by simp)] at h
      cases h
    | panic msg =>
      rw [unmarshalFields_cons_stop m hooks pfx tag v v1 t1 _ pre hf (by simp)] at h
      cases h

theorem runValidator_stop (hooks : Hooks) (path tn : String) (fs : Fields) (tr : List Event)
    (out : Outcome) (hout : out ≠ Outcome.ok) :
    runValidator hooks path tn (fs, tr, out) = (fs, tr, out) := by
  cases out with
  | ok => exact absurd rfl hout
  | error e => rfl
  | panic msg => rfl

theorem runValidator_outcome_stop (hooks : Hooks) (path tn : String)
    (r : Fields × List Event × Outcome) (hout : r.2.2 ≠ Outcome.ok) :
    (runValidator hooks path tn r).2.2 = r.2.2 := by
  obtain ⟨fs, tr, out⟩ := r
  rw [runValidator_stop hooks path tn fs tr out hout]

/-- When the traversal reaches a field whose loop body ends the loop, the whole
traversal ends with the outcome of that field. -/
theorem reaches_stop (m : Manager) (hooks : Hooks) (pfx : String) (fs : Fields)
    (fpfx tag : String) (v : FieldValue) (out : Outcome)
    (hr : Reaches m hooks pfx fs fpfx tag v)
    (hf : (unmarshalField m hooks fpfx tag v).2.2 = out) (hout : out ≠ Outcome.ok) :
    (unmarshalFields m hooks pfx fs).2.2 = out := by
  induction hr with
  | here pfx pre pre1 tr tag v post hpre =>
    rw [unmarshalFields_append_ok m hooks pfx pre pre1 tr _ hpre]
    rcases hfv : unmarshalField m hooks pfx tag v with ⟨v1, t1, o1⟩
    rw [hfv] at hf
    simp only at hf
    subst hf
    rw [unmarshalFields_cons_stop m hooks pfx tag v v1 t1 o1 post hfv hout]
  | inside pfx pre pre1 tr t tn inner post key fpfx tag v hpre hpass hkey _ ih =>
    have hin := ih hf
    rw [unmarshalFields_append_ok m hooks pfx pre pre1 tr _ hpre]
    have hs := unmarshalField_struct m hooks pfx t key tn inner hpass hkey
    have ho : (runValidator hooks key tn (unmarshalFields m hooks key inner)).2.2 = out := by
      rw [runValidator_outcome_stop hooks key tn _ (by rw [hin]; exact hout), hin]
    rw [ho] at hs
    rw [unmarshalFields_cons_stop m hooks pfx t _ _ _ out post hs hout]

theorem Populate_struct_outcome (m : Manager) (hooks : Hooks) (tn : String) (fs : Fields) :
    (Manager.Populate m hooks (Target.pointer (FieldValue.struct tn fs))).2.2 =
      (runValidator hooks "" tn (unmarshalFields m hooks "" fs)).2.2 := by
  simp [Manager.Populate, unmarshalObj]

/-- When the traversal started by `Populate` reaches a field whose loop body ends
the loop, `Populate` ends with the outcome of that field. -/
theorem Populate_reaches_stop (m : Manager) (hooks : Hooks) (tn : String) (fs : Fields)
    (fpfx tag : String) (v : FieldValue) (out : Outcome)
    (hr : Reaches m hooks "" fs fpfx tag v)
    (hf : (unmarshalField m hooks fpfx tag v).2.2 = out) (hout : out ≠ Outcome.ok) :
    (Manager.Populate m hooks (Target.pointer (FieldValue.struct tn fs))).2.2 = out := by
  have h := reaches_stop m hooks "" fs fpfx tag v out hr hf hout
  rw [Populate_struct_outcome, runValidator_outcome_stop hooks "" tn _ (by rw [h]; exact hout), h]

/-! ## Binding from the first engine of each chain -/

theorem runValidator_accept (hooks : Hooks) (path tn : String) (fs : Fields) (tr : List Event)
    (hh : (match hooks tn with
      | some validate => (validate fs).isNone
      | none => true) = true) :
    ∃ tr1, runValidator hooks path tn (fs, tr, Outcome.ok) = (fs, tr1, Outcome.ok) := by
  cases hv : hooks tn with
  | none => exact ⟨tr, by simp [runValidator, hv]⟩
  | some validate =>
    rw [hv] at hh
    have hnone : validate fs = none := by simpa using hh
    exact ⟨tr ++ [Event.validate path], by simp [runValidator, hv, hnone]⟩

theorem unmarshalLeaf_head_found (e : Engine) (rest : List Engine) (required : Bool)
    (key : String) (w : FieldValue) (hs : isScalarKind w = true)
    (hr : readError e key w = none) :
    ∃ tr, unmarshalLeaf (e :: rest) required key w = (storedValue e key w, tr, Outcome.ok) := by
  have hk : isReadKind w = true := by cases w <;> simp_all [isScalarKind, isReadKind]
  obtain ⟨acc, _, heq⟩ := unmarshalLeaf_eq_resolve (e :: rest) required key w hk
  refine ⟨[Event.read e.ident acc key], ?_⟩
  rw [heq]
  simp [resolveField, readFromEnginesInSequence, readLoop_head_found _ acc w key e rest none _ hr]

theorem field_bind_leaf (m : Manager) (hooks : Hooks) (hpl : m.plains ≠ [])
    (hse : m.secrets ≠ []) (w : FieldValue) (pfx tag : String)
    (hw : ∀ tn fs, w ≠ FieldValue.struct tn fs)
    (h : fieldProvided m pfx tag w = true) :
    ∃ tr, unmarshalField m hooks pfx tag w = (fieldFromHead m pfx tag w, tr, Outcome.ok) := by
  by_cases hb : isBound tag = true
  · have hp : passesChecks m tag = true :=
      (passesChecks_iff m tag).2 ⟨hb, fun _ => hse, hpl⟩
    rw [fieldProvided] at h
    rw [fieldFromHead]
    simp only [hb, if_true] at h ⊢
    cases hk : fieldKey m pfx (propName tag) with
    | none => simp [hk] at h
    | some key =>
      rw [unmarshalField_leaf m hooks pfx tag key w hp hk hw]
      cases hc : chainOf m tag with
      | nil =>
        cases w <;> first
          | exact absurd rfl (hw _ _)
          | simp [hk, hc] at h
      | cons e rest =>
        have h2 : isScalarKind w = true ∧ readError e key w = none := by
          cases w <;> first
            | exact absurd rfl (hw _ _)
            | simpa [hk, hc] using h
        obtain ⟨tr, htr⟩ := unmarshalLeaf_head_found e rest (isRequired tag) key w h2.1 h2.2
        refine ⟨tr, ?_⟩
        rw [htr]
        cases w <;> first
          | exact absurd rfl (hw _ _)
          | simp [hk, hc]
  · have hb0 : isBound tag = false := by simpa using hb
    rw [fieldFromHead]
    simp only [hb0]
    exact ⟨[], unmarshalField_unbound m hooks pfx tag _ hb0⟩

mutual
theorem field_bind (m : Manager) (hooks : Hooks) (hpl : m.plains ≠ []) (hse : m.secrets ≠ []) :
    ∀ (v : FieldValue) (pfx tag : String), fieldProvided m pfx tag v = true →
      fieldAccepted m hooks pfx tag v = true →
      ∃ tr, unmarshalField m hooks pfx tag v = (fieldFromHead m pfx tag v, tr, Outcome.ok)
  | v, pfx, tag, h, ha => by
    cases v with
    | struct tn inner =>
      by_cases hb : isBound tag = true
      · have hp : passesChecks m tag = true :=
          (passesChecks_iff m tag).2 ⟨hb, fun _ => hse, hpl⟩
        rw [fieldProvided] at h
        rw [fieldAccepted] at ha
        rw [fieldFromHead]
        simp only [hb, if_true] at h ha ⊢
        cases hk : fieldKey m pfx (propName tag) with
        | none => simp [hk] at h
        | some key =>
          simp only [hk, Bool.and_eq_true] at h ha ⊢
          obtain ⟨tr, htr⟩ := fields_bind m hooks hpl hse inner key h ha.1
          obtain ⟨tr1, htr1⟩ :=
            runValidator_accept hooks key tn (fieldsFromHead m key inner) tr ha.2
          refine ⟨tr1, ?_⟩
          rw [unmarshalField_struct m hooks pfx tag key tn inner hp hk, htr, htr1]
      · have hb0 : isBound tag = false := by simpa using hb
        rw [fieldFromHead]
        simp only [hb0]
        exact ⟨[], unmarshalField_unbound m hooks pfx tag _ hb0⟩
    | _ => exact field_bind_leaf m hooks hpl hse _ pfx tag (by intro tn fs hc; cases hc) h
theorem fields_bind (m : Manager) (hooks : Hooks) (hpl : m.plains ≠ []) (hse : m.secrets ≠ []) :
    ∀ (fs : Fields) (pfx : String), fieldsProvided m pfx fs = true →
      fieldsAccepted m hooks pfx fs = true →
      ∃ tr, unmarshalFields m hooks pfx fs = (fieldsFromHead m pfx fs, tr, Outcome.ok)
  | [], pfx, _, _ => ⟨[], by rw [unmarshalFields_nil, fieldsFromHead]⟩
  | (tag, v) :: rest, pfx, h, ha => by
    rw [fieldsProvided, Bool.and_eq_true] at h
    rw [fieldsAccepted, Bool.and_eq_true] at ha
    obtain ⟨tr, htr⟩ := field_bind m hooks hpl hse v pfx tag h.1 ha.1
    obtain ⟨tr1, htr1⟩ := fields_bind m hooks hpl hse rest pfx h.2 ha.2
    refine ⟨tr ++ tr1, ?_⟩
    rw [unmarshalFields_cons_ok m hooks pfx tag v _ tr rest htr, htr1, fieldsFromHead]
end

theorem wrapSigned_of_fits (w : Nat) (x : Int) (hw : 0 < w)
    (hlo : -(2 : Int) ^ (w - 1) ≤ x) (hhi : x < (2 : Int) ^ (w - 1)) :
    wrapSigned w x = x := by
  unfold wrapSigned
  have h2 : (2 : Int) ^ w = 2 * 2 ^ (w - 1) := by
    obtain ⟨k, rfl⟩ : ∃ k, w = k + 1 := ⟨w - 1, by omega⟩
    simp [pow_succ, mul_comm]
  have hpos : (0 : Int) < 2 ^ (w - 1) := by positivity
  rw [Int.emod_eq_of_lt (by omega) (by omega)]
  omega

theorem wrapUnsigned_of_fits (w : Nat) (x : Nat) (h : x < 2 ^ w) : wrapUnsigned w x = x := by
  unfold wrapUnsigned
  exact Nat.mod_eq_of_lt h

/-- C1, as amended.  When the plain and the secret chain each start with an engine
that returns, without error, a value for the key of every bound field, and
those fields are scalars of supported kinds, possibly inside nested structures,
then `Populate` returns nil, provided no `Validate` method it calls fails on its
structure as populated, and leaves every bound
field set from that engine: to the value itself, and for a field narrower than
the accessor's result to the value converted to the field's type, which is the
value whenever it fits the field's width.  A `MapEngine` that stores the string
"10s" under a key returns ten seconds for it through `GetDuration`. -/
theorem C1_populate_binds_scalars_from_first_source (m : Manager) (hooks : Hooks)
    (tn : String) (fs : Fields) (hpl : m.plains ≠ []) (hse : m.secrets ≠ [])
    (hh : hooksAccept m hooks tn fs = true)
    (h : fieldsProvided m "" fs = true) :
    (∃ tr, Manager.Populate m hooks (Target.pointer (FieldValue.struct tn fs)) =
      (Target.pointer (FieldValue.struct tn (fieldsFromHead m "" fs)), tr, Outcome.ok)) ∧
    (∀ (k : IntKind) (x : Int), -(2 : Int) ^ (k.bits - 1) ≤ x → x < (2 : Int) ^ (k.bits - 1) →
      wrapSigned k.bits x = x) ∧
    (∀ (k : UintKind) (x : Nat), x < 2 ^ k.bits → wrapUnsigned k.bits x = x) ∧
    (∀ (entries : List (String × GoValue)) (key : String),
      entries.lookup key = some (GoValue.string "10s") →
      MapEngine.GetDuration { data := some entries } key = (10000000000, none)) := by
  refine ⟨?_, ?_, ?_, ?_⟩
  · rw [hooksAccept, Bool.and_eq_true] at hh
    obtain ⟨tr, htr⟩ := fields_bind m hooks hpl hse fs "" h hh.1
    obtain ⟨tr1, htr1⟩ := runValidator_accept hooks "" tn (fieldsFromHead m "" fs) tr hh.2
    exact ⟨tr1, by simp [Manager.Populate, unmarshalObj, htr, htr1]⟩
  · intro k x hlo hhi
    exact wrapSigned_of_fits k.bits x (by cases k <;> decide) hlo hhi
  · intro k x hx
    exact wrapUnsigned_of_fits k.bits x hx
  · intro entries key hl
    have hd : parseDuration "10s" = (10000000000, none) := by decide
    simp [MapEngine.GetDuration, MapEngine.get, hl, hd]

/-- C1, witness: the nested test structure against a source holding all its
keys; the timeout stored as the string "10s" becomes ten seconds.  And the
structure of the tests that has a `Validate` method, which fails on a negative
`n`, against a source holding 1: the method is called, accepts, and `Populate`
returns nil with the field bound. -/
theorem C1_populate_binds_scalars_from_first_source_witness :
    fieldsProvided nestedConfigManager "" nestedConfigFields = true ∧
    (∃ tr, Manager.Populate nestedConfigManager noHooks
        (Target.pointer (FieldValue.struct "MyTestWithNestedConfig" nestedConfigFields)) =
      (Target.pointer (FieldValue.struct "MyTestWithNestedConfig"
        (fieldsFromHead nestedConfigManager "" nestedConfigFields)), tr, Outcome.ok)) ∧
    fieldsFromHead nestedConfigManager "" nestedConfigFields =
      [("dsn,required", FieldValue.string "X"),
       ("timeout", FieldValue.duration 10000000000),
       ("database", FieldValue.struct "MyTestWithNestedConfigDatabase"
          [("dsn,required", FieldValue.string "postgres://user@host:port/database"),
           ("timeout", FieldValue.duration 10000000000)]),
       ("tokens", FieldValue.struct "MyTestWithNestedConfigTokens"
          [("access_token,required,secret", FieldValue.string "token value")])] ∧
    validationHooks "MyTestConfigWithValidation" = some validateN ∧
    validateN [("n", FieldValue.int IntKind.int (-1))] = some errMustBePositive ∧
    hooksAccept positiveManager validationHooks "MyTestConfigWithValidation"
      validationFields = true ∧
    (∃ tr, Manager.Populate positiveManager validationHooks
        (Target.pointer (FieldValue.struct "MyTestConfigWithValidation" validationFields)) =
      (Target.pointer (FieldValue.struct "MyTestConfigWithValidation"
        (fieldsFromHead positiveManager "" validationFields)), tr, Outcome.ok)) ∧
    fieldsFromHead positiveManager "" validationFields =
      [("n", FieldValue.int IntKind.int 1)] ∧
    Manager.Populate positiveManager validationHooks
        (Target.pointer (FieldValue.struct "MyTestConfigWithValidation" validationFields)) =
      (Target.pointer (FieldValue.struct "MyTestConfigWithValidation"
        [("n", FieldValue.int IntKind.int 1)]),
        [Event.read 1 Accessor.GetInt "n", Event.validate ""], Outcome.ok) :=
  ⟨by decide,
    (C1_populate_binds_scalars_from_first_source nestedConfigManager noHooks
      "MyTestWithNestedConfig" nestedConfigFields
      (List.ne_nil_of_length_pos (by decide)) (List.ne_nil_of_length_pos (by decide))
      (by decide) (by decide)).1,
    by rfl,
    by rfl,
    by decide,
    by decide,
    (C1_populate_binds_scalars_from_first_source positiveManager validationHooks
      "MyTestConfigWithValidation" validationFields
      (List.ne_nil_of_length_pos (by decide)) (List.ne_nil_of_length_pos (by decide))
      (by decide) (by decide)).1,
    by rfl,
    by rfl⟩

/-- C1, counterexample: the source stores the int 300 under the key of a bound
int8 field; `Populate` returns nil and the field holds 44. -/
theorem C1_counterexample_int8_field :
    MapEngine.GetInt { data := some [("n", GoValue.int 300)] } "n" = (300, none) ∧
    fieldsProvided int8Manager "" int8Fields = true ∧
    Manager.Populate int8Manager noHooks (Target.pointer (FieldValue.struct "T" int8Fields)) =
      (Target.pointer (FieldValue.struct "T" [("n", FieldValue.int IntKind.int8 44)]),
        [Event.read 1 Accessor.GetInt "n"], Outcome.ok) :=
  ⟨by decide, by decide, by rfl⟩

/-! ## First success wins (C2) -/

/-- C2, the code at the failing input.  With the chain [S1, S2, S3], S1 lacking the
key, S2 holding "a" and S3 holding "b": a required string field is read from S1
and then from S2 and ends as "a"; a field that is not required is read from S1
only and keeps its zero value, `Populate` returning nil in both cases. -/
theorem C2_optional_field_stops_at_first_source :
    Manager.Populate threeSourceManager noHooks
        (Target.pointer (FieldValue.struct "T" [("k,required", FieldValue.string "")])) =
      (Target.pointer (FieldValue.struct "T" [("k,required", FieldValue.string "a")]),
        [Event.read 1 Accessor.GetString "k", Event.read 2 Accessor.GetString "k"],
        Outcome.ok) ∧
    Manager.Populate threeSourceManager noHooks
        (Target.pointer (FieldValue.struct "T" [("k", FieldValue.string "")])) =
      (Target.pointer (FieldValue.struct "T" [("k", FieldValue.string "")]),
        [Event.read 1 Accessor.GetString "k"], Outcome.ok) :=
  ⟨by rfl, by rfl⟩

/-! ## Required fields that no source holds (C3) -/

theorem unmarshalLeaf_strict_absent (engines : List Engine) (required : Bool) (key : String)
    (v : FieldValue) (hk : isReadKind v = true)
    (hl : (isScalarKind v && !required) = false)
    (habs : ∀ e ∈ engines, errorsIs (readError e key v) Sentinel.keyNotFound = true) :
    ∃ err, (unmarshalLeaf engines required key v).2.2 = Outcome.error err ∧
      errorsIs (some err) Sentinel.keyNotFound = true := by
  obtain ⟨acc, _, heq⟩ := unmarshalLeaf_eq_resolve engines required key v hk
  obtain ⟨err, h1, h2, _⟩ :=
    readLoop_strict_absent acc v key engines none (v, []) habs (Or.inl rfl)
  refine ⟨err, ?_, h2⟩
  rw [heq, hl]
  unfold resolveField readFromEnginesInSequence
  rcases hr : readLoop (leafClosure false acc v key) engines none (v, []) with ⟨st, o⟩
  rw [hr] at h1
  simp only at h1
  subst h1
  rfl

theorem isReadKind_not_struct (v : FieldValue) (h : isReadKind v = true) :
    ∀ tn fs, v ≠ FieldValue.struct tn fs := by
  intro tn fs hv
  subst hv
  simp [isReadKind] at h

/-- C3, as amended.  When the traversal reaches, every earlier field having bound
without error, a bound field marked required that `Populate` reads through an
accessor (a supported scalar or a slice of int, int64, string, bool or
float64), the field passes the chain checks, and every source of its chain
answers its key with a key-not-found error, then `Populate` returns an error `err`
with `errors.Is(err, ErrKeyNotFound)`. -/
theorem C3_required_absent_is_key_not_found (m : Manager) (hooks : Hooks) (tn : String)
    (fs : Fields) (fpfx tag key : String) (v : FieldValue)
    (hr : Reaches m hooks "" fs fpfx tag v)
    (hp : passesChecks m tag = true)
    (hreq : isRequired tag = true)
    (hk : fieldKey m fpfx (propName tag) = some key)
    (hkind : isReadKind v = true)
    (habs : ∀ e ∈ chainOf m tag, errorsIs (readError e key v) Sentinel.keyNotFound = true) :
    ∃ err, (Manager.Populate m hooks (Target.pointer (FieldValue.struct tn fs))).2.2 =
        Outcome.error err ∧ errorsIs (some err) Sentinel.keyNotFound = true := by
  obtain ⟨err, h1, h2⟩ := unmarshalLeaf_strict_absent (chainOf m tag) (isRequired tag) key v
    hkind (by simp [hreq]) habs
  refine ⟨err, ?_, h2⟩
  apply Populate_reaches_stop m hooks tn fs fpfx tag v (Outcome.error err) hr
  · rw [unmarshalField_leaf m hooks fpfx tag key v hp hk (isReadKind_not_struct v hkind)]
    exact h1
  · simp

/-- C3, witness: the test "required fields not provided"; the required field
`dsn` is the first field and neither source holds it. -/
theorem C3_required_absent_is_key_not_found_witness :
    ∃ err, (Manager.Populate timeoutOnlyManager noHooks
        (Target.pointer (FieldValue.struct "MyTestConfig" myTestConfigFields))).2.2 =
        Outcome.error err ∧ errorsIs (some err) Sentinel.keyNotFound = true :=
  C3_required_absent_is_key_not_found timeoutOnlyManager noHooks "MyTestConfig"
    myTestConfigFields "" "dsn,required" "dsn" (FieldValue.string "")
    (Reaches.here "" [] [] [] "dsn,required" (FieldValue.string "") _
      (unmarshalFields_nil timeoutOnlyManager noHooks ""))
    (by decide) (by decide) (by decide) (by decide)
    (by
      intro e he
      have h1 : e = mapSource 1 [("timeout", GoValue.duration 1000000000)] := by
        simpa [chainOf, timeoutOnlyManager, Manager.AddSecretEngine, Manager.AddPlainEngine,
          Manager.initDo, Manager.initialize, NewManager, isSecret, splitTag, splitChars,
          parseFlags] using he
      subst h1
      decide)

/-- C3, counterexample: a bound field marked required whose kind `unmarshalObj`
has no case for, with sources that hold no key at all; `Populate` returns nil
and reads nothing. -/
theorem C3_counterexample_required_unsupported_kind :
    isBound "m,required" = true ∧ isRequired "m,required" = true ∧
    errorsIs ((mapSource 1 []).GetString "m").2 Sentinel.keyNotFound = true ∧
    Manager.Populate emptySourcesManager noHooks
        (Target.pointer (FieldValue.struct "T" [("m,required", FieldValue.unsupported)])) =
      (Target.pointer (FieldValue.struct "T" [("m,required", FieldValue.unsupported)]),
        [], Outcome.ok) :=
  ⟨by decide, by decide, by decide, by rfl⟩

/-! ## Fields that are not required and that no source holds (C4) -/

/-- C4, the code at the failing input.  Against sources that hold no key, a string
field that is not required keeps its zero value and `Populate` returns nil; a
slice of strings that is not required makes `Populate` return the key-not-found
error of the source. -/
theorem C4_optional_slice_absent_is_an_error :
    isRequired "name" = false ∧ isRequired "tags" = false ∧
    Manager.Populate emptySourcesManager noHooks
        (Target.pointer (FieldValue.struct "T" [("name", FieldValue.string "")])) =
      (Target.pointer (FieldValue.struct "T" [("name", FieldValue.string "")]),
        [Event.read 1 Accessor.GetString "name"], Outcome.ok) ∧
    Manager.Populate emptySourcesManager noHooks
        (Target.pointer (FieldValue.struct "T" [("tags", FieldValue.stringSlice none)])) =
      (Target.pointer (FieldValue.struct "T" [("tags", FieldValue.stringSlice none)]),
        [Event.read 1 Accessor.GetStringSlice "tags"],
        Outcome.error (keyNotFoundOf "tags")) ∧
    errorsIs (some (keyNotFoundOf "tags")) Sentinel.keyNotFound = true :=
  ⟨by decide, by decide, by rfl, by rfl, by decide⟩

/-! ## Class routing (C5) -/

theorem unmarshalField_nokey (m : Manager) (hooks : Hooks) (pfx configTag : String)
    (v : FieldValue) (hp : passesChecks m configTag = true)
    (hk : fieldKey m pfx (propName configTag) = none) :
    unmarshalField m hooks pfx configTag v =
      (v, [], Outcome.panic "invalid memory address or nil pointer dereference") := by
  obtain ⟨hb, hs, hpl⟩ := (passesChecks_iff m configTag).1 hp
  have hb1 := (isBound_eq_true_iff configTag).1 hb
  cases hsec : isSecret configTag with
  | false => cases v <;> rw [unmarshalField] <;> simp [hb1, hsec, hpl, hk]
  | true =>
    have hs1 := hs hsec
    cases v <;> rw [unmarshalField] <;> simp [hb1, hsec, hs1, hpl, hk]

/-- The ways the loop body can go: the field is not bound; a chain check fails;
the separator is missing; or the switch is reached with a key. -/
theorem unmarshalField_cases (m : Manager) (hooks : Hooks) (pfx configTag : String)
    (v : FieldValue) :
    (isBound configTag = false ∧ unmarshalField m hooks pfx configTag v = (v, [], Outcome.ok)) ∨
    (isBound configTag = true ∧ isSecret configTag = true ∧ m.secrets = [] ∧
      unmarshalField m hooks pfx configTag v =
        (v, [], Outcome.error ErrNoSecretEngineDefined)) ∨
    (isBound configTag = true ∧ m.plains = [] ∧
      unmarshalField m hooks pfx configTag v =
        (v, [], Outcome.error ErrNoPlainEngineDefined)) ∨
    (passesChecks m configTag = true ∧ fieldKey m pfx (propName configTag) = none ∧
      unmarshalField m hooks pfx configTag v =
        (v, [], Outcome.panic "invalid memory address or nil pointer dereference")) ∨
    (passesChecks m configTag = true ∧ ∃ key, fieldKey m pfx (propName configTag) = some key) := by
  cases hb : isBound configTag with
  | false => exact Or.inl ⟨rfl, unmarshalField_unbound m hooks pfx configTag v hb⟩
  | true =>
    by_cases hs : isSecret configTag = true ∧ m.secrets = []
    · exact Or.inr (Or.inl ⟨rfl, hs.1, hs.2,
        unmarshalField_noSecret m hooks pfx configTag v hb hs.1 hs.2⟩)
    · have hs1 : isSecret configTag = true → m.secrets ≠ [] := fun h1 h2 => hs ⟨h1, h2⟩
      by_cases hpl : m.plains = []
      · exact Or.inr (Or.inr (Or.inl ⟨rfl, hpl,
          unmarshalField_noPlain m hooks pfx configTag v hb hs1 hpl⟩))
      · have hp : passesChecks m configTag = true :=
          (passesChecks_iff m configTag).2 ⟨hb, hs1, hpl⟩
        cases hk : fieldKey m pfx (propName configTag) with
        | none =>
          exact Or.inr (Or.inr (Or.inr (Or.inl ⟨hp, rfl,
            unmarshalField_nokey m hooks pfx configTag v hp hk⟩)))
        | some key => exact Or.inr (Or.inr (Or.inr (Or.inr ⟨hp, key, rfl⟩)))

theorem unmarshalLeaf_trace (engines : List Engine) (required : Bool) (key : String)
    (v : FieldValue) :
    ∀ ev ∈ (unmarshalLeaf engines required key v).2.1,
      ∃ e ∈ engines, ∃ acc, ev = Event.read e.ident acc key := by
  intro ev hev
  cases hk : isReadKind v with
  | false =>
    cases v <;> simp [isReadKind] at hk <;> simp [unmarshalLeaf] at hev
  | true =>
    obtain ⟨acc, _, heq⟩ := unmarshalLeaf_eq_resolve engines required key v hk
    obtain ⟨n, hn⟩ :=
      readLoop_trace (isScalarKind v && !required) acc v key engines none (v, [])
    have htr : (unmarshalLeaf engines required key v).2.1 =
        (engines.take n).map (fun e => Event.read e.ident acc key) := by
      rw [heq]
      unfold resolveField readFromEnginesInSequence
      rcases hr : readLoop (leafClosure (isScalarKind v && !required) acc v key) engines none
        (v, []) with ⟨st, o⟩
      rw [hr] at hn
      cases o <;> simpa using hn
    rw [htr, List.mem_map] at hev
    obtain ⟨e, he, rfl⟩ := hev
    exact ⟨e, List.mem_of_mem_take he, acc, rfl⟩

theorem unmarshalField_leaf_trace (m : Manager) (hooks : Hooks) (pfx configTag : String)
    (v : FieldValue) (hv : ∀ tn fs, v ≠ FieldValue.struct tn fs) :
    ∀ ev ∈ (unmarshalField m hooks pfx configTag v).2.1,
      ∃ e ∈ chainOf m configTag, ∃ acc key, ev = Event.read e.ident acc key := by
  intro ev hev
  rcases unmarshalField_cases m hooks pfx configTag v with
    ⟨_, h⟩ | ⟨_, _, _, h⟩ | ⟨_, _, h⟩ | ⟨_, _, h⟩ | ⟨hp, key, hk⟩
  · rw [h] at hev; simp at hev
  · rw [h] at hev; simp at hev
  · rw [h] at hev; simp at hev
  · rw [h] at hev; simp at hev
  · rw [unmarshalField_leaf m hooks pfx configTag key v hp hk hv] at hev
    obtain ⟨e, he, acc, hacc⟩ := unmarshalLeaf_trace _ _ key v ev hev
    exact ⟨e, he, acc, key, hacc⟩

theorem unmarshalField_plain_ignores_secrets (m : Manager) (hooks : Hooks)
    (pfx configTag : String) (v : FieldValue) (hv : ∀ tn fs, v ≠ FieldValue.struct tn fs)
    (hsec : isSecret configTag = false) (s : List Engine) :
    unmarshalField { m with secrets := s } hooks pfx configTag v =
      unmarshalField m hooks pfx configTag v := by
  cases v <;> first
    | exact absurd rfl (hv _ _)
    | (rw [unmarshalField, unmarshalField]; simp [hsec, fieldKey])

/-- C5.  For a bound field that is not a structure, every typed read of the loop
body is made on an engine of the secret chain when the annotation carries the
secret flag, and on an engine of the plain chain otherwise.  Hence a required
secret field whose key every secret source reports as not found ends with a
key-not-found error whatever the plain sources hold, and the outcome for a
field without the secret flag does not depend on the secret chain. -/
theorem C5_reads_follow_the_class_of_the_field (m : Manager) (hooks : Hooks)
    (pfx configTag : String) (v : FieldValue) (hv : ∀ tn fs, v ≠ FieldValue.struct tn fs) :
    (isSecret configTag = true →
      ∀ ev ∈ (unmarshalField m hooks pfx configTag v).2.1,
        ∃ e ∈ m.secrets, ∃ acc key, ev = Event.read e.ident acc key) ∧
    (isSecret configTag = false →
      ∀ ev ∈ (unmarshalField m hooks pfx configTag v).2.1,
        ∃ e ∈ m.plains, ∃ acc key, ev = Event.read e.ident acc key) ∧
    (∀ key, isSecret configTag = true → isRequired configTag = true →
      passesChecks m configTag = true → fieldKey m pfx (propName configTag) = some key →
      isReadKind v = true →
      (∀ e ∈ m.secrets, errorsIs (readError e key v) Sentinel.keyNotFound = true) →
      ∃ err, (unmarshalField m hooks pfx configTag v).2.2 = Outcome.error err ∧
        errorsIs (some err) Sentinel.keyNotFound = true) ∧
    (isSecret configTag = false → ∀ s : List Engine,
      unmarshalField { m with secrets := s } hooks pfx configTag v =
        unmarshalField m hooks pfx configTag v) := by
  refine ⟨?_, ?_, ?_, ?_⟩
  · intro hsec ev hev
    have h := unmarshalField_leaf_trace m hooks pfx configTag v hv ev hev
    simpa [chainOf, hsec] using h
  · intro hsec ev hev
    have h := unmarshalField_leaf_trace m hooks pfx configTag v hv ev hev
    simpa [chainOf, hsec] using h
  · intro key hsec hreq hp hk hkind habs
    rw [unmarshalField_leaf m hooks pfx configTag key v hp hk hv]
    exact unmarshalLeaf_strict_absent (chainOf m configTag) (isRequired configTag) key v hkind
      (by simp [hreq]) (by simpa [chainOf, hsec] using habs)
  · intro hsec s
    exact unmarshalField_plain_ignores_secrets m hooks pfx configTag v hv hsec s

/-- C5, witness: a required secret string field against a Manager whose plain
source alone holds its key: the only read is made on the secret source and the
field ends with a key-not-found error. -/
theorem C5_reads_follow_the_class_of_the_field_witness :
    (unmarshalField crossedManager noHooks "" "password,required,secret"
        (FieldValue.string "")).2.1 = [Event.read 2 Accessor.GetString "password"] ∧
    (∀ ev ∈ (unmarshalField crossedManager noHooks "" "password,required,secret"
        (FieldValue.string "")).2.1,
      ∃ e ∈ crossedManager.secrets, ∃ acc key, ev = Event.read e.ident acc key) ∧
    (∃ err, (unmarshalField crossedManager noHooks "" "password,required,secret"
        (FieldValue.string "")).2.2 = Outcome.error err ∧
      errorsIs (some err) Sentinel.keyNotFound = true) :=
  ⟨by decide,
    (C5_reads_follow_the_class_of_the_field crossedManager noHooks ""
      "password,required,secret" (FieldValue.string "")
      (by intro tn fs h; cases h)).1 (by decide),
    (C5_reads_follow_the_class_of_the_field crossedManager noHooks ""
      "password,required,secret" (FieldValue.string "")
      (by intro tn fs h; cases h)).2.2.1 "password" (by decide) (by decide) (by decide)
      (by decide) (by decide)
      (by
        intro e he
        have h1 : e = mapSource 2 [("token", GoValue.string "t")] := by
          simpa [crossedManager, Manager.AddSecretEngine, Manager.AddPlainEngine,
            Manager.initDo, Manager.initialize, NewManager] using he
        subst h1
        decide)⟩

/-! ## Chains without engines (C6, C7, C8) -/

/-- C6.  When the traversal reaches a bound field marked secret, every earlier field
having bound without error, and the Manager has no secret engine, `Populate`
returns `ErrNoSecretEngineDefined`; nothing is assumed about the plain chain. -/
theorem C6_secret_field_without_secret_engine (m : Manager) (hooks : Hooks) (tn : String)
    (fs : Fields) (fpfx tag : String) (v : FieldValue)
    (hr : Reaches m hooks "" fs fpfx tag v)
    (hb : isBound tag = true) (hs : isSecret tag = true) (hn : m.secrets = []) :
    (Manager.Populate m hooks (Target.pointer (FieldValue.struct tn fs))).2.2 =
      Outcome.error ErrNoSecretEngineDefined := by
  apply Populate_reaches_stop m hooks tn fs fpfx tag v _ hr
  · rw [unmarshalField_noSecret m hooks fpfx tag v hb hs hn]
  · simp

/-- C6, witness: the test "no secret engine defined"; the traversal binds `dsn`
from the plain source and then reaches the secret field `password`. -/
theorem C6_secret_field_without_secret_engine_witness :
    (Manager.Populate plainOnlyManager noHooks
        (Target.pointer (FieldValue.struct "MyTestConfig" myTestConfigFields))).2.2 =
      Outcome.error ErrNoSecretEngineDefined :=
  C6_secret_field_without_secret_engine plainOnlyManager noHooks "MyTestConfig"
    myTestConfigFields "" "password,required,secret" (FieldValue.string "")
    (Reaches.here "" [("dsn,required", FieldValue.string "")]
      [("dsn,required", FieldValue.string "postgres://user@host:port/database")]
      [Event.read 1 Accessor.GetString "dsn"] "password,required,secret"
      (FieldValue.string "") [("timeout", FieldValue.duration 0)] (by rfl))
    (by decide) (by decide) (by rfl)

/-- C7, the code at the failing input.  A structure whose only bound field is marked
secret, against a Manager with a secret engine holding its key and no plain
engine: `Populate` returns `ErrNoPlainEngineDefined` and reads nothing. -/
theorem C7_secret_only_structure_needs_a_plain_engine :
    isBound "password,secret" = true ∧ isSecret "password,secret" = true ∧
    secretOnlyManager.secrets.length = 1 ∧ secretOnlyManager.plains.length = 0 ∧
    Manager.Populate secretOnlyManager noHooks
        (Target.pointer (FieldValue.struct "T" [("password,secret", FieldValue.string "")])) =
      (Target.pointer (FieldValue.struct "T" [("password,secret", FieldValue.string "")]),
        [], Outcome.error ErrNoPlainEngineDefined) :=
  ⟨by decide, by decide, by decide, by decide, by rfl⟩

/-- C8, as amended.  When the loop of `unmarshalObj` meets a bound field whose class has
no engine, the earlier fields of the structure having bound without error, it
returns `ErrNoSecretEngineDefined` for a secret field and `ErrNoPlainEngineDefined`
otherwise, before any read for that field: the events are those of the earlier
fields, the earlier fields keep what was assigned to them, and the field and
all later fields are as they were.  The same holds of `Populate` for the fields
of the target. -/
theorem C8_chain_check_precedes_the_reads_of_its_field (m : Manager) (hooks : Hooks)
    (keyPrefix tn : String) (pre pre1 : Fields) (tr : List Event) (tag : String)
    (v : FieldValue) (post : Fields)
    (hpre : unmarshalFields m hooks keyPrefix pre = (pre1, tr, Outcome.ok))
    (hb : isBound tag = true)
    (hc : (isSecret tag = true ∧ m.secrets = []) ∨ (isSecret tag = false ∧ m.plains = [])) :
    unmarshalObj m hooks keyPrefix tn (pre ++ (tag, v) :: post) =
      (pre1 ++ (tag, v) :: post, tr,
        Outcome.error (if isSecret tag = true then ErrNoSecretEngineDefined
          else ErrNoPlainEngineDefined)) ∧
    (keyPrefix = "" →
      Manager.Populate m hooks (Target.pointer (FieldValue.struct tn (pre ++ (tag, v) :: post))) =
        (Target.pointer (FieldValue.struct tn (pre1 ++ (tag, v) :: post)), tr,
          Outcome.error (if isSecret tag = true then ErrNoSecretEngineDefined
            else ErrNoPlainEngineDefined))) := by
  have hf : unmarshalField m hooks keyPrefix tag v =
      (v, [], Outcome.error (if isSecret tag = true then ErrNoSecretEngineDefined
        else ErrNoPlainEngineDefined)) := by
    rcases hc with ⟨hs, hn⟩ | ⟨hs, hn⟩
    · rw [unmarshalField_noSecret m hooks keyPrefix tag v hb hs hn]
      simp [hs]
    · rw [unmarshalField_noPlain m hooks keyPrefix tag v hb (by simp [hs]) hn]
      simp [hs]
  have hobj : unmarshalObj m hooks keyPrefix tn (pre ++ (tag, v) :: post) =
      (pre1 ++ (tag, v) :: post, tr,
        Outcome.error (if isSecret tag = true then ErrNoSecretEngineDefined
          else ErrNoPlainEngineDefined)) := by
    unfold unmarshalObj
    rw [unmarshalFields_append_ok m hooks keyPrefix pre pre1 tr _ hpre,
      unmarshalFields_cons_stop m hooks keyPrefix tag v v [] _ post hf (by simp)]
    simp [runValidator]
  refine ⟨hobj, ?_⟩
  intro hk
  subst hk
  simp [Manager.Populate, hobj]

/-- C8, witness: the test "no secret engine defined"; the events are the read of
`dsn`, and `password` and `timeout` are as they were. -/
theorem C8_chain_check_precedes_the_reads_of_its_field_witness :
    Manager.Populate plainOnlyManager noHooks
        (Target.pointer (FieldValue.struct "MyTestConfig"
          ([("dsn,required", FieldValue.string "")] ++
            ("password,required,secret", FieldValue.string "") ::
              [("timeout", FieldValue.duration 0)]))) =
      (Target.pointer (FieldValue.struct "MyTestConfig"
        ([("dsn,required", FieldValue.string "postgres://user@host:port/database")] ++
          ("password,required,secret", FieldValue.string "") ::
            [("timeout", FieldValue.duration 0)])),
        [Event.read 1 Accessor.GetString "dsn"],
        Outcome.error (if isSecret "password,required,secret" = true
          then ErrNoSecretEngineDefined else ErrNoPlainEngineDefined)) :=
  (C8_chain_check_precedes_the_reads_of_its_field plainOnlyManager noHooks "" "MyTestConfig"
    [("dsn,required", FieldValue.string "")]
    [("dsn,required", FieldValue.string "postgres://user@host:port/database")]
    [Event.read 1 Accessor.GetString "dsn"] "password,required,secret"
    (FieldValue.string "") [("timeout", FieldValue.duration 0)] (by rfl) (by decide)
    (Or.inl ⟨by decide, by rfl⟩)).2 rfl

/-- C8, counterexample: in the test "no secret engine defined" `Populate` returns
`ErrNoSecretEngineDefined` after it has read `dsn` from the plain source and
assigned it. -/
theorem C8_counterexample_read_before_chain_error :
    Manager.Populate plainOnlyManager noHooks
        (Target.pointer (FieldValue.struct "MyTestConfig" myTestConfigFields)) =
      (Target.pointer (FieldValue.struct "MyTestConfig"
        [("dsn,required", FieldValue.string "postgres://user@host:port/database"),
         ("password,required,secret", FieldValue.string ""),
         ("timeout", FieldValue.duration 0)]),
        [Event.read 1 Accessor.GetString "dsn"],
        Outcome.error ErrNoSecretEngineDefined) :=
  by rfl

/-! ## The target must be a pointer (C9) -/

/-- C9.  For a target that is not a pointer `Populate` returns `ErrConfigNotPointer`;
it produces no event (no read on a source, no call of a validation hook) and
leaves the target as it is, whatever engines the Manager holds. -/
theorem C9_non_pointer_target_is_refused (m : Manager) (hooks : Hooks)
    (v : Option FieldValue) :
    Manager.Populate m hooks (Target.nonPointer v) =
      (Target.nonPointer v, [], Outcome.error ErrConfigNotPointer) := by
  rfl

/-! ## The validation hook (C10) -/

theorem fieldKey_ne_empty (m : Manager) (pfx name key : String) (hn : name ≠ "")
    (hk : fieldKey m pfx name = some key) : key ≠ "" := by
  unfold fieldKey at hk
  by_cases hp : pfx = ""
  · simp [hp] at hk
    rw [← hk]
    exact hn
  · simp only [hp, if_false] at hk
    cases hs : m.keySeparator with
    | none => simp [hs] at hk
    | some sep =>
      simp only [hs, Option.some.injEq] at hk
      intro hkey
      apply hp
      have hd : (pfx ++ sep ++ name).data = [] := by rw [hk, hkey]
      simp only [String.data_append, List.append_eq_nil] at hd
      exact String.ext hd.1.1

theorem runValidator_trace (hooks : Hooks) (path tn : String)
    (r : Fields × List Event × Outcome) :
    ∀ ev ∈ (runValidator hooks path tn r).2.1, ev ∈ r.2.1 ∨ ev = Event.validate path := by
  obtain ⟨fs, tr, out⟩ := r
  intro ev hev
  cases out with
  | ok =>
    cases hv : hooks tn with
    | none =>
      simp [runValidator, hv] at hev
      exact Or.inl hev
    | some validate =>
      cases hr : validate fs <;> simp [runValidator, hv, hr] at hev <;>
        rcases hev with h | h
      · exact Or.inl h
      · exact Or.inr h
      · exact Or.inl h
      · exact Or.inr h
  | error e =>
    simp [runValidator] at hev
    exact Or.inl hev
  | panic msg =>
    simp [runValidator] at hev
    exact Or.inl hev

mutual
theorem unmarshalField_no_root_validate (m : Manager) (hooks : Hooks) :
    ∀ (v : FieldValue) (pfx tag : String),
      Event.validate "" ∉ (unmarshalField m hooks pfx tag v).2.1
  | v, pfx, tag => by
    cases v with
    | struct tn inner =>
      rcases unmarshalField_cases m hooks pfx tag (FieldValue.struct tn inner) with
        ⟨_, h⟩ | ⟨_, _, _, h⟩ | ⟨_, _, h⟩ | ⟨_, _, h⟩ | ⟨hp, key, hk⟩
      · rw [h]; simp
      · rw [h]; simp
      · rw [h]; simp
      · rw [h]; simp
      · rw [unmarshalField_struct m hooks pfx tag key tn inner hp hk]
        intro hmem
        have hb := ((passesChecks_iff m tag).1 hp).1
        have hname : propName tag ≠ "" := fun h0 =>
          (isBound_eq_true_iff tag).1 hb (Or.inr h0)
        have hkey := fieldKey_ne_empty m pfx (propName tag) key hname hk
        rcases runValidator_trace hooks key tn _ _ hmem with h1 | h1
        · exact unmarshalFields_no_root_validate m hooks inner key h1
        · injection h1 with h2
          exact hkey h2.symm
    | _ =>
      intro hmem
      obtain ⟨e, _, acc, key, hev⟩ :=
        unmarshalField_leaf_trace m hooks pfx tag _ (by intro tn fs hc; cases hc) _ hmem
      cases hev
theorem unmarshalFields_no_root_validate (m : Manager) (hooks : Hooks) :
    ∀ (fs : Fields) (pfx : String),
      Event.validate "" ∉ (unmarshalFields m hooks pfx fs).2.1
  | [], pfx => by rw [unmarshalFields_nil]; simp
  | (tag, v) :: rest, pfx => by
    have h1 := unmarshalField_no_root_validate m hooks v pfx tag
    have h2 := unmarshalFields_no_root_validate m hooks rest pfx
    rcases hf : unmarshalField m hooks pfx tag v with ⟨v1, t1, o1⟩
    rw [hf] at h1
    cases o1 with
    | ok =>
      rw [unmarshalFields_cons_ok m hooks pfx tag v v1 t1 rest hf]
      simp only [List.mem_append, not_or]
      exact ⟨h1, h2⟩
    | error e =>
      rw [unmarshalFields_cons_stop m hooks pfx tag v v1 t1 _ rest hf (by simp)]
      exact h1
    | panic msg =>
      rw [unmarshalFields_cons_stop m hooks pfx tag v v1 t1 _ rest hf (by simp)]
      exact h1
end

/-- C10.  For a target whose type has a `Validate` method: when the loop over its fields
ends without error, the method is called once, after the loop, on the fields
as populated, and `Populate` returns what it returns, the error as it is or nil;
when the loop ends with an error (or panics) the method of the target is not
called and `Populate` ends as the loop did. -/
theorem C10_validation_hook_decides_the_result (m : Manager) (hooks : Hooks) (tn : String)
    (fs : Fields) (validate : Fields → Option GoError) (hv : hooks tn = some validate) :
    ((unmarshalFields m hooks "" fs).2.2 = Outcome.ok →
      Manager.Populate m hooks (Target.pointer (FieldValue.struct tn fs)) =
        (Target.pointer (FieldValue.struct tn (unmarshalFields m hooks "" fs).1),
          (unmarshalFields m hooks "" fs).2.1 ++ [Event.validate ""],
          match validate (unmarshalFields m hooks "" fs).1 with
          | some err => Outcome.error err
          | none => Outcome.ok) ∧
      List.count (Event.validate "")
        (Manager.Populate m hooks (Target.pointer (FieldValue.struct tn fs))).2.1 = 1) ∧
    ((unmarshalFields m hooks "" fs).2.2 ≠ Outcome.ok →
      Manager.Populate m hooks (Target.pointer (FieldValue.struct tn fs)) =
        (Target.pointer (FieldValue.struct tn (unmarshalFields m hooks "" fs).1),
          (unmarshalFields m hooks "" fs).2.1, (unmarshalFields m hooks "" fs).2.2) ∧
      List.count (Event.validate "")
        (Manager.Populate m hooks (Target.pointer (FieldValue.struct tn fs))).2.1 = 0) := by
  have hno := unmarshalFields_no_root_validate m hooks fs ""
  rcases hr : unmarshalFields m hooks "" fs with ⟨fs1, tr, out⟩
  rw [hr] at hno
  simp only at hno
  constructor
  · intro hout
    simp only at hout
    subst hout
    have hp : Manager.Populate m hooks (Target.pointer (FieldValue.struct tn fs)) =
        (Target.pointer (FieldValue.struct tn fs1), tr ++ [Event.validate ""],
          match validate fs1 with
          | some err => Outcome.error err
          | none => Outcome.ok) := by
      cases hval : validate fs1 <;>
        simp [Manager.Populate, unmarshalObj, hr, runValidator, hv, hval]
    refine ⟨hp, ?_⟩
    rw [hp]
    simp [List.count_append, List.count_eq_zero_of_not_mem hno]
  · intro hout
    simp only at hout
    have hp : Manager.Populate m hooks (Target.pointer (FieldValue.struct tn fs)) =
        (Target.pointer (FieldValue.struct tn fs1), tr, out) := by
      simp [Manager.Populate, unmarshalObj, hr, runValidator_stop hooks "" tn fs1 tr out hout]
    refine ⟨hp, ?_⟩
    rw [hp]
    exact List.count_eq_zero_of_not_mem hno

/-- C10, witness: the test "should fail due to invalid config"; the field is bound to
-1, the hook is called once and its error is what `Populate` returns. -/
theorem C10_validation_hook_decides_the_result_witness :
    Manager.Populate negativeManager validationHooks
        (Target.pointer (FieldValue.struct "MyTestConfigWithValidation" validationFields)) =
      (Target.pointer (FieldValue.struct "MyTestConfigWithValidation"
        [("n", FieldValue.int IntKind.int (-1))]),
        [Event.read 1 Accessor.GetInt "n", Event.validate ""],
        Outcome.error errMustBePositive) ∧
    List.count (Event.validate "")
      (Manager.Populate negativeManager validationHooks
        (Target.pointer (FieldValue.struct "MyTestConfigWithValidation"
          validationFields))).2.1 = 1 :=
  (C10_validation_hook_decides_the_result negativeManager validationHooks
    "MyTestConfigWithValidation" validationFields validateN (by rfl)).1 (by rfl)

/-! ## The chain resolver on any closure (C18, C19) -/

theorem readLoop_cons_last {σ : Type} (f : Engine → σ → σ × Option GoError) (e : Engine)
    (rest : List Engine) (l1 l2 : Option GoError) (s : σ) :
    readLoop f (e :: rest) l1 s = readLoop f (e :: rest) l2 s := by
  simp [readLoop]

theorem readLoop_cons_nil {σ : Type} (f : Engine → σ → σ × Option GoError) (e : Engine)
    (rest : List Engine) (last : Option GoError) (s : σ) (h : (f e s).2 = none) :
    readLoop f (e :: rest) last s = ((f e s).1, none) := by
  rcases hf : f e s with ⟨s1, o⟩
  rw [hf] at h
  simp only at h
  subst h
  simp [readLoop, hf]

theorem readLoop_cons_fatal {σ : Type} (f : Engine → σ → σ × Option GoError) (e : Engine)
    (rest : List Engine) (last : Option GoError) (s : σ) (err : GoError)
    (h : (f e s).2 = some err) (hk : errorsIs (some err) Sentinel.keyNotFound = false) :
    readLoop f (e :: rest) last s = ((f e s).1, some err) := by
  rcases hf : f e s with ⟨s1, o⟩
  rw [hf] at h
  simp only at h
  subst h
  simp [readLoop, hf, hk]

theorem readLoop_cons_absent {σ : Type} (f : Engine → σ → σ × Option GoError) (e : Engine)
    (rest : List Engine) (last : Option GoError) (s : σ)
    (h : errorsIs (f e s).2 Sentinel.keyNotFound = true) :
    readLoop f (e :: rest) last s = readLoop f rest (f e s).2 (f e s).1 := by
  rcases hf : f e s with ⟨s1, o⟩
  rw [hf] at h
  simp only at h
  obtain ⟨err, rfl⟩ := errorsIs_some_of_true _ _ h
  simp [readLoop, hf, h]

theorem readLoop_skips_absent {σ : Type} (f : Engine → σ → σ × Option GoError) :
    ∀ (pre : List Engine) (e : Engine) (post : List Engine) (last : Option GoError) (s : σ),
      allAbsent f pre s = true →
      readLoop f (pre ++ e :: post) last s = readLoop f (e :: post) none (stateAfter f pre s) := by
  intro pre
  induction pre with
  | nil =>
    intro e post last s _
    exact readLoop_cons_last f e post last none s
  | cons x pre ih =>
    intro e post last s h
    rw [allAbsent, Bool.and_eq_true] at h
    rw [List.cons_append, readLoop_cons_absent f x _ last s h.1, ih e post _ _ h.2, stateAfter]

theorem readLoop_all_absent {σ : Type} (f : Engine → σ → σ × Option GoError) :
    ∀ (engines : List Engine) (last : Option GoError) (s : σ),
      allAbsent f engines s = true →
      (last = none ∨ errorsIs last Sentinel.keyNotFound = true) →
      ∃ err, readLoop f engines last s = (stateAfter f engines s, some err) ∧
        errorsIs (some err) Sentinel.keyNotFound = true := by
  intro engines
  induction engines with
  | nil =>
    intro last s _ hl
    cases last with
    | none => exact ⟨ErrKeyNotFound, by simp [readLoop, stateAfter], by decide⟩
    | some e0 =>
      rcases hl with hl | hl
      · cases hl
      · exact ⟨e0, by simp [readLoop, stateAfter], hl⟩
  | cons x rest ih =>
    intro last s h _
    rw [allAbsent, Bool.and_eq_true] at h
    rw [readLoop_cons_absent f x rest last s h.1, stateAfter]
    exact ih _ _ h.2 (Or.inr h.1)

theorem readLoop_nil_inv {σ : Type} (f : Engine → σ → σ × Option GoError) :
    ∀ (engines : List Engine) (last : Option GoError) (s : σ),
      (readLoop f engines last s).2 = none →
      ∃ pre e post, engines = pre ++ e :: post ∧ allAbsent f pre s = true ∧
        (f e (stateAfter f pre s)).2 = none := by
  intro engines
  induction engines with
  | nil =>
    intro last s h
    cases last <;> simp [readLoop] at h
  | cons x rest ih =>
    intro last s h
    cases hx : (f x s).2 with
    | none => exact ⟨[], x, rest, rfl, rfl, hx⟩
    | some err =>
      cases hk : errorsIs (some err) Sentinel.keyNotFound with
      | false =>
        rw [readLoop_cons_fatal f x rest last s err hx hk] at h
        cases h
      | true =>
        have hk' : errorsIs (f x s).2 Sentinel.keyNotFound = true := by rw [hx]; exact hk
        rw [readLoop_cons_absent f x rest last s hk'] at h
        obtain ⟨pre, e, post, he, ha, hn⟩ := ih _ _ h
        refine ⟨x :: pre, e, post, by rw [he]; rfl, ?_, ?_⟩
        · rw [allAbsent, hk', ha]; rfl
        · rw [stateAfter]; exact hn

theorem stateAfter_logged {σ : Type} (f : Engine → σ → σ × Option GoError) :
    ∀ (pre : List Engine) (s : σ) (log : List Nat),
      stateAfter (logged f) pre (s, log) = (stateAfter f pre s, log ++ pre.map Engine.ident) := by
  intro pre
  induction pre with
  | nil => intro s log; simp [stateAfter]
  | cons x pre ih =>
    intro s log
    rw [stateAfter, stateAfter]
    simp only [logged]
    rw [ih]
    simp

theorem allAbsent_logged {σ : Type} (f : Engine → σ → σ × Option GoError) :
    ∀ (pre : List Engine) (s : σ) (log : List Nat),
      allAbsent (logged f) pre (s, log) = allAbsent f pre s := by
  intro pre
  induction pre with
  | nil => intro s log; simp [allAbsent]
  | cons x pre ih =>
    intro s log
    rw [allAbsent, allAbsent]
    simp only [logged]
    rw [ih]

/-- C18.  The call `readFromEnginesInSequence(engines, f)` returns nil exactly when the
chain splits as `pre ++ e :: post` where `f`, invoked on the engines of `pre` in
turn, returns a key-not-found error each time and then returns nil on `e`; in
that case `f` has been invoked on the engines of `pre` and on `e`, in that order,
once each, and on no engine of `post`. -/
theorem C18_resolver_returns_nil_at_first_success {σ : Type}
    (f : Engine → σ → σ × Option GoError) (engines : List Engine) (s : σ) :
    ((readFromEnginesInSequence engines f s).2 = none ↔
      ∃ pre e post, engines = pre ++ e :: post ∧ allAbsent f pre s = true ∧
        (f e (stateAfter f pre s)).2 = none) ∧
    (∀ pre e post, engines = pre ++ e :: post → allAbsent f pre s = true →
      (f e (stateAfter f pre s)).2 = none →
      readFromEnginesInSequence engines f s = ((f e (stateAfter f pre s)).1, none) ∧
      readFromEnginesInSequence engines (logged f) (s, []) =
        (((f e (stateAfter f pre s)).1, (pre ++ [e]).map Engine.ident), none)) := by
  have key : ∀ pre e post, engines = pre ++ e :: post → allAbsent f pre s = true →
      (f e (stateAfter f pre s)).2 = none →
      readFromEnginesInSequence engines f s = ((f e (stateAfter f pre s)).1, none) ∧
      readFromEnginesInSequence engines (logged f) (s, []) =
        (((f e (stateAfter f pre s)).1, (pre ++ [e]).map Engine.ident), none) := by
    intro pre e post he ha hn
    subst he
    constructor
    · unfold readFromEnginesInSequence
      rw [readLoop_skips_absent f pre e post none s ha, readLoop_cons_nil f e post none _ hn]
    · unfold readFromEnginesInSequence
      rw [readLoop_skips_absent (logged f) pre e post none (s, [])
          (by rw [allAbsent_logged]; exact ha),
        stateAfter_logged,
        readLoop_cons_nil (logged f) e post none _ (by simpa [logged] using hn)]
      simp [logged]
  refine ⟨⟨?_, ?_⟩, key⟩
  · intro h
    exact readLoop_nil_inv f engines none s h
  · rintro ⟨pre, e, post, he, ha, hn⟩
    rw [(key pre e post he ha hn).1]

/-- C19.  The call `readFromEnginesInSequence(engines, f)` fails as follows.  When `f`
returns an error that is not key-not-found on an engine `e`, having returned a
key-not-found error on every engine before it, that error is returned as it is
and `f` is invoked on no engine after `e`, whatever it would return there.  When
`f` returns a key-not-found error on every engine, or the chain is empty, the
error returned satisfies `errors.Is(err, ErrKeyNotFound)`; for the empty chain
it is `ErrKeyNotFound` itself. -/
theorem C19_resolver_failures {σ : Type}
    (f : Engine → σ → σ × Option GoError) (engines : List Engine) (s : σ) :
    (∀ pre e post err, engines = pre ++ e :: post → allAbsent f pre s = true →
      (f e (stateAfter f pre s)).2 = some err →
      errorsIs (some err) Sentinel.keyNotFound = false →
      readFromEnginesInSequence engines f s = ((f e (stateAfter f pre s)).1, some err) ∧
      readFromEnginesInSequence engines (logged f) (s, []) =
        (((f e (stateAfter f pre s)).1, (pre ++ [e]).map Engine.ident), some err)) ∧
    (allAbsent f engines s = true →
      ∃ err, readFromEnginesInSequence engines f s = (stateAfter f engines s, some err) ∧
        errorsIs (some err) Sentinel.keyNotFound = true) ∧
    readFromEnginesInSequence [] f s = (s, some ErrKeyNotFound) := by
  refine ⟨?_, ?_, ?_⟩
  · intro pre e post err he ha hn hk
    subst he
    constructor
    · unfold readFromEnginesInSequence
      rw [readLoop_skips_absent f pre e post none s ha,
        readLoop_cons_fatal f e post none _ err hn hk]
    · unfold readFromEnginesInSequence
      rw [readLoop_skips_absent (logged f) pre e post none (s, [])
          (by rw [allAbsent_logged]; exact ha),
        stateAfter_logged,
        readLoop_cons_fatal (logged f) e post none _ err (by simpa [logged] using hn) hk]
      simp [logged]
  · intro ha
    exact readLoop_all_absent f engines none s ha (Or.inl rfl)
  · rfl

/-! ## Registrations (C20) -/

/-- A Manager whose lists are empty as long as the lazy initialisation has not
run: what `NewManager` returns, and what every registration keeps. -/
theorem initDo_keeps_lists (m : Manager) (h : m.init = false → m.secrets = [] ∧ m.plains = []) :
    (Manager.initDo m).secrets = m.secrets ∧ (Manager.initDo m).plains = m.plains ∧
      (Manager.initDo m).init = true := by
  cases hi : m.init with
  | true => simp [Manager.initDo, hi]
  | false =>
    obtain ⟨hs, hp⟩ := h hi
    simp [Manager.initDo, hi, Manager.initialize, hs, hp]

theorem initDo_keySeparator (m : Manager) (s : String) (h : m.keySeparator = some s) :
    (Manager.initDo m).keySeparator = some s := by
  cases hi : m.init <;> simp [Manager.initDo, hi, Manager.initialize, h]

theorem NewManager_separators (seps : List String) :
    (NewManager (seps.map WithKeySeparator)).init = false ∧
    (NewManager (seps.map WithKeySeparator)).secrets = [] ∧
    (NewManager (seps.map WithKeySeparator)).plains = [] := by
  unfold NewManager
  generalize hm : ({ init := false, keySeparator := none, secrets := [], plains := [] } : Manager) = m0
  have h0 : m0.init = false ∧ m0.secrets = [] ∧ m0.plains = [] := by subst hm; simp
  clear hm
  induction seps generalizing m0 with
  | nil => simpa using h0
  | cons s rest ih =>
    simp only [List.map_cons, List.foldl_cons]
    exact ih _ (by simpa [WithKeySeparator] using h0)

theorem registerAll_lists (m : Manager) (h : m.init = false → m.secrets = [] ∧ m.plains = []) :
    ∀ rs : List Registration,
      (Manager.registerAll m rs).plains = m.plains ++ plainEngines rs ∧
      (Manager.registerAll m rs).secrets = m.secrets ++ secretEngines rs ∧
      ((Manager.registerAll m rs).init = false →
        (Manager.registerAll m rs).secrets = [] ∧ (Manager.registerAll m rs).plains = []) := by
  intro rs
  induction rs generalizing m with
  | nil => simpa [Manager.registerAll, plainEngines, secretEngines] using h
  | cons r rest ih =>
    obtain ⟨hs, hp, hi⟩ := initDo_keeps_lists m h
    have hstep : Manager.registerAll m (r :: rest) =
        Manager.registerAll (Manager.register m r) rest := by
      simp [Manager.registerAll]
    rw [hstep]
    cases r with
    | plain e =>
      have h1 : (Manager.register m (Registration.plain e)).init = true := by
        simp [Manager.register, Manager.AddPlainEngine, hi]
      obtain ⟨a, b, c⟩ := ih (Manager.register m (Registration.plain e)) (by simp [h1])
      refine ⟨?_, ?_, c⟩
      · rw [a]; simp [Manager.register, Manager.AddPlainEngine, hp, plainEngines]
      · rw [b]; simp [Manager.register, Manager.AddPlainEngine, hs, secretEngines]
    | secret e =>
      have h1 : (Manager.register m (Registration.secret e)).init = true := by
        simp [Manager.register, Manager.AddSecretEngine, hi]
      obtain ⟨a, b, c⟩ := ih (Manager.register m (Registration.secret e)) (by simp [h1])
      refine ⟨?_, ?_, c⟩
      · rw [a]; simp [Manager.register, Manager.AddSecretEngine, hp, plainEngines]
      · rw [b]; simp [Manager.register, Manager.AddSecretEngine, hs, secretEngines]

/-- C20.  On a Manager from `NewManager`, with or without separator options, after any
sequence of registration calls the plain list is the list of the engines
passed to `AddPlainEngine`, in call order, and the secret list that of the
engines passed to `AddSecretEngine`, in call order.  On such a Manager a further
call of one of the two appends its engine to its list and leaves the other
list as it is, and the lazy initialisation leaves both lists as they are. -/
theorem C20_source_lists_are_append_only (seps : List String) (rs : List Registration)
    (engine : Engine) :
    (Manager.registerAll (NewManager (seps.map WithKeySeparator)) rs).plains =
      plainEngines rs ∧
    (Manager.registerAll (NewManager (seps.map WithKeySeparator)) rs).secrets =
      secretEngines rs ∧
    (Manager.AddPlainEngine
        (Manager.registerAll (NewManager (seps.map WithKeySeparator)) rs) engine).plains =
      plainEngines rs ++ [engine] ∧
    (Manager.AddPlainEngine
        (Manager.registerAll (NewManager (seps.map WithKeySeparator)) rs) engine).secrets =
      secretEngines rs ∧
    (Manager.AddSecretEngine
        (Manager.registerAll (NewManager (seps.map WithKeySeparator)) rs) engine).secrets =
      secretEngines rs ++ [engine] ∧
    (Manager.AddSecretEngine
        (Manager.registerAll (NewManager (seps.map WithKeySeparator)) rs) engine).plains =
      plainEngines rs ∧
    (Manager.initDo (Manager.registerAll (NewManager (seps.map WithKeySeparator)) rs)).plains =
      plainEngines rs ∧
    (Manager.initDo (Manager.registerAll (NewManager (seps.map WithKeySeparator)) rs)).secrets =
      secretEngines rs := by
  obtain ⟨h0, h1, h2⟩ := NewManager_separators seps
  obtain ⟨a, b, c⟩ := registerAll_lists (NewManager (seps.map WithKeySeparator))
    (fun _ => ⟨h1, h2⟩) rs
  rw [h2] at a
  rw [h1] at b
  simp only [List.nil_append] at a b
  obtain ⟨hs, hp, _⟩ :=
    initDo_keeps_lists (Manager.registerAll (NewManager (seps.map WithKeySeparator)) rs) c
  refine ⟨a, b, ?_, ?_, ?_, ?_, ?_, ?_⟩
  · simp [Manager.AddPlainEngine, hp, a]
  · simp [Manager.AddPlainEngine, hs, b]
  · simp [Manager.AddSecretEngine, hs, b]
  · simp [Manager.AddSecretEngine, hp, a]
  · rw [hp, a]
  · rw [hs, b]

/-! ## The key path (C12) -/

theorem registerAll_keySeparator (s : String) :
    ∀ (rs : List Registration) (m : Manager), m.keySeparator = some s →
      (Manager.registerAll m rs).keySeparator = some s := by
  intro rs
  induction rs with
  | nil => intro m h; simpa [Manager.registerAll] using h
  | cons r rest ih =>
    intro m h
    have hstep : Manager.registerAll m (r :: rest) =
        Manager.registerAll (Manager.register m r) rest := by
      simp [Manager.registerAll]
    rw [hstep]
    apply ih
    cases r with
    | plain e => simp [Manager.register, Manager.AddPlainEngine, initDo_keySeparator m s h]
    | secret e => simp [Manager.register, Manager.AddSecretEngine, initDo_keySeparator m s h]

theorem register_default_keySeparator (r : Registration) :
    (Manager.register (NewManager []) r).keySeparator = some defaultKeySeparator := by
  cases r <;> rfl

theorem registerAll_default_keySeparator (rs : List Registration) (h : rs ≠ []) :
    (Manager.registerAll (NewManager []) rs).keySeparator = some defaultKeySeparator := by
  cases rs with
  | nil => exact absurd rfl h
  | cons r rest =>
    have hstep : Manager.registerAll (NewManager []) (r :: rest) =
        Manager.registerAll (Manager.register (NewManager []) r) rest := by
      simp [Manager.registerAll]
    rw [hstep]
    exact registerAll_keySeparator defaultKeySeparator rest _ (register_default_keySeparator r)

theorem append_ne_empty_left (a b : String) (h : a ≠ "") : a ++ b ≠ "" := by
  intro hab
  apply h
  have hd : (a ++ b).data = [] := by rw [hab]
  simp only [String.data_append, List.append_eq_nil] at hd
  exact String.ext hd.1

theorem joinPath_snoc (sep : String) (segs : List String) (k : String) (h : segs ≠ []) :
    joinPath sep (segs ++ [k]) = joinPath sep segs ++ sep ++ k := by
  cases segs with
  | nil => exact absurd rfl h
  | cons a rest => simp [joinPath, List.foldl_append]

theorem joinPath_ne_empty (sep : String) (segs : List String) (h : segs ≠ [])
    (hne : ∀ k ∈ segs, k ≠ "") : joinPath sep segs ≠ "" := by
  induction segs using List.reverseRecOn with
  | nil => exact absurd rfl h
  | append_singleton init k ih =>
    cases init with
    | nil => simpa [joinPath] using hne k (by simp)
    | cons a rest =>
      rw [joinPath_snoc sep (a :: rest) k (by simp), String.append_assoc]
      exact append_ne_empty_left _ _
        (ih (by simp) (fun x hx => hne x (List.mem_append_left _ hx)))

/-- The key `unmarshalObj` builds under the path of the segments `segs` for a
field with segment `k` is the path of `segs ++ [k]`. -/
theorem fieldKey_joinPath (m : Manager) (sep : String) (hs : m.keySeparator = some sep)
    (segs : List String) (hne : ∀ k ∈ segs, k ≠ "") (k : String) :
    fieldKey m (joinPath sep segs) k = some (joinPath sep (segs ++ [k])) := by
  cases segs with
  | nil => simp [fieldKey, joinPath]
  | cons a rest =>
    have h1 := joinPath_ne_empty sep (a :: rest) (by simp) hne
    rw [joinPath_snoc sep (a :: rest) k (by simp)]
    simp [fieldKey, h1, hs]

theorem reachesVia_path_gen (m : Manager) (hooks : Hooks) (sep : String)
    (hs : m.keySeparator = some sep) (pfx : String) (fs : Fields) (segs : List String)
    (fpfx tag : String) (v : FieldValue) (hr : ReachesVia m hooks pfx fs segs fpfx tag v) :
    ∀ outer : List String, (∀ k ∈ outer, k ≠ "") → pfx = joinPath sep outer →
      fpfx = joinPath sep (outer ++ segs) ∧ ∀ k ∈ outer ++ segs, k ≠ "" := by
  induction hr with
  | here pfx pre pre1 tr tag v post _ =>
    intro outer hne hp
    simpa using ⟨hp, hne⟩
  | inside pfx pre pre1 tr t tn inner post key segs fpfx tag v _ hpass hkey _ ih =>
    intro outer hne hp
    have hb := ((passesChecks_iff m t).1 hpass).1
    have hname : propName t ≠ "" := fun h0 => (isBound_eq_true_iff t).1 hb (Or.inr h0)
    have hne' : ∀ k ∈ outer ++ [propName t], k ≠ "" := by
      intro k hk
      rcases List.mem_append.1 hk with h | h
      · exact hne k h
      · simp at h; rw [h]; exact hname
    have hkey' : key = joinPath sep (outer ++ [propName t]) := by
      rw [hp, fieldKey_joinPath m sep hs outer hne (propName t)] at hkey
      exact (Option.some.inj hkey).symm
    have := ih (outer ++ [propName t]) hne' hkey'
    simpa using this

theorem reachesVia_reaches (m : Manager) (hooks : Hooks) (pfx : String) (fs : Fields)
    (segs : List String) (fpfx tag : String) (v : FieldValue)
    (hr : ReachesVia m hooks pfx fs segs fpfx tag v) : Reaches m hooks pfx fs fpfx tag v := by
  induction hr with
  | here pfx pre pre1 tr tag v post h => exact Reaches.here pfx pre pre1 tr tag v post h
  | inside pfx pre pre1 tr t tn inner post key segs fpfx tag v h hp hk _ ih =>
    exact Reaches.inside pfx pre pre1 tr t tn inner post key fpfx tag v h hp hk ih

theorem unmarshalLeaf_trace_acc (engines : List Engine) (required : Bool) (key : String)
    (v : FieldValue) (hk : isReadKind v = true) :
    ∃ acc, accessorOf v = some acc ∧
      ∀ ev ∈ (unmarshalLeaf engines required key v).2.1,
        ∃ e ∈ engines, ev = Event.read e.ident acc key := by
  obtain ⟨acc, hacc, heq⟩ := unmarshalLeaf_eq_resolve engines required key v hk
  refine ⟨acc, hacc, ?_⟩
  intro ev hev
  obtain ⟨n, hn⟩ :=
    readLoop_trace (isScalarKind v && !required) acc v key engines none (v, [])
  have htr : (unmarshalLeaf engines required key v).2.1 =
      (engines.take n).map (fun e => Event.read e.ident acc key) := by
    rw [heq]
    unfold resolveField readFromEnginesInSequence
    rcases hr : readLoop (leafClosure (isScalarKind v && !required) acc v key) engines none
      (v, []) with ⟨st, o⟩
    rw [hr] at hn
    cases o <;> simpa using hn
  rw [htr, List.mem_map] at hev
  obtain ⟨e, he, rfl⟩ := hev
  exact ⟨e, List.mem_of_mem_take he, rfl⟩

theorem unmarshalField_leaf_trace_key (m : Manager) (hooks : Hooks) (pfx configTag key : String)
    (v : FieldValue) (hp : passesChecks m configTag = true)
    (hk : fieldKey m pfx (propName configTag) = some key)
    (hv : ∀ tn fs, v ≠ FieldValue.struct tn fs) :
    ∀ ev ∈ (unmarshalField m hooks pfx configTag v).2.1,
      ∃ e ∈ chainOf m configTag, ∃ acc, ev = Event.read e.ident acc key := by
  intro ev hev
  rw [unmarshalField_leaf m hooks pfx configTag key v hp hk hv] at hev
  exact unmarshalLeaf_trace _ _ key v ev hev

/-- C12.  On a Manager built by `NewManager(WithKeySeparator(s))`, or by `NewManager()` with
`s = "."`, and any registrations: for a field that is not a structure, reached
through nested structure fields with key segments `segs`, the key `unmarshalObj`
builds, and the key of every read made for the field, is the segments and the
field's own segment joined by `s`, `k1 + s + k2 + ... + kn`.  The registrations leave
a separator given to `NewManager` as it is. -/
theorem C12_key_is_the_segments_joined_by_the_separator (s : String)
    (rs : List Registration) (m : Manager) (hooks : Hooks) (fs : Fields)
    (segs : List String) (fpfx tag : String) (v : FieldValue)
    (hm : m = Manager.registerAll (NewManager [WithKeySeparator s]) rs ∨
      (s = "." ∧ m = Manager.registerAll (NewManager []) rs))
    (hr : ReachesVia m hooks "" fs segs fpfx tag v)
    (hp : passesChecks m tag = true)
    (hv : ∀ tn inner, v ≠ FieldValue.struct tn inner) :
    fieldKey m fpfx (propName tag) = some (joinPath s (segs ++ [propName tag])) ∧
    (∀ ev ∈ (unmarshalField m hooks fpfx tag v).2.1,
      ∃ e ∈ chainOf m tag, ∃ acc,
        ev = Event.read e.ident acc (joinPath s (segs ++ [propName tag]))) ∧
    (Manager.registerAll (NewManager [WithKeySeparator s]) rs).keySeparator = some s := by
  have hkeep : (Manager.registerAll (NewManager [WithKeySeparator s]) rs).keySeparator =
      some s := registerAll_keySeparator s rs _ rfl
  have hsep : m.keySeparator = some s := by
    rcases hm with h | ⟨h1, h2⟩
    · rw [h]; exact hkeep
    · have hrs : rs ≠ [] := by
        intro h0
        subst h0
        subst h2
        have := ((passesChecks_iff _ tag).1 hp).2.2
        exact this rfl
      rw [h2, h1]
      exact registerAll_default_keySeparator rs hrs
  obtain ⟨hf, hne⟩ := reachesVia_path_gen m hooks s hsep "" fs segs fpfx tag v hr [] (by simp) rfl
  simp only [List.nil_append] at hf hne
  have hkey : fieldKey m fpfx (propName tag) = some (joinPath s (segs ++ [propName tag])) := by
    rw [hf]
    exact fieldKey_joinPath m s hsep segs hne (propName tag)
  exact ⟨hkey, unmarshalField_leaf_trace_key m hooks fpfx tag _ v hp hkey hv, hkeep⟩

/-- C12, witness: the field `dsn` of the nested structure `database` of the test
"success with nested" is read under the key "database.dsn". -/
theorem C12_key_is_the_segments_joined_by_the_separator_witness :
    joinPath "." (["database"] ++ [propName "dsn,required"]) = "database.dsn" ∧
    fieldKey nestedConfigManager "database" (propName "dsn,required") =
      some (joinPath "." (["database"] ++ [propName "dsn,required"])) ∧
    (∀ ev ∈ (unmarshalField nestedConfigManager noHooks "database" "dsn,required"
        (FieldValue.string "")).2.1,
      ∃ e ∈ chainOf nestedConfigManager "dsn,required", ∃ acc,
        ev = Event.read e.ident acc (joinPath "." (["database"] ++ [propName "dsn,required"]))) :=
  ⟨by decide,
    (C12_key_is_the_segments_joined_by_the_separator "."
      [Registration.plain nestedConfigSource, Registration.secret nestedConfigSource]
      nestedConfigManager noHooks nestedConfigFields ["database"] "database" "dsn,required"
      (FieldValue.string "") (Or.inr ⟨rfl, rfl⟩)
      (ReachesVia.inside ""
        [("dsn,required", FieldValue.string ""), ("timeout", FieldValue.duration 0)]
        [("dsn,required", FieldValue.string "X"),
          ("timeout", FieldValue.duration 10000000000)]
        [Event.read 1 Accessor.GetString "dsn", Event.read 1 Accessor.GetDuration "timeout"]
        "database" "MyTestWithNestedConfigDatabase"
        [("dsn,required", FieldValue.string ""), ("timeout", FieldValue.duration 0)]
        [("tokens", FieldValue.struct "MyTestWithNestedConfigTokens"
          [("access_token,required,secret", FieldValue.string "")])]
        "database" [] "database" "dsn,required" (FieldValue.string "")
        (by rfl) (by decide) (by decide)
        (ReachesVia.here "database" [] [] [] "dsn,required" (FieldValue.string "")
          [("timeout", FieldValue.duration 0)] (unmarshalFields_nil _ _ _)))
      (by decide) (by intro tn inner h; cases h)).1,
    (C12_key_is_the_segments_joined_by_the_separator "."
      [Registration.plain nestedConfigSource, Registration.secret nestedConfigSource]
      nestedConfigManager noHooks nestedConfigFields ["database"] "database" "dsn,required"
      (FieldValue.string "") (Or.inr ⟨rfl, rfl⟩)
      (ReachesVia.inside ""
        [("dsn,required", FieldValue.string ""), ("timeout", FieldValue.duration 0)]
        [("dsn,required", FieldValue.string "X"),
          ("timeout", FieldValue.duration 10000000000)]
        [Event.read 1 Accessor.GetString "dsn", Event.read 1 Accessor.GetDuration "timeout"]
        "database" "MyTestWithNestedConfigDatabase"
        [("dsn,required", FieldValue.string ""), ("timeout", FieldValue.duration 0)]
        [("tokens", FieldValue.struct "MyTestWithNestedConfigTokens"
          [("access_token,required,secret", FieldValue.string "")])]
        "database" [] "database" "dsn,required" (FieldValue.string "")
        (by rfl) (by decide) (by decide)
        (ReachesVia.here "database" [] [] [] "dsn,required" (FieldValue.string "")
          [("timeout", FieldValue.duration 0)] (unmarshalFields_nil _ _ _)))
      (by decide) (by intro tn inner h; cases h)).2.1⟩

/-! ## Validation runs bottom-up (C11) -/

theorem length_lt_append (a b : String) (h : b ≠ "") : a.length < (a ++ b).length := by
  have hb : 0 < b.length := by
    rcases hb : b.data with _ | ⟨c, cs⟩
    · exact absurd (String.ext hb) h
    · simp [String.length, hb]
  rw [String.length_append]
  omega

theorem fieldKey_longer (m : Manager) (pfx name key : String) (hn : name ≠ "")
    (hk : fieldKey m pfx name = some key) : pfx.length < key.length := by
  unfold fieldKey at hk
  by_cases hp : pfx = ""
  · simp [hp] at hk
    subst hk
    subst hp
    have := length_lt_append "" name hn
    simpa using this
  · simp only [hp, if_false] at hk
    cases hs : m.keySeparator with
    | none => simp [hs] at hk
    | some sep =>
      simp only [hs, Option.some.injEq] at hk
      subst hk
      rw [String.append_assoc]
      exact length_lt_append pfx (sep ++ name)
        (fun h0 => hn (by
          have hd : (sep ++ name).data = [] := by rw [h0]
          simp only [String.data_append, List.append_eq_nil] at hd
          exact String.ext hd.2))

mutual
theorem unmarshalField_validate_longer (m : Manager) (hooks : Hooks) :
    ∀ (v : FieldValue) (pfx tag path : String),
      Event.validate path ∈ (unmarshalField m hooks pfx tag v).2.1 → pfx.length < path.length
  | v, pfx, tag, path => by
    cases v with
    | struct tn inner =>
      rcases unmarshalField_cases m hooks pfx tag (FieldValue.struct tn inner) with
        ⟨_, h⟩ | ⟨_, _, _, h⟩ | ⟨_, _, h⟩ | ⟨_, _, h⟩ | ⟨hp, key, hk⟩
      · rw [h]; simp
      · rw [h]; simp
      · rw [h]; simp
      · rw [h]; simp
      · rw [unmarshalField_struct m hooks pfx tag key tn inner hp hk]
        intro hmem
        have hb := ((passesChecks_iff m tag).1 hp).1
        have hname : propName tag ≠ "" := fun h0 =>
          (isBound_eq_true_iff tag).1 hb (Or.inr h0)
        have hkey := fieldKey_longer m pfx (propName tag) key hname hk
        rcases runValidator_trace hooks key tn _ _ hmem with h1 | h1
        · exact Nat.lt_trans hkey (unmarshalFields_validate_longer m hooks inner key path h1)
        · injection h1 with h2
          rw [h2]
          exact hkey
    | _ =>
      intro hmem
      obtain ⟨e, _, acc, key, hev⟩ :=
        unmarshalField_leaf_trace m hooks pfx tag _ (by intro tn fs hc; cases hc) _ hmem
      cases hev
theorem unmarshalFields_validate_longer (m : Manager) (hooks : Hooks) :
    ∀ (fs : Fields) (pfx path : String),
      Event.validate path ∈ (unmarshalFields m hooks pfx fs).2.1 → pfx.length < path.length
  | [], pfx, path => by rw [unmarshalFields_nil]; simp
  | (tag, v) :: rest, pfx, path => by
    have h1 := unmarshalField_validate_longer m hooks v pfx tag path
    have h2 := unmarshalFields_validate_longer m hooks rest pfx path
    rcases hf : unmarshalField m hooks pfx tag v with ⟨v1, t1, o1⟩
    rw [hf] at h1
    cases o1 with
    | ok =>
      rw [unmarshalFields_cons_ok m hooks pfx tag v v1 t1 rest hf]
      intro hmem
      rcases List.mem_append.1 hmem with h | h
      · exact h1 h
      · exact h2 h
    | error e =>
      rw [unmarshalFields_cons_stop m hooks pfx tag v v1 t1 _ rest hf (by simp)]
      exact h1
    | panic msg =>
      rw [unmarshalFields_cons_stop m hooks pfx tag v v1 t1 _ rest hf (by simp)]
      exact h1
end

/-- C11.  In a call of `unmarshalObj` on an outer structure (for `Populate`: the target, with
an empty path) whose loop reaches a bound nested structure, the earlier fields
having bound without error: once the fields of the nested structure are
populated, its `Validate` method is called on them, and that call comes
right after the events of its fields and before any call of the outer
structure's method.  When the nested method fails, its error is what the outer
call returns, the later fields are left alone and the outer structure's method
is not called. -/
theorem C11_validation_runs_bottom_up (m : Manager) (hooks : Hooks)
    (keyPrefix tn : String) (pre pre1 : Fields) (trp : List Event) (t tin : String)
    (inner post : Fields) (key : String) (inner1 : Fields) (tri : List Event)
    (vin : Fields → Option GoError)
    (hpre : unmarshalFields m hooks keyPrefix pre = (pre1, trp, Outcome.ok))
    (hp : passesChecks m t = true)
    (hk : fieldKey m keyPrefix (propName t) = some key)
    (hin : unmarshalFields m hooks key inner = (inner1, tri, Outcome.ok))
    (hv : hooks tin = some vin) :
    (∃ suffix,
      (unmarshalObj m hooks keyPrefix tn
        (pre ++ (t, FieldValue.struct tin inner) :: post)).2.1 =
        trp ++ tri ++ [Event.validate key] ++ suffix) ∧
    Event.validate keyPrefix ∉ trp ++ tri ++ [Event.validate key] ∧
    (∀ err, vin inner1 = some err →
      unmarshalObj m hooks keyPrefix tn (pre ++ (t, FieldValue.struct tin inner) :: post) =
        (pre1 ++ (t, FieldValue.struct tin inner1) :: post,
          trp ++ tri ++ [Event.validate key], Outcome.error err)) ∧
    (∀ err, keyPrefix = "" → vin inner1 = some err →
      Manager.Populate m hooks
          (Target.pointer (FieldValue.struct tn
            (pre ++ (t, FieldValue.struct tin inner) :: post))) =
        (Target.pointer (FieldValue.struct tn
            (pre1 ++ (t, FieldValue.struct tin inner1) :: post)),
          trp ++ tri ++ [Event.validate key], Outcome.error err)) := by
  have hb := ((passesChecks_iff m t).1 hp).1
  have hname : propName t ≠ "" := fun h0 => (isBound_eq_true_iff t).1 hb (Or.inr h0)
  have hkey := fieldKey_longer m keyPrefix (propName t) key hname hk
  have hfield : unmarshalField m hooks keyPrefix t (FieldValue.struct tin inner) =
      (FieldValue.struct tin inner1, tri ++ [Event.validate key],
        match vin inner1 with
        | some err => Outcome.error err
        | none => Outcome.ok) := by
    rw [unmarshalField_struct m hooks keyPrefix t key tin inner hp hk, hin]
    cases hval : vin inner1 <;> simp [runValidator, hv, hval]
  have hfail : ∀ err, vin inner1 = some err →
      unmarshalObj m hooks keyPrefix tn (pre ++ (t, FieldValue.struct tin inner) :: post) =
        (pre1 ++ (t, FieldValue.struct tin inner1) :: post,
          trp ++ tri ++ [Event.validate key], Outcome.error err) := by
    intro err herr
    rw [herr] at hfield
    unfold unmarshalObj
    rw [unmarshalFields_append_ok m hooks keyPrefix pre pre1 trp _ hpre,
      unmarshalFields_cons_stop m hooks keyPrefix t _ _ _ _ post hfield (by simp)]
    simp [runValidator]
  refine ⟨?_, ?_, hfail, ?_⟩
  rotate_right
  · intro err h0 herr
    subst h0
    simp [Manager.Populate, hfail err herr]
  · cases hval : vin inner1 with
    | some err => exact ⟨[], by rw [hfail err hval]; simp⟩
    | none =>
      rw [hval] at hfield
      unfold unmarshalObj
      rw [unmarshalFields_append_ok m hooks keyPrefix pre pre1 trp _ hpre,
        unmarshalFields_cons_ok m hooks keyPrefix t _ _ _ post hfield]
      rcases hrest : unmarshalFields m hooks keyPrefix post with ⟨p1, t1, o1⟩
      cases o1 with
      | ok =>
        cases hh : hooks tn with
        | none => exact ⟨t1, by simp [runValidator, hh]⟩
        | some vout =>
          cases hvo : vout (pre1 ++ (t, FieldValue.struct tin inner1) :: p1) <;>
            exact ⟨t1 ++ [Event.validate keyPrefix], by simp [runValidator, hh, hvo]⟩
      | error e => exact ⟨t1, by simp [runValidator]⟩
      | panic msg => exact ⟨t1, by simp [runValidator]⟩
  · intro hmem
    have hpre' : Event.validate keyPrefix ∈ (unmarshalFields m hooks keyPrefix pre).2.1 →
        False := fun h =>
      Nat.lt_irrefl _ (unmarshalFields_validate_longer m hooks pre keyPrefix keyPrefix h)
    have hin' : Event.validate keyPrefix ∈ (unmarshalFields m hooks key inner).2.1 →
        False := fun h =>
      Nat.lt_irrefl _
        (Nat.lt_trans hkey (unmarshalFields_validate_longer m hooks inner key keyPrefix h))
    rw [hpre] at hpre'
    rw [hin] at hin'
    simp only [List.mem_append, List.mem_singleton] at hmem
    rcases hmem with (h | h) | h
    · exact hpre' h
    · exact hin' h
    · injection h with h2
      rw [h2] at hkey
      exact Nat.lt_irrefl _ hkey

/-- C11, witness: the nested structure is bound to -1, its method fails, `Populate`
returns that error and the method of the outer structure, which would fail
with another error, is not called. -/
theorem C11_validation_runs_bottom_up_witness :
    Manager.Populate nestedNegativeManager nestedValidationHooks
        (Target.pointer (FieldValue.struct "Outer" outerFields)) =
      (Target.pointer (FieldValue.struct "Outer"
        [("sub", FieldValue.struct "MyTestConfigWithValidation"
          [("n", FieldValue.int IntKind.int (-1))])]),
        [Event.read 1 Accessor.GetInt "sub.n", Event.validate "sub"],
        Outcome.error errMustBePositive) ∧
    unmarshalObj nestedNegativeManager nestedValidationHooks "" "Outer"
        ([] ++ ("sub", FieldValue.struct "MyTestConfigWithValidation" validationFields) :: []) =
      ([] ++ ("sub", FieldValue.struct "MyTestConfigWithValidation"
          [("n", FieldValue.int IntKind.int (-1))]) :: [],
        [] ++ [Event.read 1 Accessor.GetInt "sub.n"] ++ [Event.validate "sub"],
        Outcome.error errMustBePositive) :=
  ⟨by rfl,
    (C11_validation_runs_bottom_up nestedNegativeManager nestedValidationHooks "" "Outer"
      [] [] [] "sub" "MyTestConfigWithValidation" validationFields [] "sub"
      [("n", FieldValue.int IntKind.int (-1))] [Event.read 1 Accessor.GetInt "sub.n"]
      validateN (unmarshalFields_nil _ _ _) (by decide) (by decide) (by rfl)
      (by rfl)).2.2.1 errMustBePositive (by rfl)⟩

/-! ## Dispatch on the kind of the field (C13, C14) -/

theorem readLoop_found_after_absent (acc : Accessor) (v : FieldValue) (key : String) :
    ∀ (pre : List Engine) (e : Engine) (post : List Engine) (last : Option GoError)
      (st : FieldState),
      (∀ x ∈ pre, errorsIs (readError x key v) Sentinel.keyNotFound = true) →
      readError e key v = none →
      readLoop (leafClosure false acc v key) (pre ++ e :: post) last st =
        ((storedValue e key v,
          st.2 ++ (pre ++ [e]).map (fun x => Event.read x.ident acc key)), none) := by
  intro pre
  induction pre with
  | nil =>
    intro e post last st _ he
    simpa using readLoop_head_found false acc v key e post last st he
  | cons x pre ih =>
    intro e post last st hall he
    have hx : errorsIs (readError x key v) Sentinel.keyNotFound = true :=
      hall x (List.mem_cons_self x pre)
    obtain ⟨err, herr⟩ := errorsIs_some_of_true _ _ hx
    have hstep : readLoop (leafClosure false acc v key) (x :: (pre ++ e :: post)) last st =
        readLoop (leafClosure false acc v key) (pre ++ e :: post) (some err)
          (st.1, st.2 ++ [Event.read x.ident acc key]) := by
      rw [herr] at hx
      simp [readLoop, leafClosure, herr, hx]
    rw [List.cons_append, hstep,
      ih e post (some err) _ (fun y hy => hall y (List.mem_cons_of_mem x hy)) he]
    simp

theorem unmarshalLeaf_found_after_absent (required : Bool) (key : String) (v : FieldValue)
    (pre : List Engine) (e : Engine) (post : List Engine) (hk : isReadKind v = true)
    (hl : (isScalarKind v && !required) = false)
    (habs : ∀ x ∈ pre, errorsIs (readError x key v) Sentinel.keyNotFound = true)
    (he : readError e key v = none) :
    ∃ acc, accessorOf v = some acc ∧
      unmarshalLeaf (pre ++ e :: post) required key v =
        (storedValue e key v, (pre ++ [e]).map (fun x => Event.read x.ident acc key),
          Outcome.ok) := by
  obtain ⟨acc, hacc, heq⟩ := unmarshalLeaf_eq_resolve (pre ++ e :: post) required key v hk
  refine ⟨acc, hacc, ?_⟩
  rw [heq, hl]
  unfold resolveField readFromEnginesInSequence
  rw [readLoop_found_after_absent acc v key pre e post none (v, []) habs he]
  simp

theorem unmarshalLeaf_head_found_acc (required : Bool) (key : String) (v : FieldValue)
    (e : Engine) (rest : List Engine) (hk : isReadKind v = true)
    (he : readError e key v = none) :
    ∃ acc, accessorOf v = some acc ∧
      unmarshalLeaf (e :: rest) required key v =
        (storedValue e key v, [Event.read e.ident acc key], Outcome.ok) := by
  obtain ⟨acc, hacc, heq⟩ := unmarshalLeaf_eq_resolve (e :: rest) required key v hk
  refine ⟨acc, hacc, ?_⟩
  rw [heq]
  unfold resolveField readFromEnginesInSequence
  rw [readLoop_head_found _ acc v key e rest none (v, []) he]
  simp

theorem isScalarKind_isReadKind (v : FieldValue) (h : isScalarKind v = true) :
    isReadKind v = true := by
  cases v <;> simp_all [isScalarKind, isReadKind]

theorem isSliceKind_isReadKind (v : FieldValue) (h : isSliceKind v = true) :
    isReadKind v = true := by
  cases v <;> simp_all [isSliceKind, isReadKind]

theorem isSliceKind_not_scalar (v : FieldValue) (h : isSliceKind v = true) :
    isScalarKind v = false := by
  cases v <;> simp_all [isSliceKind, isScalarKind]

/-- C13, as amended.  For a bound field of a scalar kind that passes the chain checks, every
read is made through the accessor of its kind: string, `GetString`; int, int8,
int16, int32, `GetInt`; int64, `GetInt64`; `time.Duration`, `GetDuration` (never
`GetInt64`); uint, uint8, uint16, uint32, `GetUint`; uint64, `GetUint64`; float32
and float64, `GetFloat`; bool, `GetBool`.  When the first engine of the chain
returns a value, or, for a required field, the first engine that does not
answer key-not-found does, the field is set to that value converted to the
field's type: the value itself, except that a narrower integer field keeps it
modulo `2^w` and a float32 field holds `float32(value)`. -/
theorem C13_scalar_dispatch_by_kind (m : Manager) (hooks : Hooks) (pfx tag key : String)
    (v : FieldValue) (hp : passesChecks m tag = true)
    (hk : fieldKey m pfx (propName tag) = some key) (hs : isScalarKind v = true) :
    (∃ acc, accessorOf v = some acc ∧
      (∀ ev ∈ (unmarshalField m hooks pfx tag v).2.1,
        ∃ e ∈ chainOf m tag, ev = Event.read e.ident acc key) ∧
      (∀ e rest, chainOf m tag = e :: rest → readError e key v = none →
        unmarshalField m hooks pfx tag v =
          (storedValue e key v, [Event.read e.ident acc key], Outcome.ok)) ∧
      (∀ pre e post, isRequired tag = true → chainOf m tag = pre ++ e :: post →
        (∀ x ∈ pre, errorsIs (readError x key v) Sentinel.keyNotFound = true) →
        readError e key v = none →
        unmarshalField m hooks pfx tag v =
          (storedValue e key v, (pre ++ [e]).map (fun x => Event.read x.ident acc key),
            Outcome.ok))) ∧
    (∀ (e : Engine) (k : String),
      (∀ x, accessorOf (FieldValue.string x) = some Accessor.GetString ∧
        storedValue e k (FieldValue.string x) = FieldValue.string (e.GetString k).1) ∧
      (∀ w x, accessorOf (FieldValue.int w x) = some Accessor.GetInt ∧
        storedValue e k (FieldValue.int w x) =
          FieldValue.int w (wrapSigned w.bits (e.GetInt k).1)) ∧
      (∀ x, accessorOf (FieldValue.int64 x) = some Accessor.GetInt64 ∧
        storedValue e k (FieldValue.int64 x) = FieldValue.int64 (e.GetInt64 k).1) ∧
      (∀ x, accessorOf (FieldValue.duration x) = some Accessor.GetDuration ∧
        storedValue e k (FieldValue.duration x) = FieldValue.duration (e.GetDuration k).1) ∧
      (∀ w x, accessorOf (FieldValue.uint w x) = some Accessor.GetUint ∧
        storedValue e k (FieldValue.uint w x) =
          FieldValue.uint w (wrapUnsigned w.bits (e.GetUint k).1)) ∧
      (∀ x, accessorOf (FieldValue.uint64 x) = some Accessor.GetUint64 ∧
        storedValue e k (FieldValue.uint64 x) = FieldValue.uint64 (e.GetUint64 k).1) ∧
      (∀ x, accessorOf (FieldValue.float64 x) = some Accessor.GetFloat ∧
        storedValue e k (FieldValue.float64 x) = FieldValue.float64 (e.GetFloat k).1) ∧
      (∀ x, accessorOf (FieldValue.float32 x) = some Accessor.GetFloat ∧
        storedValue e k (FieldValue.float32 x) =
          FieldValue.float32 (Float32.mk (e.GetFloat k).1)) ∧
      (∀ x, accessorOf (FieldValue.bool x) = some Accessor.GetBool ∧
        storedValue e k (FieldValue.bool x) = FieldValue.bool (e.GetBool k).1)) := by
  have hr := isScalarKind_isReadKind v hs
  have hv := isReadKind_not_struct v hr
  have hleaf := unmarshalField_leaf m hooks pfx tag key v hp hk hv
  refine ⟨?_, ?_⟩
  · obtain ⟨acc, hacc, htr⟩ :=
      unmarshalLeaf_trace_acc (chainOf m tag) (isRequired tag) key v hr
    refine ⟨acc, hacc, ?_, ?_, ?_⟩
    · intro ev hev
      rw [hleaf] at hev
      exact htr ev hev
    · intro e rest hc he
      obtain ⟨acc1, hacc1, h1⟩ :=
        unmarshalLeaf_head_found_acc (isRequired tag) key v e rest hr he
      rw [hacc] at hacc1
      cases hacc1
      rw [hleaf, hc, h1]
    · intro pre e post hreq hc habs he
      obtain ⟨acc1, hacc1, h1⟩ :=
        unmarshalLeaf_found_after_absent (isRequired tag) key v pre e post hr
          (by simp [hreq]) habs he
      rw [hacc] at hacc1
      cases hacc1
      rw [hleaf, hc, h1]
  · intro e k
    exact ⟨fun _ => ⟨rfl, rfl⟩, fun _ _ => ⟨rfl, rfl⟩, fun _ => ⟨rfl, rfl⟩,
      fun _ => ⟨rfl, rfl⟩, fun _ _ => ⟨rfl, rfl⟩, fun _ => ⟨rfl, rfl⟩, fun _ => ⟨rfl, rfl⟩,
      fun _ => ⟨rfl, rfl⟩, fun _ => ⟨rfl, rfl⟩⟩

/-- C13, witness: the field `timeout` of type `time.Duration` in the nested test
structure is read through `GetDuration` under "database.timeout" and set to the
ten seconds the source returns. -/
theorem C13_scalar_dispatch_by_kind_witness :
    ∃ acc, accessorOf (FieldValue.duration 0) = some acc ∧
      (∀ ev ∈ (unmarshalField nestedConfigManager noHooks "database" "timeout"
          (FieldValue.duration 0)).2.1,
        ∃ e ∈ chainOf nestedConfigManager "timeout",
          ev = Event.read e.ident acc "database.timeout") ∧
      (∀ e rest, chainOf nestedConfigManager "timeout" = e :: rest →
        readError e "database.timeout" (FieldValue.duration 0) = none →
        unmarshalField nestedConfigManager noHooks "database" "timeout"
            (FieldValue.duration 0) =
          (storedValue e "database.timeout" (FieldValue.duration 0),
            [Event.read e.ident acc "database.timeout"], Outcome.ok)) :=
  (C13_scalar_dispatch_by_kind nestedConfigManager noHooks "database" "timeout"
      "database.timeout" (FieldValue.duration 0) (by decide) (by decide) (by decide)).1.elim
    fun acc h => ⟨acc, h.1, h.2.1, h.2.2.1⟩

/-- C13, counterexample: the source returns the uint 256 for the key of a bound
uint8 field; `Populate` returns nil and the field holds 0. -/
theorem C13_counterexample_uint8_field :
    (mapSource 1 [("level", GoValue.uint 256),
      ("levels", GoValue.intSlice (some [1, 2]))]).GetUint "level" = (256, none) ∧
    Manager.Populate levelManager noHooks
        (Target.pointer (FieldValue.struct "T" [("level", FieldValue.uint UintKind.uint8 7)])) =
      (Target.pointer (FieldValue.struct "T" [("level", FieldValue.uint UintKind.uint8 0)]),
        [Event.read 1 Accessor.GetUint "level"], Outcome.ok) :=
  ⟨by decide, by rfl⟩

/-- C14, as amended.  For a bound field that is a slice of int, int64, string, bool or
float64 and passes the chain checks, every read is made through the slice
accessor of its element kind (`GetIntSlice`, `GetInt64Slice`, `GetStringSlice`,
`GetBoolSlice`, `GetFloatSlice`) on the engines of the field's chain, and when the
first engine that does not answer key-not-found returns a sequence, the whole
sequence is assigned to the field. -/
theorem C14_slice_dispatch_by_element_kind (m : Manager) (hooks : Hooks)
    (pfx tag key : String) (v : FieldValue) (hp : passesChecks m tag = true)
    (hk : fieldKey m pfx (propName tag) = some key) (hs : isSliceKind v = true) :
    (∃ acc, accessorOf v = some acc ∧
      (∀ ev ∈ (unmarshalField m hooks pfx tag v).2.1,
        ∃ e ∈ chainOf m tag, ev = Event.read e.ident acc key) ∧
      (∀ pre e post, chainOf m tag = pre ++ e :: post →
        (∀ x ∈ pre, errorsIs (readError x key v) Sentinel.keyNotFound = true) →
        readError e key v = none →
        unmarshalField m hooks pfx tag v =
          (storedValue e key v, (pre ++ [e]).map (fun x => Event.read x.ident acc key),
            Outcome.ok))) ∧
    (∀ (e : Engine) (k : String),
      (∀ x, accessorOf (FieldValue.intSlice x) = some Accessor.GetIntSlice ∧
        storedValue e k (FieldValue.intSlice x) = FieldValue.intSlice (e.GetIntSlice k).1) ∧
      (∀ x, accessorOf (FieldValue.int64Slice x) = some Accessor.GetInt64Slice ∧
        storedValue e k (FieldValue.int64Slice x) =
          FieldValue.int64Slice (e.GetInt64Slice k).1) ∧
      (∀ x, accessorOf (FieldValue.stringSlice x) = some Accessor.GetStringSlice ∧
        storedValue e k (FieldValue.stringSlice x) =
          FieldValue.stringSlice (e.GetStringSlice k).1) ∧
      (∀ x, accessorOf (FieldValue.boolSlice x) = some Accessor.GetBoolSlice ∧
        storedValue e k (FieldValue.boolSlice x) =
          FieldValue.boolSlice (e.GetBoolSlice k).1) ∧
      (∀ x, accessorOf (FieldValue.float64Slice x) = some Accessor.GetFloatSlice ∧
        storedValue e k (FieldValue.float64Slice x) =
          FieldValue.float64Slice (e.GetFloatSlice k).1)) := by
  have hr := isSliceKind_isReadKind v hs
  have hv := isReadKind_not_struct v hr
  have hleaf := unmarshalField_leaf m hooks pfx tag key v hp hk hv
  refine ⟨?_, ?_⟩
  · obtain ⟨acc, hacc, htr⟩ :=
      unmarshalLeaf_trace_acc (chainOf m tag) (isRequired tag) key v hr
    refine ⟨acc, hacc, ?_, ?_⟩
    · intro ev hev
      rw [hleaf] at hev
      exact htr ev hev
    · intro pre e post hc habs he
      obtain ⟨acc1, hacc1, h1⟩ :=
        unmarshalLeaf_found_after_absent (isRequired tag) key v pre e post hr
          (by simp [isSliceKind_not_scalar v hs]) habs he
      rw [hacc] at hacc1
      cases hacc1
      rw [hleaf, hc, h1]
  · intro e k
    exact ⟨fun _ => ⟨rfl, rfl⟩, fun _ => ⟨rfl, rfl⟩, fun _ => ⟨rfl, rfl⟩,
      fun _ => ⟨rfl, rfl⟩, fun _ => ⟨rfl, rfl⟩⟩

/-- C14, witness: a slice of ints bound to "levels" is read through `GetIntSlice`
and receives the whole stored sequence. -/
theorem C14_slice_dispatch_by_element_kind_witness :
    (∃ acc, accessorOf (FieldValue.intSlice none) = some acc ∧
      (∀ ev ∈ (unmarshalField levelManager noHooks "" "levels"
          (FieldValue.intSlice none)).2.1,
        ∃ e ∈ chainOf levelManager "levels", ev = Event.read e.ident acc "levels")) ∧
    unmarshalField levelManager noHooks "" "levels" (FieldValue.intSlice none) =
      (FieldValue.intSlice (some [1, 2]), [Event.read 1 Accessor.GetIntSlice "levels"],
        Outcome.ok) :=
  ⟨(C14_slice_dispatch_by_element_kind levelManager noHooks "" "levels" "levels"
      (FieldValue.intSlice none) (by decide) (by decide) (by decide)).1.elim
      fun acc h => ⟨acc, h.1, h.2.1⟩,
    by rfl⟩

/-- C14, counterexample: a bound slice field whose element kind the slice case
does not list (a slice of int8, say), with a chain whose source holds a
sequence under its key: `Populate` makes no read, leaves the field as it is
and returns nil. -/
theorem C14_counterexample_unlisted_element_kind :
    (mapSource 1 [("level", GoValue.uint 256),
      ("levels", GoValue.intSlice (some [1, 2]))]).GetIntSlice "levels" =
      (some [1, 2], none) ∧
    Manager.Populate levelManager noHooks
        (Target.pointer (FieldValue.struct "T" [("levels", FieldValue.otherSlice)])) =
      (Target.pointer (FieldValue.struct "T" [("levels", FieldValue.otherSlice)]),
        [], Outcome.ok) :=
  ⟨by decide, by rfl⟩

/-! ## Fields that are not bound (C15) -/

theorem propName_of_leading_comma (cs : List Char) : propName (String.mk (',' :: cs)) = "" := by
  simp [propName, splitTag, splitChars]

theorem propName_of_dash_comma (cs : List Char) :
    propName (String.mk ('-' :: ',' :: cs)) = "-" := by
  have h : ('-' : Char) ≠ ',' := by decide
  simp [propName, splitTag, splitChars, h]

/-- C15.  A field whose annotation has an empty first token or the first token "-" is
left alone by the loop body, whatever the Manager holds (its chains may be
empty), whatever the parent path and whatever the field is (a nested structure
is not entered): no event, no error, the value as it was, and the loop goes on
with the next field.  Such are the absent or empty annotation, every
annotation that starts with a comma, the annotation "-" and every annotation
that starts with "-,". -/
theorem C15_unbound_field_is_left_alone (m : Manager) (hooks : Hooks) (pfx tag : String)
    (v : FieldValue) (rest : Fields) (h : propName tag = "" ∨ propName tag = "-") :
    unmarshalField m hooks pfx tag v = (v, [], Outcome.ok) ∧
    unmarshalFields m hooks pfx ((tag, v) :: rest) =
      ((tag, v) :: (unmarshalFields m hooks pfx rest).1,
        (unmarshalFields m hooks pfx rest).2.1, (unmarshalFields m hooks pfx rest).2.2) ∧
    propName "" = "" ∧ propName "-" = "-" ∧
    (∀ cs, propName (String.mk (',' :: cs)) = "") ∧
    (∀ cs, propName (String.mk ('-' :: ',' :: cs)) = "-") := by
  have hb : isBound tag = false := by
    rcases h with h | h <;> simp [isBound, h]
  have hf := unmarshalField_unbound m hooks pfx tag v hb
  refine ⟨hf, ?_, by decide, by decide, propName_of_leading_comma, propName_of_dash_comma⟩
  rw [unmarshalFields_cons_ok m hooks pfx tag v v [] rest hf]
  simp

/-- C15, witness: a nested structure under the annotation "-", on a Manager without
any engine: `Populate` returns nil, produces no event and leaves the structure
as it is. -/
theorem C15_unbound_field_is_left_alone_witness :
    unmarshalField freshManager noHooks "" "-"
        (FieldValue.struct "MyTestConfig" myTestConfigFields) =
      (FieldValue.struct "MyTestConfig" myTestConfigFields, [], Outcome.ok) ∧
    Manager.Populate freshManager noHooks
        (Target.pointer (FieldValue.struct "T"
          [("-", FieldValue.struct "MyTestConfig" myTestConfigFields),
           ("", FieldValue.string "kept"), (",required", FieldValue.int IntKind.int 5)])) =
      (Target.pointer (FieldValue.struct "T"
          [("-", FieldValue.struct "MyTestConfig" myTestConfigFields),
           ("", FieldValue.string "kept"), (",required", FieldValue.int IntKind.int 5)]),
        [], Outcome.ok) :=
  ⟨(C15_unbound_field_is_left_alone freshManager noHooks "" "-"
      (FieldValue.struct "MyTestConfig" myTestConfigFields) [] (Or.inr (by decide))).1,
    by rfl⟩

/-! ## The flags of the annotation (C16) -/

theorem splitChars_ne_nil (sep : Char) (cs : List Char) : splitChars sep cs ≠ [] := by
  cases cs with
  | nil => simp [splitChars]
  | cons c cs =>
    rw [splitChars]
    split
    · simp
    · split <;> simp

theorem splitChars_append_sep (sep : Char) (rest : List Char) :
    ∀ t : List Char, sep ∉ t → splitChars sep (t ++ sep :: rest) = t :: splitChars sep rest := by
  intro t
  induction t with
  | nil => intro _; simp [splitChars]
  | cons c t ih =>
    intro h
    have hc : c ≠ sep := fun h0 => h (by simp [h0])
    have ht : sep ∉ t := fun h0 => h (List.mem_cons_of_mem c h0)
    rw [List.cons_append, splitChars, if_neg hc, ih ht]

theorem splitChars_sepFree (sep : Char) :
    ∀ t : List Char, sep ∉ t → splitChars sep t = [t] := by
  intro t
  induction t with
  | nil => intro _; simp [splitChars]
  | cons c t ih =>
    intro h
    have hc : c ≠ sep := fun h0 => h (by simp [h0])
    have ht : sep ∉ t := fun h0 => h (List.mem_cons_of_mem c h0)
    rw [splitChars, if_neg hc, ih ht]

theorem splitChars_joinChars (sep : Char) :
    ∀ toks : List (List Char), toks ≠ [] → (∀ t ∈ toks, sep ∉ t) →
      splitChars sep (joinChars sep toks) = toks := by
  intro toks
  induction toks with
  | nil => intro h; exact absurd rfl h
  | cons t rest ih =>
    intro _ hall
    cases rest with
    | nil => simpa [joinChars] using splitChars_sepFree sep t (hall t (by simp))
    | cons u rest =>
      rw [joinChars, splitChars_append_sep sep _ t (hall t (by simp)),
        ih (by simp) (fun x hx => hall x (List.mem_cons_of_mem t hx))]

/-- Splitting the annotation made of comma-free tokens gives the tokens back. -/
theorem splitTag_joinTag (toks : List String) (hne : toks ≠ [])
    (hcf : ∀ t ∈ toks, commaFree t = true) : splitTag (joinTag toks) = toks := by
  unfold splitTag joinTag
  simp only
  rw [splitChars_joinChars ',' (toks.map String.data) (by simpa using hne)]
  · rw [List.map_map]
    have hid : (String.mk ∘ String.data) = id := by
      funext x
      rfl
    rw [hid, List.map_id]
  · intro t ht
    rw [List.mem_map] at ht
    obtain ⟨x, hx, rfl⟩ := ht
    have := hcf x hx
    simpa [commaFree] using this

theorem parseFlags_foldl (toks : List String) :
    ∀ acc : Bool × Bool,
      toks.foldl
        (fun (acc : Bool × Bool) tok =>
          if tok = "required" then (true, acc.2)
          else if tok = "secret" then (acc.1, true)
          else acc) acc =
      (acc.1 || decide ("required" ∈ toks), acc.2 || decide ("secret" ∈ toks)) := by
  induction toks with
  | nil => intro acc; simp
  | cons t rest ih =>
    intro acc
    rw [List.foldl_cons, ih]
    by_cases h1 : t = "required"
    · subst h1
      simp
    · by_cases h2 : t = "secret"
      · subst h2
        simp
      · have h1' : ¬ "required" = t := fun h => h1 h.symm
        have h2' : ¬ "secret" = t := fun h => h2 h.symm
        simp [h1, h2, h1', h2']

theorem parseFlags_eq (toks : List String) :
    parseFlags toks = (decide ("required" ∈ toks), decide ("secret" ∈ toks)) := by
  unfold parseFlags
  rw [parseFlags_foldl]
  simp

theorem isRequired_iff (tag : String) :
    isRequired tag = true ↔ "required" ∈ (splitTag tag).tail := by
  simp [isRequired, parseFlags_eq]

theorem isSecret_iff (tag : String) :
    isSecret tag = true ↔ "secret" ∈ (splitTag tag).tail := by
  simp [isSecret, parseFlags_eq]

theorem descriptor_of_joinTag (name : String) (flags : List String)
    (hn : commaFree name = true) (hf : ∀ t ∈ flags, commaFree t = true) :
    propName (joinTag (name :: flags)) = name ∧
    isRequired (joinTag (name :: flags)) = decide ("required" ∈ flags) ∧
    isSecret (joinTag (name :: flags)) = decide ("secret" ∈ flags) := by
  have hs : splitTag (joinTag (name :: flags)) = name :: flags :=
    splitTag_joinTag (name :: flags) (by simp) (by
      intro t ht
      rcases List.mem_cons.1 ht with h | h
      · rw [h]; exact hn
      · exact hf t h)
  simp [propName, isRequired, isSecret, hs, parseFlags_eq]

theorem descriptor_congr (name : String) (flags1 flags2 : List String)
    (hn : commaFree name = true) (h1 : ∀ t ∈ flags1, commaFree t = true)
    (h2 : ∀ t ∈ flags2, commaFree t = true)
    (hr : "required" ∈ flags1 ↔ "required" ∈ flags2)
    (hs : "secret" ∈ flags1 ↔ "secret" ∈ flags2) :
    propName (joinTag (name :: flags1)) = propName (joinTag (name :: flags2)) ∧
    isRequired (joinTag (name :: flags1)) = isRequired (joinTag (name :: flags2)) ∧
    isSecret (joinTag (name :: flags1)) = isSecret (joinTag (name :: flags2)) := by
  obtain ⟨a1, b1, c1⟩ := descriptor_of_joinTag name flags1 hn h1
  obtain ⟨a2, b2, c2⟩ := descriptor_of_joinTag name flags2 hn h2
  refine ⟨by rw [a1, a2], ?_, ?_⟩
  · rw [b1, b2]; exact decide_eq_decide.2 hr
  · rw [c1, c2]; exact decide_eq_decide.2 hs

/-- C16.  For every annotation, required holds exactly when a token after the first is
"required", and secret exactly when one is "secret".  For an annotation made of a
key segment and flag tokens (none holding a comma) the key segment is the first
token, and two such annotations with the same key segment whose flag tokens
agree on whether "required" and whether "secret" occur among them have the same
key segment and the same flags: so for flag tokens permuted, for a token
written twice, and for a token other than "required" and "secret" added. -/
theorem C16_flags_depend_on_the_set_of_tokens :
    (∀ tag, (isRequired tag = true ↔ "required" ∈ (splitTag tag).tail) ∧
      (isSecret tag = true ↔ "secret" ∈ (splitTag tag).tail)) ∧
    joinTag ["dsn", "required", "secret"] = "dsn,required,secret" ∧
    (∀ name flags, commaFree name = true → (∀ t ∈ flags, commaFree t = true) →
      splitTag (joinTag (name :: flags)) = name :: flags ∧
      propName (joinTag (name :: flags)) = name ∧
      (isRequired (joinTag (name :: flags)) = true ↔ "required" ∈ flags) ∧
      (isSecret (joinTag (name :: flags)) = true ↔ "secret" ∈ flags)) ∧
    (∀ name flags1 flags2, commaFree name = true → (∀ t ∈ flags1, commaFree t = true) →
      (∀ t ∈ flags2, commaFree t = true) →
      ("required" ∈ flags1 ↔ "required" ∈ flags2) → ("secret" ∈ flags1 ↔ "secret" ∈ flags2) →
      propName (joinTag (name :: flags1)) = propName (joinTag (name :: flags2)) ∧
      isRequired (joinTag (name :: flags1)) = isRequired (joinTag (name :: flags2)) ∧
      isSecret (joinTag (name :: flags1)) = isSecret (joinTag (name :: flags2))) ∧
    (∀ name flags1 flags2, commaFree name = true → (∀ t ∈ flags1, commaFree t = true) →
      flags1.Perm flags2 →
      propName (joinTag (name :: flags1)) = propName (joinTag (name :: flags2)) ∧
      isRequired (joinTag (name :: flags1)) = isRequired (joinTag (name :: flags2)) ∧
      isSecret (joinTag (name :: flags1)) = isSecret (joinTag (name :: flags2))) ∧
    (∀ name tok before after, commaFree name = true → commaFree tok = true →
      (∀ t ∈ before, commaFree t = true) → (∀ t ∈ after, commaFree t = true) →
      propName (joinTag (name :: (before ++ tok :: after))) =
        propName (joinTag (name :: (before ++ tok :: tok :: after))) ∧
      isRequired (joinTag (name :: (before ++ tok :: after))) =
        isRequired (joinTag (name :: (before ++ tok :: tok :: after))) ∧
      isSecret (joinTag (name :: (before ++ tok :: after))) =
        isSecret (joinTag (name :: (before ++ tok :: tok :: after)))) ∧
    (∀ name tok before after, commaFree name = true → commaFree tok = true →
      (∀ t ∈ before, commaFree t = true) → (∀ t ∈ after, commaFree t = true) →
      tok ≠ "required" → tok ≠ "secret" →
      propName (joinTag (name :: (before ++ after))) =
        propName (joinTag (name :: (before ++ tok :: after))) ∧
      isRequired (joinTag (name :: (before ++ after))) =
        isRequired (joinTag (name :: (before ++ tok :: after))) ∧
      isSecret (joinTag (name :: (before ++ after))) =
        isSecret (joinTag (name :: (before ++ tok :: after)))) := by
  refine ⟨fun tag => ⟨isRequired_iff tag, isSecret_iff tag⟩, by decide, ?_, ?_, ?_, ?_, ?_⟩
  · intro name flags hn hf
    obtain ⟨a, b, c⟩ := descriptor_of_joinTag name flags hn hf
    refine ⟨?_, a, by rw [b]; simp, by rw [c]; simp⟩
    exact splitTag_joinTag (name :: flags) (by simp) (by
      intro t ht
      rcases List.mem_cons.1 ht with h | h
      · rw [h]; exact hn
      · exact hf t h)
  · intro name flags1 flags2 hn h1 h2 hr hs
    exact descriptor_congr name flags1 flags2 hn h1 h2 hr hs
  · intro name flags1 flags2 hn h1 hperm
    exact descriptor_congr name flags1 flags2 hn h1
      (fun t ht => h1 t (hperm.mem_iff.2 ht)) hperm.mem_iff hperm.mem_iff
  · intro name tok before after hn ht hb ha
    apply descriptor_congr name _ _ hn
    · intro t h
      simp only [List.mem_append, List.mem_cons] at h
      rcases h with h | h | h
      · exact hb t h
      · rw [h]; exact ht
      · exact ha t h
    · intro t h
      simp only [List.mem_append, List.mem_cons] at h
      rcases h with h | h | h | h
      · exact hb t h
      · rw [h]; exact ht
      · rw [h]; exact ht
      · exact ha t h
    · simp
    · simp
  · intro name tok before after hn ht hb ha hr hs
    apply descriptor_congr name _ _ hn
    · intro t h
      simp only [List.mem_append] at h
      rcases h with h | h
      · exact hb t h
      · exact ha t h
    · intro t h
      simp only [List.mem_append, List.mem_cons] at h
      rcases h with h | h | h
      · exact hb t h
      · rw [h]; exact ht
      · exact ha t h
    · have : ¬ "required" = tok := fun h => hr h.symm
      simp [this]
    · have : ¬ "secret" = tok := fun h => hs h.symm
      simp [this]

/-! ## Kinds without a case in the switch (C17) -/

/-- C17, the code at the failing input.  A bound field of a kind the switch has no case
for is left alone without any read when it passes the chain checks; but a
field of such a kind marked secret, on a Manager with a secret engine and no
plain engine, makes `Populate` return `ErrNoPlainEngineDefined`, although its
chain, the secret chain, is not empty. -/
theorem C17_unsupported_secret_field_needs_a_plain_engine :
    (∀ (m : Manager) (hooks : Hooks) (pfx tag key : String),
      passesChecks m tag = true → fieldKey m pfx (propName tag) = some key →
      unmarshalField m hooks pfx tag FieldValue.unsupported =
        (FieldValue.unsupported, [], Outcome.ok)) ∧
    isBound "cache,secret" = true ∧ isSecret "cache,secret" = true ∧
    (chainOf secretOnlyManager "cache,secret").length = 1 ∧
    Manager.Populate secretOnlyManager noHooks
        (Target.pointer (FieldValue.struct "T" [("cache,secret", FieldValue.unsupported)])) =
      (Target.pointer (FieldValue.struct "T" [("cache,secret", FieldValue.unsupported)]),
        [], Outcome.error ErrNoPlainEngineDefined) := by
  refine ⟨?_, by decide, by decide, by decide, by rfl⟩
  intro m hooks pfx tag key hp hk
  rw [unmarshalField_leaf m hooks pfx tag key FieldValue.unsupported hp hk
    (by intro tn fs h; cases h)]
  rfl

/-! ## flattenMap (C21) -/

theorem mapSet_fresh (result : List (String × GoValue)) (k : String) (v : GoValue)
    (h : k ∉ result.map Prod.fst) : mapSet result k v = result ++ [(k, v)] := by
  induction result with
  | nil => rfl
  | cons kv rest ih =>
    obtain ⟨k1, v1⟩ := kv
    simp only [List.map_cons, List.mem_cons, not_or] at h
    simp [mapSet, Ne.symm h.1, ih h.2]

theorem setAllUnder_fresh (k : String) (inner result : List (String × GoValue))
    (h : (result.map Prod.fst ++ inner.map fun kv => k ++ "." ++ kv.1).Nodup) :
    setAllUnder k result inner = result ++ inner.map fun kv => (k ++ "." ++ kv.1, kv.2) := by
  induction inner generalizing result with
  | nil => simp [setAllUnder]
  | cons kv rest ih =>
    obtain ⟨kk, vv⟩ := kv
    have hfresh : k ++ "." ++ kk ∉ result.map Prod.fst := by
      intro hmem
      have := List.nodup_append.1 h
      exact this.2.2 hmem (by simp)
    rw [setAllUnder, mapSet_fresh _ _ _ hfresh, ih]
    · simp
    · simpa [List.append_assoc] using h

theorem joinPath_foldl_left (sep a : String) (rest : List String) (b : String) :
    rest.foldl (fun acc x => acc ++ sep ++ x) (a ++ sep ++ b)
      = a ++ sep ++ rest.foldl (fun acc x => acc ++ sep ++ x) b := by
  induction rest generalizing b with
  | nil => rfl
  | cons x xs ih =>
    simp only [List.foldl_cons]
    rw [← ih]
    simp [String.append_assoc]

theorem joinPath_cons (sep k : String) (p : List String) (h : p ≠ []) :
    joinPath sep (k :: p) = k ++ sep ++ joinPath sep p := by
  cases p with
  | nil => exact absurd rfl h
  | cons a rest => simp [joinPath, joinPath_foldl_left]

theorem leavesOf_ne_nil : ∀ (v : GoValue) (k : String) (pv : List String × GoValue),
    pv ∈ leavesOf k v → pv.1 ≠ []
  | v, k, pv, h => by
    cases v with
    | map inner =>
      simp only [leavesOf, List.mem_map] at h
      obtain ⟨q, _, rfl⟩ := h
      simp
    | _ =>
      simp only [leavesOf, List.mem_singleton] at h
      subst h
      simp

theorem leaves_ne_nil : ∀ (m : List (String × GoValue)) (pv : List String × GoValue),
    pv ∈ leaves m → pv.1 ≠ []
  | [], pv, h => by simp [leaves] at h
  | kv :: rest, pv, h => by
    simp only [leaves, List.mem_append] at h
    rcases h with h | h
    · exact leavesOf_ne_nil _ _ _ h
    · exact leaves_ne_nil rest pv h

theorem leavesOf_map_dotted (k : String) (inner : List (String × GoValue)) :
    (leavesOf k (GoValue.map inner)).map dottedEntry
      = ((leaves inner).map dottedEntry).map fun kv => (k ++ "." ++ kv.1, kv.2) := by
  simp only [leavesOf, List.map_map]
  apply List.map_congr_left
  intro pv hpv
  simp [dottedEntry, joinPath_cons _ _ _ (leaves_ne_nil _ _ hpv)]

mutual
theorem flattenValue_spec : ∀ (v : GoValue) (k : String) (result : List (String × GoValue)),
    (result.map Prod.fst ++ ((leavesOf k v).map dottedEntry).map Prod.fst).Nodup →
    flattenValue result k v = result ++ (leavesOf k v).map dottedEntry
  | v, k, result, h => by
    cases v with
    | map inner =>
      rw [leavesOf_map_dotted] at h ⊢
      have hin : (((leaves inner).map dottedEntry).map Prod.fst).Nodup := by
        have h2 := (List.nodup_append.1 h).2.1
        rw [List.map_map] at h2
        have : (fun kv : String × GoValue => k ++ "." ++ kv.1)
            = (fun s => k ++ "." ++ s) ∘ Prod.fst := rfl
        simp only [Function.comp_def] at h2
        rw [show (fun x : String × GoValue => k ++ "." ++ x.1)
            = (fun s => k ++ "." ++ s) ∘ Prod.fst from rfl, ← List.map_map] at h2
        exact h2.of_map _
      rw [flattenValue, flattenLoop_spec inner [] (by simpa using hin)]
      simp only [List.nil_append]
      apply setAllUnder_fresh
      simpa [List.map_map, Function.comp_def] using h
    | _ =>
      simp only [leavesOf, List.map_cons, List.map_nil, dottedEntry, joinPath, List.foldl_nil] at h ⊢
      simp only [flattenValue]
      apply mapSet_fresh
      intro hmem
      exact (List.nodup_append.1 h).2.2 hmem (by simp)
theorem flattenLoop_spec : ∀ (m result : List (String × GoValue)),
    (result.map Prod.fst ++ ((leaves m).map dottedEntry).map Prod.fst).Nodup →
    flattenLoop result m = result ++ (leaves m).map dottedEntry
  | [], result, _ => by simp [flattenLoop, leaves]
  | kv :: rest, result, h => by
    simp only [leaves, List.map_append] at h ⊢
    have h1 : (result.map Prod.fst ++ ((leavesOf kv.1 kv.2).map dottedEntry).map Prod.fst).Nodup := by
      rw [← List.append_assoc] at h
      exact (List.nodup_append.1 h).1
    rw [flattenLoop, flattenValue_spec kv.2 kv.1 result h1, flattenLoop_spec rest]
    · simp
    · simpa [List.append_assoc] using h
end


theorem leaves_flat : ∀ (m : List (String × GoValue)), (∀ kv ∈ m, isMap kv.2 = false) →
    (leaves m).map dottedEntry = m
  | [], _ => by simp [leaves]
  | kv :: rest, h => by
    obtain ⟨k, v⟩ := kv
    have hv : isMap v = false := h (k, v) (by simp)
    have hrest := leaves_flat rest (fun kv hkv => h kv (by simp [hkv]))
    cases v <;> first
      | (simp [leaves, leavesOf, dottedEntry, joinPath, hrest]; done)
      | (simp [isMap] at hv)

theorem flattenMap_spec (m : List (String × GoValue))
    (h : ((leaves m).map fun pv => joinPath "." pv.1).Nodup) :
    flattenMap m = (leaves m).map dottedEntry := by
  have := flattenLoop_spec m [] (by simpa [List.map_map, Function.comp_def, dottedEntry] using h)
  simpa [flattenMap] using this

/-- C21: for a nested map whose leaf paths join to distinct dotted keys,
`flattenMap` returns exactly the entries (path joined by dots, value) of the
paths that end at a value that is not a map: one entry per leaf, under keys
that are all different, and nothing else.  A map without nested maps comes
back with its own entries, and the value at the path `db`, `dsn` is stored
under `db.dsn`. -/
theorem C21_flattenMap_holds_the_dotted_leaves (m : List (String × GoValue))
    (hdistinct : ((leaves m).map fun pv => joinPath "." pv.1).Nodup) :
    flattenMap m = (leaves m).map dottedEntry
    ∧ ((flattenMap m).map Prod.fst).Nodup
    ∧ (∀ key v, (key, v) ∈ flattenMap m ↔
        ∃ path, (path, v) ∈ leaves m ∧ joinPath "." path = key)
    ∧ ((∀ kv ∈ m, isMap kv.2 = false) → flattenMap m = m)
    ∧ (∀ v, isMap v = false →
        flattenMap [("db", GoValue.map [("dsn", v)])] = [("db.dsn", v)]) := by
  have hspec := flattenMap_spec m hdistinct
  refine ⟨hspec, ?_, ?_, ?_, ?_⟩
  · rw [hspec]
    simpa [List.map_map, Function.comp_def, dottedEntry] using hdistinct
  · intro key v
    rw [hspec]
    simp only [List.mem_map, dottedEntry, Prod.mk.injEq]
    constructor
    · rintro ⟨pv, hpv, hk, hv⟩
      exact ⟨pv.1, by rw [← hv]; exact hpv, hk⟩
    · rintro ⟨path, hp, hk⟩
      exact ⟨(path, v), hp, hk, rfl⟩
  · intro hflat
    rw [hspec, leaves_flat m hflat]
  · intro v hv
    cases v <;> first
      | rfl
      | (simp [isMap] at hv)

theorem C21_flattenMap_holds_the_dotted_leaves_witness :
    flattenMap
        [("db", GoValue.map [("dsn", GoValue.string "x"),
                             ("pool", GoValue.map [("size", GoValue.int 4)])]),
         ("port", GoValue.int 80)]
      = [("db.dsn", GoValue.string "x"), ("db.pool.size", GoValue.int 4),
         ("port", GoValue.int 80)] :=
  (C21_flattenMap_holds_the_dotted_leaves
    [("db", GoValue.map [("dsn", GoValue.string "x"),
                         ("pool", GoValue.map [("size", GoValue.int 4)])]),
     ("port", GoValue.int 80)]
    (by decide)).1.trans rfl

/-! ## The typed reads of MapEngine, case by case -/

theorem parseDurationLoop_foreign (orig : String) : ∀ (fuel : Nat) (s : List Char) (d : Nat)
    (err : GoError), (parseDurationLoop orig fuel s d).2 = some err → ∃ msg, err = GoError.foreign msg
  | _, [], d, err, h => by simp [parseDurationLoop] at h
  | 0, _ :: _, _, err, h => by
    simp only [parseDurationLoop, invalidDuration, Option.some.injEq] at h
    exact ⟨_, h.symm⟩
  | fuel + 1, c :: cs, d, err, h => by
    simp only [parseDurationLoop] at h
    repeat' split at h
    all_goals first
      | exact parseDurationLoop_foreign orig fuel _ _ err h
      | (simp only [invalidDuration, Option.some.injEq] at h; exact ⟨_, h.symm⟩)

theorem parseDuration_foreign (s : String) (err : GoError)
    (h : (parseDuration s).2 = some err) : ∃ msg, err = GoError.foreign msg := by
  simp only [parseDuration] at h
  repeat' split at h
  all_goals first
    | (simp only [invalidDuration, Option.some.injEq] at h; exact ⟨_, h.symm⟩)
    | (simp at h; done)
    | (rename_i e heq
       simp only [Option.some.injEq] at h
       subst h
       exact parseDurationLoop_foreign s _ _ _ _ (by rw [heq]))


theorem convertInterfaceSlice_ok {α : Type} (pick : GoValue → Option α) :
    ∀ (xs : List GoValue) (ys : List α), xs.map pick = ys.map some →
      convertInterfaceSlice pick xs = (some ys, none)
  | [], ys, h => by
    cases ys with
    | nil => rfl
    | cons y ys => simp at h
  | x :: xs, ys, h => by
    cases ys with
    | nil => simp at h
    | cons y ys =>
      simp only [List.map_cons, List.cons.injEq] at h
      simp [convertInterfaceSlice, h.1, convertInterfaceSlice_ok pick xs ys h.2]

theorem convertInterfaceSlice_cases {α : Type} (pick : GoValue → Option α) :
    ∀ (xs : List GoValue),
      (∃ ys, xs.map pick = ys.map some ∧ convertInterfaceSlice pick xs = (some ys, none)) ∨
      (∃ bad ∈ xs, pick bad = none ∧
        convertInterfaceSlice pick xs = (none, some (typeMismatchOf bad)))
  | [] => Or.inl ⟨[], rfl, rfl⟩
  | x :: xs => by
    cases hx : pick x with
    | none => exact Or.inr ⟨x, by simp, hx, by simp [convertInterfaceSlice, hx]⟩
    | some y =>
      rcases convertInterfaceSlice_cases pick xs with ⟨ys, hys, hc⟩ | ⟨bad, hmem, hbad, hc⟩
      · exact Or.inl ⟨y :: ys, by simp [hx, hys], by simp [convertInterfaceSlice, hx, hc]⟩
      · exact Or.inr ⟨bad, by simp [hmem], hbad, by simp [convertInterfaceSlice, hx, hc]⟩

theorem convertInterfaceSlice_bad {α : Type} (pick : GoValue → Option α) (xs : List GoValue)
    (h : ∃ x ∈ xs, pick x = none) :
    ∃ bad ∈ xs, pick bad = none ∧
      convertInterfaceSlice pick xs = (none, some (typeMismatchOf bad)) := by
  rcases convertInterfaceSlice_cases pick xs with ⟨ys, hys, _⟩ | hbad
  · obtain ⟨x, hx, hnone⟩ := h
    have : pick x ∈ xs.map pick := List.mem_map_of_mem pick hx
    rw [hys, hnone] at this
    simp at this
  · exact hbad


theorem parseDuration_error_value (s : String) (err : GoError)
    (h : (parseDuration s).2 = some err) : (parseDuration s).1 = 0 := by
  simp only [parseDuration] at h ⊢
  repeat' split at h
  all_goals first
    | (simp at h; done)
    | skip
  all_goals simp_all

theorem slice_result_cases {α : Type} (pick : GoValue → Option α) (xs : List GoValue) :
    (convertInterfaceSlice pick xs).2 = none ∨
    ∃ bad ∈ xs, convertInterfaceSlice pick xs = (none, some (typeMismatchOf bad)) := by
  rcases convertInterfaceSlice_cases pick xs with ⟨ys, _, hc⟩ | ⟨bad, hmem, _, hc⟩
  · exact Or.inl (by rw [hc])
  · exact Or.inr ⟨bad, hmem, hc⟩

theorem MapEngine.get_present {α : Type} (data : List (String × GoValue)) (key : String)
    (zero : α) (fromValue : GoValue → α × Option GoError) (value : GoValue)
    (h : data.lookup key = some value) :
    MapEngine.get { data := some data } key zero fromValue = fromValue value := by
  simp [MapEngine.get, h]

theorem mapCall_GetString (data : List (String × GoValue)) (ident : Nat) (key : String)
    (value : GoValue) (h : data.lookup key = some value) :
    PresentRead ((MapEngine.toEngine { data := some data } ident).call Accessor.GetString key)
      Accessor.GetString value := by
  simp only [Engine.call, MapEngine.toEngine, MapEngine.GetString, MapEngine.get_present _ _ _ _ _ h]
  cases value <;> first
    | exact Or.inl ⟨rfl, rfl⟩
    | exact Or.inr (Or.inl ⟨rfl, rfl⟩)
    | (rename_i p; cases p <;> exact Or.inl ⟨rfl, rfl⟩)

theorem mapCall_GetInt (data : List (String × GoValue)) (ident : Nat) (key : String)
    (value : GoValue) (h : data.lookup key = some value) :
    PresentRead ((MapEngine.toEngine { data := some data } ident).call Accessor.GetInt key)
      Accessor.GetInt value := by
  simp only [Engine.call, MapEngine.toEngine, MapEngine.GetInt, MapEngine.get_present _ _ _ _ _ h]
  cases value <;> first
    | exact Or.inl ⟨rfl, rfl⟩
    | exact Or.inr (Or.inl ⟨rfl, rfl⟩)
    | (rename_i p; cases p <;> exact Or.inl ⟨rfl, rfl⟩)

theorem mapCall_GetUint (data : List (String × GoValue)) (ident : Nat) (key : String)
    (value : GoValue) (h : data.lookup key = some value) :
    PresentRead ((MapEngine.toEngine { data := some data } ident).call Accessor.GetUint key)
      Accessor.GetUint value := by
  simp only [Engine.call, MapEngine.toEngine, MapEngine.GetUint, MapEngine.get_present _ _ _ _ _ h]
  cases value <;> first
    | exact Or.inl ⟨rfl, rfl⟩
    | exact Or.inr (Or.inl ⟨rfl, rfl⟩)
    | (rename_i p; cases p <;> exact Or.inl ⟨rfl, rfl⟩)

theorem mapCall_GetInt64 (data : List (String × GoValue)) (ident : Nat) (key : String)
    (value : GoValue) (h : data.lookup key = some value) :
    PresentRead ((MapEngine.toEngine { data := some data } ident).call Accessor.GetInt64 key)
      Accessor.GetInt64 value := by
  simp only [Engine.call, MapEngine.toEngine, MapEngine.GetInt64, MapEngine.get_present _ _ _ _ _ h]
  cases value <;> first
    | exact Or.inl ⟨rfl, rfl⟩
    | exact Or.inr (Or.inl ⟨rfl, rfl⟩)
    | (rename_i p; cases p <;> exact Or.inl ⟨rfl, rfl⟩)

theorem mapCall_GetUint64 (data : List (String × GoValue)) (ident : Nat) (key : String)
    (value : GoValue) (h : data.lookup key = some value) :
    PresentRead ((MapEngine.toEngine { data := some data } ident).call Accessor.GetUint64 key)
      Accessor.GetUint64 value := by
  simp only [Engine.call, MapEngine.toEngine, MapEngine.GetUint64, MapEngine.get_present _ _ _ _ _ h]
  cases value <;> first
    | exact Or.inl ⟨rfl, rfl⟩
    | exact Or.inr (Or.inl ⟨rfl, rfl⟩)
    | (rename_i p; cases p <;> exact Or.inl ⟨rfl, rfl⟩)

theorem mapCall_GetBool (data : List (String × GoValue)) (ident : Nat) (key : String)
    (value : GoValue) (h : data.lookup key = some value) :
    PresentRead ((MapEngine.toEngine { data := some data } ident).call Accessor.GetBool key)
      Accessor.GetBool value := by
  simp only [Engine.call, MapEngine.toEngine, MapEngine.GetBool, MapEngine.get_present _ _ _ _ _ h]
  cases value <;> first
    | exact Or.inl ⟨rfl, rfl⟩
    | exact Or.inr (Or.inl ⟨rfl, rfl⟩)
    | (rename_i p; cases p <;> exact Or.inl ⟨rfl, rfl⟩)

theorem mapCall_GetFloat (data : List (String × GoValue)) (ident : Nat) (key : String)
    (value : GoValue) (h : data.lookup key = some value) :
    PresentRead ((MapEngine.toEngine { data := some data } ident).call Accessor.GetFloat key)
      Accessor.GetFloat value := by
  simp only [Engine.call, MapEngine.toEngine, MapEngine.GetFloat, MapEngine.get_present _ _ _ _ _ h]
  cases value <;> first
    | exact Or.inl ⟨rfl, rfl⟩
    | exact Or.inr (Or.inl ⟨rfl, rfl⟩)
    | (rename_i p; cases p <;> exact Or.inl ⟨rfl, rfl⟩)

theorem mapCall_GetStringSlice (data : List (String × GoValue)) (ident : Nat) (key : String)
    (value : GoValue) (h : data.lookup key = some value) :
    PresentRead ((MapEngine.toEngine { data := some data } ident).call Accessor.GetStringSlice key)
      Accessor.GetStringSlice value := by
  simp only [Engine.call, MapEngine.toEngine, MapEngine.GetStringSlice,
    MapEngine.get_present _ _ _ _ _ h]
  cases value with
  | ifaceSlice xs =>
    simp only [convertInterfaceSliceToStringSlice]
    rcases slice_result_cases _ xs with hok | ⟨bad, hmem, hc⟩
    · exact Or.inl ⟨rfl, hok⟩
    · exact Or.inr (Or.inr (Or.inl ⟨xs, bad, rfl, hmem, rfl, by rw [hc]; rfl⟩))
  | _ => first
    | exact Or.inl ⟨rfl, rfl⟩
    | exact Or.inr (Or.inl ⟨rfl, rfl⟩)

theorem mapCall_GetIntSlice (data : List (String × GoValue)) (ident : Nat) (key : String)
    (value : GoValue) (h : data.lookup key = some value) :
    PresentRead ((MapEngine.toEngine { data := some data } ident).call Accessor.GetIntSlice key)
      Accessor.GetIntSlice value := by
  simp only [Engine.call, MapEngine.toEngine, MapEngine.GetIntSlice,
    MapEngine.get_present _ _ _ _ _ h]
  cases value with
  | ifaceSlice xs =>
    simp only [convertInterfaceSliceToIntSlice]
    rcases slice_result_cases _ xs with hok | ⟨bad, hmem, hc⟩
    · exact Or.inl ⟨rfl, hok⟩
    · exact Or.inr (Or.inr (Or.inl ⟨xs, bad, rfl, hmem, rfl, by rw [hc]; rfl⟩))
  | _ => first
    | exact Or.inl ⟨rfl, rfl⟩
    | exact Or.inr (Or.inl ⟨rfl, rfl⟩)

theorem mapCall_GetUintSlice (data : List (String × GoValue)) (ident : Nat) (key : String)
    (value : GoValue) (h : data.lookup key = some value) :
    PresentRead ((MapEngine.toEngine { data := some data } ident).call Accessor.GetUintSlice key)
      Accessor.GetUintSlice value := by
  simp only [Engine.call, MapEngine.toEngine, MapEngine.GetUintSlice,
    MapEngine.get_present _ _ _ _ _ h]
  cases value with
  | ifaceSlice xs =>
    simp only [convertInterfaceSliceToUintSlice]
    rcases slice_result_cases _ xs with hok | ⟨bad, hmem, hc⟩
    · exact Or.inl ⟨rfl, hok⟩
    · exact Or.inr (Or.inr (Or.inl ⟨xs, bad, rfl, hmem, rfl, by rw [hc]; rfl⟩))
  | _ => first
    | exact Or.inl ⟨rfl, rfl⟩
    | exact Or.inr (Or.inl ⟨rfl, rfl⟩)

theorem mapCall_GetInt64Slice (data : List (String × GoValue)) (ident : Nat) (key : String)
    (value : GoValue) (h : data.lookup key = some value) :
    PresentRead ((MapEngine.toEngine { data := some data } ident).call Accessor.GetInt64Slice key)
      Accessor.GetInt64Slice value := by
  simp only [Engine.call, MapEngine.toEngine, MapEngine.GetInt64Slice,
    MapEngine.get_present _ _ _ _ _ h]
  cases value with
  | ifaceSlice xs =>
    simp only [convertInterfaceSliceToInt64Slice]
    rcases slice_result_cases _ xs with hok | ⟨bad, hmem, hc⟩
    · exact Or.inl ⟨rfl, hok⟩
    · exact Or.inr (Or.inr (Or.inl ⟨xs, bad, rfl, hmem, rfl, by rw [hc]; rfl⟩))
  | _ => first
    | exact Or.inl ⟨rfl, rfl⟩
    | exact Or.inr (Or.inl ⟨rfl, rfl⟩)

theorem mapCall_GetUint64Slice (data : List (String × GoValue)) (ident : Nat) (key : String)
    (value : GoValue) (h : data.lookup key = some value) :
    PresentRead ((MapEngine.toEngine { data := some data } ident).call Accessor.GetUint64Slice key)
      Accessor.GetUint64Slice value := by
  simp only [Engine.call, MapEngine.toEngine, MapEngine.GetUint64Slice,
    MapEngine.get_present _ _ _ _ _ h]
  cases value with
  | ifaceSlice xs =>
    simp only [convertInterfaceSliceToUint64Slice]
    rcases slice_result_cases _ xs with hok | ⟨bad, hmem, hc⟩
    · exact Or.inl ⟨rfl, hok⟩
    · exact Or.inr (Or.inr (Or.inl ⟨xs, bad, rfl, hmem, rfl, by rw [hc]; rfl⟩))
  | _ => first
    | exact Or.inl ⟨rfl, rfl⟩
    | exact Or.inr (Or.inl ⟨rfl, rfl⟩)

theorem mapCall_GetBoolSlice (data : List (String × GoValue)) (ident : Nat) (key : String)
    (value : GoValue) (h : data.lookup key = some value) :
    PresentRead ((MapEngine.toEngine { data := some data } ident).call Accessor.GetBoolSlice key)
      Accessor.GetBoolSlice value := by
  simp only [Engine.call, MapEngine.toEngine, MapEngine.GetBoolSlice,
    MapEngine.get_present _ _ _ _ _ h]
  cases value with
  | ifaceSlice xs =>
    simp only [convertInterfaceSliceToBoolSlice]
    rcases slice_result_cases _ xs with hok | ⟨bad, hmem, hc⟩
    · exact Or.inl ⟨rfl, hok⟩
    · exact Or.inr (Or.inr (Or.inl ⟨xs, bad, rfl, hmem, rfl, by rw [hc]; rfl⟩))
  | _ => first
    | exact Or.inl ⟨rfl, rfl⟩
    | exact Or.inr (Or.inl ⟨rfl, rfl⟩)

theorem mapCall_GetFloatSlice (data : List (String × GoValue)) (ident : Nat) (key : String)
    (value : GoValue) (h : data.lookup key = some value) :
    PresentRead ((MapEngine.toEngine { data := some data } ident).call Accessor.GetFloatSlice key)
      Accessor.GetFloatSlice value := by
  simp only [Engine.call, MapEngine.toEngine, MapEngine.GetFloatSlice,
    MapEngine.get_present _ _ _ _ _ h]
  cases value with
  | ifaceSlice xs =>
    simp only [convertInterfaceSliceToFloat64Slice]
    rcases slice_result_cases _ xs with hok | ⟨bad, hmem, hc⟩
    · exact Or.inl ⟨rfl, hok⟩
    · exact Or.inr (Or.inr (Or.inl ⟨xs, bad, rfl, hmem, rfl, by rw [hc]; rfl⟩))
  | _ => first
    | exact Or.inl ⟨rfl, rfl⟩
    | exact Or.inr (Or.inl ⟨rfl, rfl⟩)

theorem mapCall_GetDuration (data : List (String × GoValue)) (ident : Nat) (key : String)
    (value : GoValue) (h : data.lookup key = some value) :
    PresentRead ((MapEngine.toEngine { data := some data } ident).call Accessor.GetDuration key)
      Accessor.GetDuration value := by
  have hparse : ∀ s, (value = GoValue.string s ∨ value = GoValue.stringPtr (some s)) →
      PresentRead (GoValue.duration (parseDuration s).1, (parseDuration s).2)
        Accessor.GetDuration value := by
    intro s hs
    cases herr : (parseDuration s).2 with
    | none => exact Or.inl ⟨by rcases hs with rfl | rfl <;> rfl, rfl⟩
    | some err =>
      obtain ⟨msg, rfl⟩ := parseDuration_foreign s err herr
      refine Or.inr (Or.inr (Or.inr ⟨rfl, ?_, s, msg, hs, ?_, herr⟩))
      · rcases hs with rfl | rfl <;> rfl
      · rw [parseDuration_error_value s _ herr]
  simp only [Engine.call, MapEngine.toEngine, MapEngine.GetDuration,
    MapEngine.get_present _ _ _ _ _ h]
  cases value <;> first
    | exact Or.inl ⟨rfl, rfl⟩
    | exact Or.inr (Or.inl ⟨rfl, rfl⟩)
    | exact hparse _ (Or.inl rfl)
    | (rename_i p; cases p <;> first | exact Or.inl ⟨rfl, rfl⟩ | exact hparse _ (Or.inr rfl))

/-- What a typed read of a `MapEngine` holding data returns for a key the data
holds: one of the outcomes of `PresentRead`. -/
theorem mapCall_present (data : List (String × GoValue)) (ident : Nat) (acc : Accessor)
    (key : String) (value : GoValue) (h : data.lookup key = some value) :
    PresentRead ((MapEngine.toEngine { data := some data } ident).call acc key) acc value := by
  cases acc
  · exact mapCall_GetString data ident key value h
  · exact mapCall_GetStringSlice data ident key value h
  · exact mapCall_GetInt data ident key value h
  · exact mapCall_GetIntSlice data ident key value h
  · exact mapCall_GetUint data ident key value h
  · exact mapCall_GetUintSlice data ident key value h
  · exact mapCall_GetInt64 data ident key value h
  · exact mapCall_GetInt64Slice data ident key value h
  · exact mapCall_GetUint64 data ident key value h
  · exact mapCall_GetUint64Slice data ident key value h
  · exact mapCall_GetBool data ident key value h
  · exact mapCall_GetBoolSlice data ident key value h
  · exact mapCall_GetFloat data ident key value h
  · exact mapCall_GetFloatSlice data ident key value h
  · exact mapCall_GetDuration data ident key value h

/-! ## The typed reads of MapEngine (C22 to C26) -/

theorem mapCall_absent (data : List (String × GoValue)) (ident : Nat) (acc : Accessor)
    (key : String) (h : data.lookup key = none) :
    (MapEngine.toEngine { data := some data } ident).call acc key
      = (zeroValue acc, some (keyNotFoundOf key)) := by
  cases acc <;>
    simp [Engine.call, MapEngine.toEngine, MapEngine.GetString, MapEngine.GetStringSlice,
      MapEngine.GetInt, MapEngine.GetIntSlice, MapEngine.GetUint, MapEngine.GetUintSlice,
      MapEngine.GetInt64, MapEngine.GetInt64Slice, MapEngine.GetUint64,
      MapEngine.GetUint64Slice, MapEngine.GetBool, MapEngine.GetBoolSlice, MapEngine.GetFloat,
      MapEngine.GetFloatSlice, MapEngine.GetDuration, MapEngine.get, h, zeroValue]

/-- The error of a read of a key that the data holds is no `ErrKeyNotFound` and
no `ErrEngineNotLoaded`. -/
theorem presentRead_errorsIs (r : GoValue × Option GoError) (acc : Accessor) (value : GoValue)
    (h : PresentRead r acc value) :
    errorsIs r.2 Sentinel.keyNotFound = false ∧
    errorsIs r.2 Sentinel.engineNotLoaded = false := by
  rcases h with ⟨_, h⟩ | ⟨_, h⟩ | ⟨xs, bad, _, _, _, h⟩ | ⟨_, _, s, msg, _, h, _⟩
  · rw [h]; exact ⟨rfl, rfl⟩
  · rw [h]; exact ⟨rfl, rfl⟩
  · rw [h]; exact ⟨rfl, rfl⟩
  · rw [h]; exact ⟨rfl, rfl⟩

/-- C22: a `MapEngine` whose `data` is nil, which is the zero-value `MapEngine`
and any `MapEngine` after `Unload`, returns from every typed getter and for
every key the error `ErrEngineNotLoaded` itself and the zero value of the
result type; `Unload` returns nil and sets `data` to nil. -/
theorem C22_nil_data_reads_report_engine_not_loaded :
    (∀ (ident : Nat) (acc : Accessor) (key : String),
      (MapEngine.toEngine { data := none } ident).call acc key
        = (zeroValue acc, some ErrEngineNotLoaded))
    ∧ (∀ engine : MapEngine, MapEngine.Unload engine = ({ data := none }, none))
    ∧ (∀ (engine : MapEngine) (ident : Nat) (acc : Accessor) (key : String),
      (MapEngine.toEngine (MapEngine.Unload engine).1 ident).call acc key
        = (zeroValue acc, some ErrEngineNotLoaded)) := by
  refine ⟨?_, fun _ => rfl, ?_⟩
  · intro ident acc key
    cases acc <;> rfl
  · intro engine ident acc key
    cases acc <;> rfl

/-- C23: for a `MapEngine` built by `NewMapEngine`, every typed getter and every
key, the error returned satisfies `errors.Is(err, ErrKeyNotFound)` exactly when
the flattened data holds no entry for the key, and the value returned is then
the zero value of the result type. -/
theorem C23_key_not_found_exactly_when_absent (m : List (String × GoValue)) (ident : Nat)
    (acc : Accessor) (key : String) :
    (errorsIs ((MapEngine.toEngine (NewMapEngine m) ident).call acc key).2
        Sentinel.keyNotFound = true ↔ (flattenMap m).lookup key = none)
    ∧ ((flattenMap m).lookup key = none →
        (MapEngine.toEngine (NewMapEngine m) ident).call acc key
          = (zeroValue acc, some (keyNotFoundOf key))) := by
  refine ⟨?_, fun h => mapCall_absent _ ident acc key h⟩
  cases h : (flattenMap m).lookup key with
  | none =>
    have := mapCall_absent (flattenMap m) ident acc key h
    simp [NewMapEngine, this, keyNotFoundOf, errorsIs]
  | some value =>
    have := (presentRead_errorsIs _ acc value (mapCall_present _ ident acc key value h)).1
    simp [NewMapEngine, this]

/-- C24: for a `MapEngine` holding data, a key the data holds and a getter that
does not accept the dynamic type of the stored value, the getter returns the
zero value of its result type and an error that satisfies
`errors.Is(err, ErrTypeMismatch)`, naming the type of the stored value. -/
theorem C24_unaccepted_type_is_a_type_mismatch (data : List (String × GoValue)) (ident : Nat)
    (acc : Accessor) (key : String) (value : GoValue)
    (hstored : data.lookup key = some value) (hno : accepts acc value = false) :
    (MapEngine.toEngine { data := some data } ident).call acc key
        = (zeroValue acc, some (typeMismatchOf value))
    ∧ errorsIs ((MapEngine.toEngine { data := some data } ident).call acc key).2
        Sentinel.typeMismatch = true := by
  rcases mapCall_present data ident acc key value hstored with
    ⟨hyes, _⟩ | ⟨_, h⟩ | ⟨_, _, _, _, hyes, _⟩ | ⟨_, hyes, _⟩
  · rw [hno] at hyes; cases hyes
  · exact ⟨h, by rw [h]; rfl⟩
  · rw [hno] at hyes; cases hyes
  · rw [hno] at hyes; cases hyes

theorem C24_unaccepted_type_is_a_type_mismatch_witness :
    (MapEngine.toEngine { data := some [("n", GoValue.int 5)] } 0).call Accessor.GetInt64 "n"
        = (GoValue.int64 0, some (typeMismatchOf (GoValue.int 5)))
    ∧ errorsIs ((MapEngine.toEngine { data := some [("n", GoValue.int 5)] } 0).call
        Accessor.GetInt64 "n").2 Sentinel.typeMismatch = true :=
  C24_unaccepted_type_is_a_type_mismatch [("n", GoValue.int 5)] 0 Accessor.GetInt64 "n"
    (GoValue.int 5) rfl rfl


theorem elementAs_string (xs : List GoValue) :
    convertInterfaceSliceToStringSlice xs
      = convertInterfaceSlice (elementAs asString asStringPtr "") xs := by
  unfold convertInterfaceSliceToStringSlice
  congr 1
  funext v; cases v <;> first | rfl | (rename_i p; cases p <;> rfl)

theorem elementAs_int (xs : List GoValue) :
    convertInterfaceSliceToIntSlice xs
      = convertInterfaceSlice (elementAs asInt asIntPtr 0) xs := by
  unfold convertInterfaceSliceToIntSlice
  congr 1
  funext v; cases v <;> first | rfl | (rename_i p; cases p <;> rfl)

theorem elementAs_uint (xs : List GoValue) :
    convertInterfaceSliceToUintSlice xs
      = convertInterfaceSlice (elementAs asUint asUintPtr 0) xs := by
  unfold convertInterfaceSliceToUintSlice
  congr 1
  funext v; cases v <;> first | rfl | (rename_i p; cases p <;> rfl)

theorem elementAs_int64 (xs : List GoValue) :
    convertInterfaceSliceToInt64Slice xs
      = convertInterfaceSlice (elementAs asInt64 asInt64Ptr 0) xs := by
  unfold convertInterfaceSliceToInt64Slice
  congr 1
  funext v; cases v <;> first | rfl | (rename_i p; cases p <;> rfl)

theorem elementAs_uint64 (xs : List GoValue) :
    convertInterfaceSliceToUint64Slice xs
      = convertInterfaceSlice (elementAs asUint64 asUint64Ptr 0) xs := by
  unfold convertInterfaceSliceToUint64Slice
  congr 1
  funext v; cases v <;> first | rfl | (rename_i p; cases p <;> rfl)

theorem elementAs_bool (xs : List GoValue) :
    convertInterfaceSliceToBoolSlice xs
      = convertInterfaceSlice (elementAs asBool asBoolPtr false) xs := by
  unfold convertInterfaceSliceToBoolSlice
  congr 1
  funext v; cases v <;> first | rfl | (rename_i p; cases p <;> rfl)

theorem elementAs_float64 (xs : List GoValue) :
    convertInterfaceSliceToFloat64Slice xs
      = convertInterfaceSlice (elementAs asFloat64 asFloat64Ptr (Float64.mk 0)) xs := by
  unfold convertInterfaceSliceToFloat64Slice
  congr 1
  funext v; cases v <;> first | rfl | (rename_i p; cases p <;> rfl)

/-- The part of `SliceGetterSpec` that is about the conversion of a
`[]interface{}`, for any type switch on the elements. -/
theorem convertInterfaceSlice_spec {α : Type} (pick : GoValue → Option α) (xs : List GoValue) :
    (∀ ys, xs.map pick = ys.map some → convertInterfaceSlice pick xs = (some ys, none)) ∧
    ((∃ x ∈ xs, pick x = none) →
      (convertInterfaceSlice pick xs).1 = none ∧
      errorsIs (convertInterfaceSlice pick xs).2 Sentinel.typeMismatch = true) := by
  refine ⟨convertInterfaceSlice_ok pick xs, fun h => ?_⟩
  obtain ⟨bad, _, _, hc⟩ := convertInterfaceSlice_bad pick xs h
  rw [hc]
  exact ⟨rfl, rfl⟩

/-- C25: the scalar getters of a `MapEngine` holding data, for the types string,
int, uint, int64, uint64, bool and float64: a stored value of the type `T` of
the getter is returned as it is, a stored `*T` that is not nil is returned
dereferenced, a stored nil `*T` yields the zero value of `T`; the error is nil
in the three cases. -/
theorem C25_scalar_getters_return_the_value_or_its_pointee (data : List (String × GoValue))
    (key : String) :
    ScalarGetterSpec (MapEngine.GetString { data := some data } key)
      GoValue.string GoValue.stringPtr "" (data.lookup key)
    ∧ ScalarGetterSpec (MapEngine.GetInt { data := some data } key)
      GoValue.int GoValue.intPtr 0 (data.lookup key)
    ∧ ScalarGetterSpec (MapEngine.GetUint { data := some data } key)
      GoValue.uint GoValue.uintPtr 0 (data.lookup key)
    ∧ ScalarGetterSpec (MapEngine.GetInt64 { data := some data } key)
      GoValue.int64 GoValue.int64Ptr 0 (data.lookup key)
    ∧ ScalarGetterSpec (MapEngine.GetUint64 { data := some data } key)
      GoValue.uint64 GoValue.uint64Ptr 0 (data.lookup key)
    ∧ ScalarGetterSpec (MapEngine.GetBool { data := some data } key)
      GoValue.bool GoValue.boolPtr false (data.lookup key)
    ∧ ScalarGetterSpec (MapEngine.GetFloat { data := some data } key)
      GoValue.float64 GoValue.float64Ptr (Float64.mk 0) (data.lookup key) := by
  refine ⟨?_, ?_, ?_, ?_, ?_, ?_, ?_⟩
  · refine ⟨fun t h => ?_, fun t h => ?_, fun h => ?_⟩ <;>
      simp [MapEngine.GetString, MapEngine.get, h]
  · refine ⟨fun t h => ?_, fun t h => ?_, fun h => ?_⟩ <;>
      simp [MapEngine.GetInt, MapEngine.get, h]
  · refine ⟨fun t h => ?_, fun t h => ?_, fun h => ?_⟩ <;>
      simp [MapEngine.GetUint, MapEngine.get, h]
  · refine ⟨fun t h => ?_, fun t h => ?_, fun h => ?_⟩ <;>
      simp [MapEngine.GetInt64, MapEngine.get, h]
  · refine ⟨fun t h => ?_, fun t h => ?_, fun h => ?_⟩ <;>
      simp [MapEngine.GetUint64, MapEngine.get, h]
  · refine ⟨fun t h => ?_, fun t h => ?_, fun h => ?_⟩ <;>
      simp [MapEngine.GetBool, MapEngine.get, h]
  · refine ⟨fun t h => ?_, fun t h => ?_, fun h => ?_⟩ <;>
      simp [MapEngine.GetFloat, MapEngine.get, h]

theorem C25_scalar_getters_return_the_value_or_its_pointee_witness :
    MapEngine.GetString
        { data := some [("s", GoValue.string "x"), ("p", GoValue.intPtr (some 3)),
                        ("q", GoValue.boolPtr none)] } "s" = ("x", none)
    ∧ MapEngine.GetInt
        { data := some [("s", GoValue.string "x"), ("p", GoValue.intPtr (some 3)),
                        ("q", GoValue.boolPtr none)] } "p" = (3, none)
    ∧ MapEngine.GetBool
        { data := some [("s", GoValue.string "x"), ("p", GoValue.intPtr (some 3)),
                        ("q", GoValue.boolPtr none)] } "q" = (false, none) :=
  ⟨(C25_scalar_getters_return_the_value_or_its_pointee _ "s").1.1 "x" rfl,
   (C25_scalar_getters_return_the_value_or_its_pointee _ "p").2.1.2.1 3 rfl,
   (C25_scalar_getters_return_the_value_or_its_pointee _ "q").2.2.2.2.2.1.2.2 rfl⟩

/-- C26: the slice getters of a `MapEngine` holding data, for the element types
string, int, uint, int64, uint64, bool and float64.  For a stored
`[]interface{}` whose elements all are a `T` or a `*T`, the getter returns the
slice of the same length and order, each `T` copied, each `*T` that is not nil
dereferenced, each nil `*T` replaced by the zero value of `T`, with a nil
error; if an element has another dynamic type the result is nil and the error
satisfies `errors.Is(err, ErrTypeMismatch)`.  A stored `[]T` is returned
unchanged. -/
theorem C26_slice_getters_convert_element_by_element (data : List (String × GoValue))
    (key : String) :
    SliceGetterSpec (MapEngine.GetStringSlice { data := some data } key)
      (elementAs asString asStringPtr "") GoValue.stringSlice (data.lookup key)
    ∧ SliceGetterSpec (MapEngine.GetIntSlice { data := some data } key)
      (elementAs asInt asIntPtr 0) GoValue.intSlice (data.lookup key)
    ∧ SliceGetterSpec (MapEngine.GetUintSlice { data := some data } key)
      (elementAs asUint asUintPtr 0) GoValue.uintSlice (data.lookup key)
    ∧ SliceGetterSpec (MapEngine.GetInt64Slice { data := some data } key)
      (elementAs asInt64 asInt64Ptr 0) GoValue.int64Slice (data.lookup key)
    ∧ SliceGetterSpec (MapEngine.GetUint64Slice { data := some data } key)
      (elementAs asUint64 asUint64Ptr 0) GoValue.uint64Slice (data.lookup key)
    ∧ SliceGetterSpec (MapEngine.GetBoolSlice { data := some data } key)
      (elementAs asBool asBoolPtr false) GoValue.boolSlice (data.lookup key)
    ∧ SliceGetterSpec (MapEngine.GetFloatSlice { data := some data } key)
      (elementAs asFloat64 asFloat64Ptr (Float64.mk 0)) GoValue.float64Slice (data.lookup key) := by
  refine ⟨?_, ?_, ?_, ?_, ?_, ?_, ?_⟩
  · refine ⟨fun xs ys h hys => ?_, fun xs h hbad => ?_, fun t h => ?_⟩
    · simp only [MapEngine.GetStringSlice, MapEngine.get_present _ _ _ _ _ h,
        elementAs_string]
      exact (convertInterfaceSlice_spec _ xs).1 ys hys
    · simp only [MapEngine.GetStringSlice, MapEngine.get_present _ _ _ _ _ h,
        elementAs_string]
      exact (convertInterfaceSlice_spec _ xs).2 hbad
    · simp [MapEngine.GetStringSlice, MapEngine.get, h]
  · refine ⟨fun xs ys h hys => ?_, fun xs h hbad => ?_, fun t h => ?_⟩
    · simp only [MapEngine.GetIntSlice, MapEngine.get_present _ _ _ _ _ h,
        elementAs_int]
      exact (convertInterfaceSlice_spec _ xs).1 ys hys
    · simp only [MapEngine.GetIntSlice, MapEngine.get_present _ _ _ _ _ h,
        elementAs_int]
      exact (convertInterfaceSlice_spec _ xs).2 hbad
    · simp [MapEngine.GetIntSlice, MapEngine.get, h]
  · refine ⟨fun xs ys h hys => ?_, fun xs h hbad => ?_, fun t h => ?_⟩
    · simp only [MapEngine.GetUintSlice, MapEngine.get_present _ _ _ _ _ h,
        elementAs_uint]
      exact (convertInterfaceSlice_spec _ xs).1 ys hys
    · simp only [MapEngine.GetUintSlice, MapEngine.get_present _ _ _ _ _ h,
        elementAs_uint]
      exact (convertInterfaceSlice_spec _ xs).2 hbad
    · simp [MapEngine.GetUintSlice, MapEngine.get, h]
  · refine ⟨fun xs ys h hys => ?_, fun xs h hbad => ?_, fun t h => ?_⟩
    · simp only [MapEngine.GetInt64Slice, MapEngine.get_present _ _ _ _ _ h,
        elementAs_int64]
      exact (convertInterfaceSlice_spec _ xs).1 ys hys
    · simp only [MapEngine.GetInt64Slice, MapEngine.get_present _ _ _ _ _ h,
        elementAs_int64]
      exact (convertInterfaceSlice_spec _ xs).2 hbad
    · simp [MapEngine.GetInt64Slice, MapEngine.get, h]
  · refine ⟨fun xs ys h hys => ?_, fun xs h hbad => ?_, fun t h => ?_⟩
    · simp only [MapEngine.GetUint64Slice, MapEngine.get_present _ _ _ _ _ h,
        elementAs_uint64]
      exact (convertInterfaceSlice_spec _ xs).1 ys hys
    · simp only [MapEngine.GetUint64Slice, MapEngine.get_present _ _ _ _ _ h,
        elementAs_uint64]
      exact (convertInterfaceSlice_spec _ xs).2 hbad
    · simp [MapEngine.GetUint64Slice, MapEngine.get, h]
  · refine ⟨fun xs ys h hys => ?_, fun xs h hbad => ?_, fun t h => ?_⟩
    · simp only [MapEngine.GetBoolSlice, MapEngine.get_present _ _ _ _ _ h,
        elementAs_bool]
      exact (convertInterfaceSlice_spec _ xs).1 ys hys
    · simp only [MapEngine.GetBoolSlice, MapEngine.get_present _ _ _ _ _ h,
        elementAs_bool]
      exact (convertInterfaceSlice_spec _ xs).2 hbad
    · simp [MapEngine.GetBoolSlice, MapEngine.get, h]
  · refine ⟨fun xs ys h hys => ?_, fun xs h hbad => ?_, fun t h => ?_⟩
    · simp only [MapEngine.GetFloatSlice, MapEngine.get_present _ _ _ _ _ h,
        elementAs_float64]
      exact (convertInterfaceSlice_spec _ xs).1 ys hys
    · simp only [MapEngine.GetFloatSlice, MapEngine.get_present _ _ _ _ _ h,
        elementAs_float64]
      exact (convertInterfaceSlice_spec _ xs).2 hbad
    · simp [MapEngine.GetFloatSlice, MapEngine.get, h]

theorem C26_slice_getters_convert_element_by_element_witness :
    MapEngine.GetIntSlice
        { data := some [("xs", GoValue.ifaceSlice
            [GoValue.int 1, GoValue.intPtr (some 2), GoValue.intPtr none])] } "xs"
      = (some [1, 2, 0], none)
    ∧ (MapEngine.GetIntSlice
        { data := some [("xs", GoValue.ifaceSlice [GoValue.int 1, GoValue.string "2"])] }
        "xs").1 = none
    ∧ MapEngine.GetIntSlice { data := some [("xs", GoValue.intSlice (some [7, 8]))] } "xs"
      = (some [7, 8], none) :=
  ⟨(C26_slice_getters_convert_element_by_element _ "xs").2.1.1 _ [1, 2, 0] rfl rfl,
   ((C26_slice_getters_convert_element_by_element
      [("xs", GoValue.ifaceSlice [GoValue.int 1, GoValue.string "2"])] "xs").2.1.2.1
      [GoValue.int 1, GoValue.string "2"] rfl
      ⟨GoValue.string "2", List.mem_cons_of_mem _ (List.mem_singleton.2 rfl), rfl⟩).1,
   (C26_slice_getters_convert_element_by_element _ "xs").2.1.2.2 _ rfl⟩

/-! ## The errors of a typed read (C27) -/

theorem parseElements_error {α : Type} (parse : String → α × Option NumError) :
    ∀ (vs : List String) (i : Nat),
      (parseElements parse i vs).2 = none ∨ ∃ msg, (parseElements parse i vs).2 = some (GoError.foreign msg)
  | [], _ => Or.inl rfl
  | v :: rest, i => by
    simp only [parseElements]
    cases hp : parse v with
    | mk u err =>
      cases err with
      | some err => exact Or.inr ⟨_, rfl⟩
      | none =>
        rcases parseElements_error parse rest (i + 1) with h | ⟨msg, h⟩
        · cases hr : parseElements parse (i + 1) rest with
          | mk us e =>
            rw [hr] at h
            simp only at h
            subst h
            cases us <;> exact Or.inl rfl
        · cases hr : parseElements parse (i + 1) rest with
          | mk us e =>
            rw [hr] at h
            simp only at h
            subst h
            cases us <;> exact Or.inr ⟨msg, rfl⟩

theorem viaNumError_error {α : Type} (r : α × Option NumError) :
    (viaNumError r).2 = none ∨ ∃ msg, (viaNumError r).2 = some (GoError.foreign msg) := by
  obtain ⟨a, err⟩ := r
  cases err with
  | none => exact Or.inl rfl
  | some e => exact Or.inr ⟨_, rfl⟩

theorem parseDuration_error (s : String) :
    (parseDuration s).2 = none ∨ ∃ msg, (parseDuration s).2 = some (GoError.foreign msg) := by
  cases h : (parseDuration s).2 with
  | none => exact Or.inl rfl
  | some err =>
    obtain ⟨msg, rfl⟩ := parseDuration_foreign s err h
    exact Or.inr ⟨msg, rfl⟩

theorem envCall_unset (host : Host) (e : EnvEngine) (ident : Nat) (acc : Accessor)
    (key : String) (hl : host.LookupEnv (e.getKey host key) = none) :
    (EnvEngine.toEngine host e ident).call acc key = (zeroValue acc, some ErrKeyNotFound) := by
  cases acc <;>
    simp [Engine.call, EnvEngine.toEngine, EnvEngine.GetString, EnvEngine.GetStringSlice,
      EnvEngine.GetInt, EnvEngine.GetIntSlice, EnvEngine.GetUint, EnvEngine.GetUintSlice,
      EnvEngine.GetInt64, EnvEngine.GetInt64Slice, EnvEngine.GetUint64,
      EnvEngine.GetUint64Slice, EnvEngine.GetBool, EnvEngine.GetBoolSlice, EnvEngine.GetFloat,
      EnvEngine.GetFloatSlice, EnvEngine.GetDuration, EnvEngine.scalar, EnvEngine.slice, hl,
      zeroValue]

theorem envSlice_set {α : Type} (host : Host) (e : EnvEngine) (key : String)
    (parse : String → α × Option NumError) (value : String)
    (hl : host.LookupEnv (e.getKey host key) = some value) :
    (EnvEngine.slice host e key parse).2 = none ∨
    ∃ msg, (EnvEngine.slice host e key parse).2 = some (GoError.foreign msg) := by
  simp only [EnvEngine.slice, hl]
  split
  · exact Or.inl rfl
  · exact parseElements_error parse _ 0

theorem envScalar_set {α : Type} (host : Host) (e : EnvEngine) (key : String) (zero : α)
    (parse : String → α × Option GoError) (value : String)
    (hl : host.LookupEnv (e.getKey host key) = some value) :
    EnvEngine.scalar host e key zero parse = parse value := by
  simp [EnvEngine.scalar, hl]

theorem envCall_set (host : Host) (e : EnvEngine) (ident : Nat) (acc : Accessor)
    (key : String) (value : String) (hl : host.LookupEnv (e.getKey host key) = some value) :
    ((EnvEngine.toEngine host e ident).call acc key).2 = none ∨
    ∃ msg, ((EnvEngine.toEngine host e ident).call acc key).2 = some (GoError.foreign msg) := by
  cases acc
  case GetString =>
    exact Or.inl (by simp [Engine.call, EnvEngine.toEngine, EnvEngine.GetString,
      envScalar_set _ _ _ _ _ _ hl])
  case GetStringSlice =>
    refine Or.inl ?_
    simp only [Engine.call, EnvEngine.toEngine, EnvEngine.GetStringSlice, hl]
    split <;> rfl
  case GetInt =>
    simp only [Engine.call, EnvEngine.toEngine, EnvEngine.GetInt, envScalar_set _ _ _ _ _ _ hl]
    exact viaNumError_error _
  case GetUint =>
    simp only [Engine.call, EnvEngine.toEngine, EnvEngine.GetUint, envScalar_set _ _ _ _ _ _ hl]
    exact viaNumError_error _
  case GetInt64 =>
    simp only [Engine.call, EnvEngine.toEngine, EnvEngine.GetInt64, envScalar_set _ _ _ _ _ _ hl]
    exact viaNumError_error _
  case GetUint64 =>
    simp only [Engine.call, EnvEngine.toEngine, EnvEngine.GetUint64,
      envScalar_set _ _ _ _ _ _ hl]
    exact viaNumError_error _
  case GetBool =>
    simp only [Engine.call, EnvEngine.toEngine, EnvEngine.GetBool, envScalar_set _ _ _ _ _ _ hl]
    exact viaNumError_error _
  case GetFloat =>
    simp only [Engine.call, EnvEngine.toEngine, EnvEngine.GetFloat, envScalar_set _ _ _ _ _ _ hl]
    exact viaNumError_error _
  case GetDuration =>
    simp only [Engine.call, EnvEngine.toEngine, EnvEngine.GetDuration,
      envScalar_set _ _ _ _ _ _ hl]
    exact parseDuration_error _
  case GetIntSlice => exact envSlice_set host e key _ value hl
  case GetUintSlice => exact envSlice_set host e key _ value hl
  case GetInt64Slice => exact envSlice_set host e key _ value hl
  case GetUint64Slice => exact envSlice_set host e key _ value hl
  case GetBoolSlice => exact envSlice_set host e key _ value hl
  case GetFloatSlice => exact envSlice_set host e key _ value hl

/-- C27, as the claim reads, fails on a value that cannot be parsed.
`GetDuration` of a `MapEngine` whose data holds the string "soon" returns the
error of `time.ParseDuration`, and `GetInt` of an `EnvEngine` whose variable
holds "abc" returns the error of `strconv.Atoi`; neither error satisfies
`errors.Is` for `ErrKeyNotFound` or for `ErrTypeMismatch`. -/
theorem C27_counterexample_value_that_does_not_parse :
    MapEngine.GetDuration { data := some timeoutData } "timeout"
      = (0, some (GoError.foreign "time: invalid duration \"soon\""))
    ∧ errorsIs (MapEngine.GetDuration { data := some timeoutData } "timeout").2
        Sentinel.keyNotFound = false
    ∧ errorsIs (MapEngine.GetDuration { data := some timeoutData } "timeout").2
        Sentinel.typeMismatch = false
    ∧ EnvEngine.GetInt sampleHost (NewEnvEngine []) "test.key"
      = (0, some (GoError.foreign "strconv.Atoi: parsing \"abc\": invalid syntax"))
    ∧ errorsIs (EnvEngine.GetInt sampleHost (NewEnvEngine []) "test.key").2
        Sentinel.keyNotFound = false
    ∧ errorsIs (EnvEngine.GetInt sampleHost (NewEnvEngine []) "test.key").2
        Sentinel.typeMismatch = false := by
  decide

/-- C27, amended.  A typed read of a `MapEngine` holding data returns a nil
error, an error that satisfies `errors.Is(err, ErrKeyNotFound)`, an error that
satisfies `errors.Is(err, ErrTypeMismatch)`, or, for `GetDuration` on a stored
string that `time.ParseDuration` rejects, the error of `time.ParseDuration`.
A typed read of an `EnvEngine` returns a nil error, the zero value with
`ErrKeyNotFound` itself when the variable is not set, or the error of the
parser of the value when the variable is set; it returns no type mismatch.
The error of a parser satisfies neither `errors.Is` test. -/
theorem C27_read_errors_of_the_map_and_env_engines (data : List (String × GoValue))
    (host : Host) (e : EnvEngine) (ident : Nat) (acc : Accessor) (key : String) :
    (((MapEngine.toEngine { data := some data } ident).call acc key).2 = none
      ∨ errorsIs ((MapEngine.toEngine { data := some data } ident).call acc key).2
          Sentinel.keyNotFound = true
      ∨ errorsIs ((MapEngine.toEngine { data := some data } ident).call acc key).2
          Sentinel.typeMismatch = true
      ∨ (acc = Accessor.GetDuration ∧ ∃ s msg,
          (data.lookup key = some (GoValue.string s) ∨
            data.lookup key = some (GoValue.stringPtr (some s))) ∧
          (parseDuration s).2 = some (GoError.foreign msg) ∧
          ((MapEngine.toEngine { data := some data } ident).call acc key).2
            = some (GoError.foreign msg)))
    ∧ (((EnvEngine.toEngine host e ident).call acc key).2 = none
      ∨ (host.LookupEnv (e.getKey host key) = none ∧
          (EnvEngine.toEngine host e ident).call acc key
            = (zeroValue acc, some ErrKeyNotFound))
      ∨ (∃ value msg, host.LookupEnv (e.getKey host key) = some value ∧
          ((EnvEngine.toEngine host e ident).call acc key).2 = some (GoError.foreign msg)))
    ∧ (∀ msg s, errorsIs (some (GoError.foreign msg)) s = false) := by
  refine ⟨?_, ?_, fun _ _ => rfl⟩
  · cases hk : data.lookup key with
    | none =>
      rw [mapCall_absent data ident acc key hk]
      exact Or.inr (Or.inl rfl)
    | some value =>
      rcases mapCall_present data ident acc key value hk with
        ⟨_, h⟩ | ⟨_, h⟩ | ⟨xs, bad, _, _, _, h⟩ | ⟨hacc, _, s, msg, hs, h, hp⟩
      · exact Or.inl h
      · exact Or.inr (Or.inr (Or.inl (by rw [h]; rfl)))
      · exact Or.inr (Or.inr (Or.inl (by rw [h]; rfl)))
      · refine Or.inr (Or.inr (Or.inr ⟨hacc, s, msg, ?_, hp, by rw [h]⟩))
        rcases hs with rfl | rfl
        · exact Or.inl rfl
        · exact Or.inr rfl
  · cases hl : host.LookupEnv (e.getKey host key) with
    | none => exact Or.inr (Or.inl ⟨rfl, envCall_unset host e ident acc key hl⟩)
    | some value =>
      rcases envCall_set host e ident acc key value hl with h | ⟨msg, h⟩
      · exact Or.inl h
      · exact Or.inr (Or.inr ⟨value, msg, rfl, h⟩)

theorem C27_read_errors_of_the_map_and_env_engines_witness :
    ((EnvEngine.toEngine sampleHost (NewEnvEngine []) 0).call Accessor.GetIntSlice "ports").2
      = some (GoError.foreign "element 2: strconv.Atoi: parsing \"x\": invalid syntax")
    ∧ (((EnvEngine.toEngine sampleHost (NewEnvEngine []) 0).call Accessor.GetIntSlice
          "ports").2 = none
      ∨ (sampleHost.LookupEnv ((NewEnvEngine []).getKey sampleHost "ports") = none ∧
          (EnvEngine.toEngine sampleHost (NewEnvEngine []) 0).call Accessor.GetIntSlice "ports"
            = (zeroValue Accessor.GetIntSlice, some ErrKeyNotFound))
      ∨ (∃ value msg,
          sampleHost.LookupEnv ((NewEnvEngine []).getKey sampleHost "ports") = some value ∧
          ((EnvEngine.toEngine sampleHost (NewEnvEngine []) 0).call Accessor.GetIntSlice
            "ports").2 = some (GoError.foreign msg))) :=
  ⟨by decide,
   (C27_read_errors_of_the_map_and_env_engines timeoutData sampleHost (NewEnvEngine []) 0
      Accessor.GetIntSlice "ports").2.1⟩

/-! ## Load and Unload (C28, C29) -/

theorem MapEngine.run_errors (ops : List Lifecycle) : ∀ (engine : MapEngine),
    ∀ err ∈ (MapEngine.run engine ops).2, err = none := by
  induction ops with
  | nil => intro engine err h; simp [MapEngine.run] at h
  | cons op rest ih =>
    intro engine err h
    cases op with
    | load =>
      simp only [MapEngine.run, List.mem_cons] at h
      rcases h with h | h
      · exact h
      · exact ih engine err h
    | unload =>
      simp only [MapEngine.run, List.mem_cons] at h
      rcases h with h | h
      · exact h
      · exact ih _ err h

theorem MapEngine.run_data (ops : List Lifecycle) : ∀ (engine : MapEngine),
    ((MapEngine.run engine ops).1.data = none ↔ engine.data = none ∨ Lifecycle.unload ∈ ops) ∧
    (Lifecycle.unload ∉ ops → (MapEngine.run engine ops).1 = engine) := by
  induction ops with
  | nil => intro engine; simp [MapEngine.run]
  | cons op rest ih =>
    intro engine
    cases op with
    | load =>
      simp only [MapEngine.run, List.mem_cons, reduceCtorEq, false_or]
      exact ih engine
    | unload =>
      simp only [MapEngine.run, List.mem_cons, true_or, or_true, iff_true, not_true_eq_false,
        false_implies, and_true]
      exact ((ih (MapEngine.Unload engine).1).1).2 (Or.inl rfl)

theorem mapCall_not_loaded_iff (engine : MapEngine) (ident : Nat) (acc : Accessor)
    (key : String) :
    errorsIs ((MapEngine.toEngine engine ident).call acc key).2 Sentinel.engineNotLoaded = true
      ↔ engine.data = none := by
  obtain ⟨data⟩ := engine
  cases data with
  | none =>
    have : (MapEngine.toEngine { data := none } ident).call acc key
        = (zeroValue acc, some ErrEngineNotLoaded) := by cases acc <;> rfl
    simp [this, errorsIs]
  | some data =>
    cases hk : data.lookup key with
    | none => simp [mapCall_absent data ident acc key hk, keyNotFoundOf, errorsIs]
    | some value =>
      simp [(presentRead_errorsIs _ acc value (mapCall_present data ident acc key value hk)).2]

/-- C28, as the claim reads, fails on a zero-value `MapEngine` and on one that
was unloaded: `Load` returns nil, and the read after it still returns
`ErrEngineNotLoaded`. -/
theorem C28_counterexample_read_after_load :
    MapEngine.Load { data := none } = none
    ∧ MapEngine.GetString (MapEngine.run { data := none } [Lifecycle.load]).1 "timeout"
        = ("", some ErrEngineNotLoaded)
    ∧ (MapEngine.run (NewMapEngine timeoutData) [Lifecycle.unload, Lifecycle.load]).2
        = [none, none]
    ∧ MapEngine.GetString
        (MapEngine.run (NewMapEngine timeoutData) [Lifecycle.unload, Lifecycle.load]).1 "timeout"
        = ("", some ErrEngineNotLoaded) := by
  decide

/-- C28, amended.  On a `MapEngine`, `Load` and `Unload` return nil in any
sequence of calls, and `Load` leaves the engine as it is.  After the sequence a
typed read fails with `ErrEngineNotLoaded` exactly when the data is nil, which
is when the data was nil at the start (the zero value) or `Unload` is among
the calls; so an engine built by `NewMapEngine` never fails that way while
`Unload` has not been called, whether `Load` was called or not. -/
theorem C28_load_leaves_the_map_engine_as_it_is (engine : MapEngine) (ops : List Lifecycle)
    (ident : Nat) (acc : Accessor) (key : String) :
    (∀ err ∈ (MapEngine.run engine ops).2, err = none)
    ∧ (Lifecycle.unload ∉ ops → (MapEngine.run engine ops).1 = engine)
    ∧ (errorsIs ((MapEngine.toEngine (MapEngine.run engine ops).1 ident).call acc key).2
          Sentinel.engineNotLoaded = true
        ↔ engine.data = none ∨ Lifecycle.unload ∈ ops)
    ∧ (∀ m, Lifecycle.unload ∉ ops →
        errorsIs ((MapEngine.toEngine (MapEngine.run (NewMapEngine m) ops).1 ident).call
          acc key).2 Sentinel.engineNotLoaded = false) := by
  refine ⟨MapEngine.run_errors ops engine, (MapEngine.run_data ops engine).2, ?_, ?_⟩
  · rw [mapCall_not_loaded_iff]
    exact (MapEngine.run_data ops engine).1
  · intro m hno
    have h := mapCall_not_loaded_iff (MapEngine.run (NewMapEngine m) ops).1 ident acc key
    rw [(MapEngine.run_data ops (NewMapEngine m)).2 hno] at h ⊢
    cases hb : errorsIs ((MapEngine.toEngine (NewMapEngine m) ident).call acc key).2
        Sentinel.engineNotLoaded with
    | false => rfl
    | true => exact absurd (h.1 hb) (by simp [NewMapEngine])

theorem C28_load_leaves_the_map_engine_as_it_is_witness :
    (MapEngine.run (NewMapEngine timeoutData) [Lifecycle.load, Lifecycle.load]).1
        = NewMapEngine timeoutData
    ∧ errorsIs ((MapEngine.toEngine
          (MapEngine.run (NewMapEngine timeoutData) [Lifecycle.load, Lifecycle.load]).1 0).call
          Accessor.GetString "timeout").2 Sentinel.engineNotLoaded = false :=
  ⟨(C28_load_leaves_the_map_engine_as_it_is (NewMapEngine timeoutData)
      [Lifecycle.load, Lifecycle.load] 0 Accessor.GetString "timeout").2.1 (by decide),
   (C28_load_leaves_the_map_engine_as_it_is (NewMapEngine timeoutData)
      [Lifecycle.load, Lifecycle.load] 0 Accessor.GetString "timeout").2.2.2 timeoutData
      (by decide)⟩

/-- C29 fails in the code: a `YAMLEngine` as `NewYAMLEngine` returns it holds a
nil `*MapEngine`, and so does one whose `Load` failed; every typed read on it
panics on the nil pointer, where the claim has it return
`ErrEngineNotLoaded`. -/
theorem C29_read_before_load_panics :
    (∀ (loader : Loader) (ident : Nat) (acc : Accessor) (key : String),
      YAMLEngine.promoted (NewYAMLEngine loader)
          (fun inner => (MapEngine.toEngine inner ident).call acc key)
        = Call.panicked nilDereference)
    ∧ (∀ (decode : String → List (String × GoValue) × Option GoError) (loader : Loader)
        (ident : Nat) (acc : Accessor) (key : String),
      (YAMLEngine.Load decode (NewYAMLEngine loader)).2 ≠ none →
      YAMLEngine.promoted (YAMLEngine.Load decode (NewYAMLEngine loader)).1
          (fun inner => (MapEngine.toEngine inner ident).call acc key)
        = Call.panicked nilDereference) := by
  refine ⟨fun _ _ _ _ => rfl, ?_⟩
  intro decode loader ident acc key hfail
  rcases h1 : loader.Load with ⟨reader, _ | err⟩
  · rcases h2 : decode reader with ⟨data, _ | err⟩
    · simp [YAMLEngine.Load, NewYAMLEngine, h1, h2, MapEngine.Load] at hfail
    · simp [YAMLEngine.Load, NewYAMLEngine, h1, h2, YAMLEngine.promoted]
  · simp [YAMLEngine.Load, NewYAMLEngine, h1, YAMLEngine.promoted]

/-! ## The name mapping of EnvEngine (C30) -/

theorem envName_eq (table : Char → Char) (s : String) :
    toUpper table (replaceAll s '.' '_') = String.mk (s.data.map (envNameChar table)) := by
  simp only [toUpper, replaceAll, List.map_map]
  rfl

theorem unicodeToUpper_capital (table : Char → Char) (n : Nat) (h1 : 97 ≤ n) (h2 : n ≤ 122) :
    unicodeToUpper table (Char.ofNat (n - 32)) = Char.ofNat (n - 32)
      ∧ Char.ofNat (n - 32) ≠ '.' ∧ (Char.ofNat (n - 32)).toNat ≤ 127 := by
  interval_cases n <;> exact ⟨by rfl, by decide, by decide⟩

theorem envNameChar_dot (table : Char → Char) : envNameChar table '.' = '_' := by rfl

theorem envNameChar_ascii (table : Char → Char) (c : Char) (h : c.toNat ≤ 127) :
    envNameChar table (envNameChar table c) = envNameChar table c
      ∧ (envNameChar table c).toNat ≤ 127 := by
  by_cases hdot : c = '.'
  · subst hdot
    rw [envNameChar_dot]
    exact ⟨by rfl, by decide⟩
  · by_cases hlow : 'a' ≤ c ∧ c ≤ 'z'
    · have hc : envNameChar table c = Char.ofNat (c.toNat - 32) := by
        simp only [envNameChar, if_neg hdot, unicodeToUpper, if_pos h, if_pos hlow]
      obtain ⟨h1, h2, h3⟩ := unicodeToUpper_capital table c.toNat hlow.1 hlow.2
      rw [hc]
      refine ⟨?_, h3⟩
      simp only [envNameChar, if_neg h2]
      exact h1
    · have hc : envNameChar table c = c := by
        simp only [envNameChar, if_neg hdot, unicodeToUpper, if_pos h, if_neg hlow]
      rw [hc, hc]
      exact ⟨rfl, h⟩

theorem envNameChar_above (table : Char → Char) (c : Char) (h : 127 < c.toNat) :
    envNameChar table c = table c := by
  have hdot : c ≠ '.' := by
    rintro rfl
    revert h
    decide
  simp only [envNameChar, if_neg hdot, unicodeToUpper, if_neg (Nat.not_le.2 h)]

theorem envNameChar_idem (table : Char → Char)
    (ht : ∀ c : Char, 127 < c.toNat →
      table c ≠ '.' ∧ unicodeToUpper table (table c) = table c) (c : Char) :
    envNameChar table (envNameChar table c) = envNameChar table c := by
  by_cases h : c.toNat ≤ 127
  · exact (envNameChar_ascii table c h).1
  · have h1 : 127 < c.toNat := Nat.lt_of_not_le h
    rw [envNameChar_above table c h1]
    simp only [envNameChar, if_neg (ht c h1).1]
    exact (ht c h1).2

theorem envName_idem_of (table : Char → Char) (s : String)
    (h : ∀ c ∈ s.data, envNameChar table (envNameChar table c) = envNameChar table c) :
    toUpper table (replaceAll (toUpper table (replaceAll s '.' '_')) '.' '_')
      = toUpper table (replaceAll s '.' '_') := by
  rw [envName_eq table s, envName_eq]
  show String.mk (List.map (envNameChar table) (List.map (envNameChar table) s.data))
    = String.mk (List.map (envNameChar table) s.data)
  rw [List.map_map]
  congr 1
  exact List.map_congr_left h

theorem envNameChar_table (table : Char → Char)
    (hid : ∀ s : String,
      toUpper table (replaceAll (toUpper table (replaceAll s '.' '_')) '.' '_')
        = toUpper table (replaceAll s '.' '_'))
    (c : Char) (h : 127 < c.toNat) :
    table c ≠ '.' ∧ unicodeToUpper table (table c) = table c := by
  have h1 := hid (String.mk [c])
  rw [envName_eq table (String.mk [c]), envName_eq] at h1
  have h2 : envNameChar table (envNameChar table c) = envNameChar table c := by
    have h3 := congrArg String.data h1
    simpa using h3
  rw [envNameChar_above table c h] at h2
  have hne : table c ≠ '.' := by
    intro hd
    rw [hd, envNameChar_dot] at h2
    exact absurd h2 (by decide)
  refine ⟨hne, ?_⟩
  simpa only [envNameChar, if_neg hne] using h2

theorem getKey_eq (host : Host) (e : EnvEngine) (key : String) :
    e.getKey host key = String.mk (e.pfx.data.map (envNameChar host.ToUpperCase)
      ++ key.data.map (envNameChar host.ToUpperCase)) := by
  simp [EnvEngine.getKey, envName_eq]

theorem accentHost_table (c : Char) (h : 127 < c.toNat) :
    accentHost.ToUpperCase c ≠ '.'
      ∧ unicodeToUpper accentHost.ToUpperCase (accentHost.ToUpperCase c)
        = accentHost.ToUpperCase c := by
  by_cases hc : c = 'é'
  · subst hc
    exact ⟨by decide, by rfl⟩
  · have ht : accentHost.ToUpperCase c = c := by
      simp only [accentHost, if_neg hc]
    rw [ht]
    refine ⟨?_, ?_⟩
    · rintro rfl
      revert h
      decide
    · simp only [unicodeToUpper, if_neg (Nat.not_le.2 h)]
      exact ht

/-- C30: every getter of an `EnvEngine` with prefix `p` reads, for the key `k`,
the one environment variable named `upper(replaceAll(p + k, ".", "_"))`, `upper`
being `strings.ToUpper`: its result is the same in two environments that agree
on that variable.  Keys that the mapping sends to the same name read the same
variable, as "test.key", "test_key" and "TEST_KEY" do whatever the case table
of the `unicode` package.  The mapping of names is idempotent on every text of
ASCII; it is idempotent on all texts exactly when the case table is on the
runes above ASCII, that is when it maps none of them to the dot and
`unicode.ToUpper` leaves the image of each as it is. -/
theorem C30_env_getters_read_one_variable :
    (∀ (host : Host) (e : EnvEngine) (key : String),
      e.getKey host key = toUpper host.ToUpperCase (replaceAll (e.pfx ++ key) '.' '_'))
    ∧ (∀ (host1 host2 : Host) (e : EnvEngine) (ident : Nat) (acc : Accessor) (key : String),
        host1.ParseFloat = host2.ParseFloat →
        host1.ToUpperCase = host2.ToUpperCase →
        host1.LookupEnv (toUpper host1.ToUpperCase (replaceAll (e.pfx ++ key) '.' '_'))
          = host2.LookupEnv (toUpper host1.ToUpperCase (replaceAll (e.pfx ++ key) '.' '_')) →
        (EnvEngine.toEngine host1 e ident).call acc key
          = (EnvEngine.toEngine host2 e ident).call acc key)
    ∧ (∀ (host : Host) (e : EnvEngine) (k1 k2 : String),
        toUpper host.ToUpperCase (replaceAll k1 '.' '_')
          = toUpper host.ToUpperCase (replaceAll k2 '.' '_') →
        e.getKey host k1 = e.getKey host k2)
    ∧ (∀ host : Host,
        (NewEnvEngine []).getKey host "test.key" = "TEST_KEY"
        ∧ (NewEnvEngine []).getKey host "test_key" = "TEST_KEY"
        ∧ (NewEnvEngine []).getKey host "TEST_KEY" = "TEST_KEY")
    ∧ (∀ host : Host,
        (∀ s : String,
          toUpper host.ToUpperCase
              (replaceAll (toUpper host.ToUpperCase (replaceAll s '.' '_')) '.' '_')
            = toUpper host.ToUpperCase (replaceAll s '.' '_'))
        ↔ (∀ c : Char, 127 < c.toNat →
            host.ToUpperCase c ≠ '.'
              ∧ unicodeToUpper host.ToUpperCase (host.ToUpperCase c) = host.ToUpperCase c))
    ∧ (∀ (host : Host) (s : String), (∀ c ∈ s.data, c.toNat ≤ 127) →
        toUpper host.ToUpperCase
            (replaceAll (toUpper host.ToUpperCase (replaceAll s '.' '_')) '.' '_')
          = toUpper host.ToUpperCase (replaceAll s '.' '_')) := by
  refine ⟨fun _ _ _ => rfl, ?_, ?_, fun _ => ⟨by rfl, by rfl, by rfl⟩, ?_, ?_⟩
  · intro host1 host2 e ident acc key hf ht hl
    cases acc <;>
      simp [Engine.call, EnvEngine.toEngine, EnvEngine.GetString, EnvEngine.GetStringSlice,
        EnvEngine.GetInt, EnvEngine.GetIntSlice, EnvEngine.GetUint, EnvEngine.GetUintSlice,
        EnvEngine.GetInt64, EnvEngine.GetInt64Slice, EnvEngine.GetUint64,
        EnvEngine.GetUint64Slice, EnvEngine.GetBool, EnvEngine.GetBoolSlice, EnvEngine.GetFloat,
        EnvEngine.GetFloatSlice, EnvEngine.GetDuration, EnvEngine.scalar, EnvEngine.slice,
        EnvEngine.getKey, ← ht, hl, hf]
  · intro host e k1 k2 h
    rw [envName_eq, envName_eq] at h
    have hd : List.map (envNameChar host.ToUpperCase) k1.data
        = List.map (envNameChar host.ToUpperCase) k2.data :=
      congrArg String.data h
    rw [getKey_eq, getKey_eq, hd]
  · intro host
    constructor
    · intro hid c hc
      exact envNameChar_table host.ToUpperCase hid c hc
    · intro ht s
      exact envName_idem_of host.ToUpperCase s
        (fun c _ => envNameChar_idem host.ToUpperCase ht c)
  · intro host s hs
    exact envName_idem_of host.ToUpperCase s
      (fun c hc => (envNameChar_ascii host.ToUpperCase c (hs c hc)).1)

/-- C30, witness: with the prefix "app." the key "db.port" reads the variable
`APP_DB_PORT`, as the key "DB_PORT" does; with a case table that maps é to É the
key "café.x" reads the variable `CAFÉ_X`, and the mapping of names is
idempotent under that table. -/
theorem C30_env_getters_read_one_variable_witness :
    EnvEngine.GetInt sampleHost (NewEnvEngine [WithPrefix "app."]) "db.port" = (5432, none)
    ∧ (NewEnvEngine [WithPrefix "app."]).getKey sampleHost "db.port"
        = (NewEnvEngine [WithPrefix "app."]).getKey sampleHost "DB_PORT"
    ∧ (NewEnvEngine []).getKey accentHost "café.x" = "CAFÉ_X"
    ∧ EnvEngine.GetInt accentHost (NewEnvEngine []) "café.x" = (7, none)
    ∧ (∀ s : String,
        toUpper accentHost.ToUpperCase
            (replaceAll (toUpper accentHost.ToUpperCase (replaceAll s '.' '_')) '.' '_')
          = toUpper accentHost.ToUpperCase (replaceAll s '.' '_')) :=
  ⟨by decide,
   C30_env_getters_read_one_variable.2.2.1 sampleHost (NewEnvEngine [WithPrefix "app."])
     "db.port" "DB_PORT" (by decide),
   by decide,
   by decide,
   (C30_env_getters_read_one_variable.2.2.2.2.1 accentHost).2 accentHost_table⟩

/-! ## The unsigned getters of EnvEngine (C37) -/

theorem digitValue_le (c : Char) (h : isDigit c = true) : digitValue c ≤ 9 := by
  simp only [isDigit, Bool.and_eq_true, decide_eq_true_eq] at h
  have h2 : c.toNat ≤ 57 := h.2
  simp only [digitValue]
  have : '0'.toNat = 48 := rfl
  omega

theorem decimalFrom_ge (digits : List Char) : ∀ n, n ≤ decimalFrom n digits := by
  induction digits with
  | nil => intro n; exact Nat.le_refl n
  | cons c cs ih =>
    intro n
    have := ih (n * 10 + digitValue c)
    simp only [decimalFrom, List.foldl_cons] at this ⊢
    omega

theorem parseUintLoop_digits (bitSize : Nat) (hb : bitSize ≤ 64) :
    ∀ (cs : List Char) (n : Nat), (∀ c ∈ cs, isDigit c = true) → n ≤ 2 ^ bitSize - 1 →
      parseUintLoop bitSize cs n =
        if decimalFrom n cs ≤ 2 ^ bitSize - 1 then (decimalFrom n cs, none)
        else (2 ^ bitSize - 1, some NumErrKind.ErrRange) := by
  have hM : 2 ^ bitSize - 1 ≤ 18446744073709551615 := by
    have : 2 ^ bitSize ≤ 2 ^ 64 := Nat.pow_le_pow_right (by decide) hb
    have h64 : (2 : Nat) ^ 64 = 18446744073709551616 := by norm_num
    omega
  obtain ⟨M, hMeq⟩ : ∃ M, 2 ^ bitSize - 1 = M := ⟨_, rfl⟩
  rw [hMeq] at hM
  simp only [hMeq]
  intro cs
  induction cs with
  | nil =>
    intro n _ hn
    simp [parseUintLoop, decimalFrom, hn]
  | cons c cs ih =>
    intro n hd hn
    have hc : isDigit c = true := hd c (by simp)
    have hd9 := digitValue_le c hc
    have hrest : ∀ x ∈ cs, isDigit x = true := fun x hx => hd x (by simp [hx])
    have hge := decimalFrom_ge cs (n * 10 + digitValue c)
    have hstep : decimalFrom n (c :: cs) = decimalFrom (n * 10 + digitValue c) cs := rfl
    have h64 : (2 : Nat) ^ 64 = 18446744073709551616 := by norm_num
    rw [hstep, parseUintLoop]
    simp only [hc, hMeq, h64, Bool.true_eq_false, if_false]
    by_cases h1 : n ≥ (18446744073709551616 - 1) / 10 + 1
    · rw [if_pos h1, if_neg (by omega)]
    · rw [if_neg h1]
      by_cases h2 : (n * 10 + digitValue c) % 18446744073709551616 < n * 10 ∨
          (n * 10 + digitValue c) % 18446744073709551616 > M
      · rw [if_pos h2, if_neg (by omega)]
      · rw [if_neg h2]
        have hmod : (n * 10 + digitValue c) % 18446744073709551616 = n * 10 + digitValue c := by
          omega
        rw [hmod]
        exact ih (n * 10 + digitValue c) hrest (by omega)

theorem parseUintLoop_nondigit (bitSize : Nat) :
    ∀ (cs : List Char) (n : Nat), (∃ c ∈ cs, isDigit c = false) →
      (parseUintLoop bitSize cs n).2 ≠ none := by
  intro cs
  induction cs with
  | nil => intro n h; simp at h
  | cons c cs ih =>
    intro n h
    rw [parseUintLoop]
    cases hc : isDigit c with
    | false => simp
    | true =>
      have hrest : ∃ x ∈ cs, isDigit x = false := by
        obtain ⟨x, hx, hx2⟩ := h
        rcases List.mem_cons.1 hx with rfl | hx
        · rw [hc] at hx2; cases hx2
        · exact ⟨x, hx, hx2⟩
      simp only [Bool.true_eq_false, if_false]
      split_ifs
      · simp
      · simp
      · exact ih _ hrest

/-- The call `strconv.ParseUint(s, 10, bitSize)` on a decimal string: the number
written when it is at most `1<<bitSize - 1`, else that bound and a range
error. -/
theorem parseUintKind_decimal (s : String) (bitSize : Nat) (hb : bitSize ≤ 64)
    (hs : isDecimal s = true) :
    parseUintKind s bitSize =
      if decimalValue s ≤ 2 ^ bitSize - 1 then (decimalValue s, none)
      else (2 ^ bitSize - 1, some NumErrKind.ErrRange) := by
  simp only [isDecimal, Bool.and_eq_true, Bool.not_eq_true', List.all_eq_true] at hs
  have hne : s ≠ "" := by
    intro h
    rw [h] at hs
    simp at hs
  simp only [parseUintKind, hne, if_false, decimalValue]
  exact parseUintLoop_digits bitSize hb s.data 0 hs.2 (Nat.zero_le _)

theorem parseUintKind_not_decimal (s : String) (bitSize : Nat) (hs : isDecimal s = false) :
    (parseUintKind s bitSize).2 ≠ none := by
  simp only [parseUintKind]
  split_ifs with h0
  · simp
  · apply parseUintLoop_nondigit
    simp only [isDecimal, Bool.and_eq_false_iff, Bool.not_eq_false', List.isEmpty_iff] at hs
    rcases hs with hs | hs
    · exact absurd (String.ext hs) h0
    · simpa [List.all_eq_false] using hs

theorem ParseUint_decimal (s : String) (bitSize : Nat) (hb : bitSize ≤ 64)
    (hs : isDecimal s = true) :
    ((ParseUint s bitSize).2 = none ↔ decimalValue s ≤ 2 ^ bitSize - 1) ∧
    (decimalValue s ≤ 2 ^ bitSize - 1 → ParseUint s bitSize = (decimalValue s, none)) ∧
    (2 ^ bitSize ≤ decimalValue s →
      ParseUint s bitSize
        = (2 ^ bitSize - 1, some { Func := "ParseUint", Num := s, Err := NumErrKind.ErrRange })) := by
  have h := parseUintKind_decimal s bitSize hb hs
  have hpos : 0 < 2 ^ bitSize := Nat.pow_pos (by decide)
  by_cases hle : decimalValue s ≤ 2 ^ bitSize - 1
  · rw [if_pos hle] at h
    refine ⟨⟨fun _ => hle, fun _ => by simp [ParseUint, h]⟩, fun _ => by simp [ParseUint, h],
      fun hge => ?_⟩
    omega
  · rw [if_neg hle] at h
    refine ⟨⟨fun h2 => ?_, fun h2 => absurd h2 hle⟩, fun h2 => absurd h2 hle,
      fun _ => by simp [ParseUint, h]⟩
    simp [ParseUint, h] at h2

theorem isSpace_of_isDigit (c : Char) (h : isDigit c = true) : isSpace c = false := by
  simp only [isDigit, Bool.and_eq_true, decide_eq_true_eq] at h
  have h1 : 48 ≤ c.toNat := h.1
  have h2 : c.toNat ≤ 57 := h.2
  simp only [isSpace]
  generalize c.toNat = n at h1 h2
  interval_cases n <;> rfl

theorem trimSpace_decimal (s : String) (hs : isDecimal s = true) : trimSpace s = s := by
  simp only [isDecimal, Bool.and_eq_true, Bool.not_eq_true', List.all_eq_true] at hs
  obtain ⟨_, hd⟩ := hs
  have hdrop : ∀ l : List Char, (∀ c ∈ l, isDigit c = true) → l.dropWhile isSpace = l := by
    intro l hl
    cases l with
    | nil => rfl
    | cons a t => simp [List.dropWhile, isSpace_of_isDigit a (hl a (by simp))]
  have h1 := hdrop s.data hd
  have h2 := hdrop s.data.reverse (fun c hc => hd c (List.mem_reverse.1 hc))
  simp [trimSpace, h1, h2]

theorem splitComma_decimal (s : String) (hs : isDecimal s = true) : splitComma s = [s] := by
  simp only [isDecimal, Bool.and_eq_true, Bool.not_eq_true', List.all_eq_true] at hs
  have hno : ',' ∉ s.data := fun h => by
    have := hs.2 ',' h
    simp [isDigit] at this
  simp [splitComma, splitChars_sepFree ',' s.data hno]

theorem envSlice_decimal {α : Type} (host : Host) (e : EnvEngine) (key : String)
    (parse : String → α × Option NumError) (v : String)
    (hset : host.LookupEnv (e.getKey host key) = some v) (hs : isDecimal v = true) :
    EnvEngine.slice host e key (fun p => parse (trimSpace p)) =
      match parse v with
      | (_, some err) => (none, some (elementError 0 err))
      | (u, none) => (some [u], none) := by
  have hne : v ≠ "" := by
    intro h
    rw [h] at hs
    simp [isDecimal] at hs
  simp only [EnvEngine.slice, hset, hne, if_false, splitComma_decimal v hs, parseElements,
    trimSpace_decimal v hs]

/-- C37: on a variable whose value is a decimal string, `GetUint` and
`GetUintSlice` of an `EnvEngine` succeed exactly when the number written is at
most `2^32 - 1`, and `GetUint64` and `GetUint64Slice` exactly when it is at
most `2^64 - 1`; a success returns the number.  For a number of `2^32` or more
`GetUint` returns an error that is not nil, and the value `2^32 - 1` with it,
which is not the number written. -/
theorem C37_uint_getters_take_32_bits (host : Host) (e : EnvEngine) (key : String)
    (v : String) (hset : host.LookupEnv (e.getKey host key) = some v)
    (hdec : isDecimal v = true) :
    ((EnvEngine.GetUint host e key).2 = none ↔ decimalValue v ≤ 2 ^ 32 - 1)
    ∧ ((EnvEngine.GetUintSlice host e key).2 = none ↔ decimalValue v ≤ 2 ^ 32 - 1)
    ∧ (decimalValue v ≤ 2 ^ 32 - 1 →
        EnvEngine.GetUint host e key = (decimalValue v, none) ∧
        EnvEngine.GetUintSlice host e key = (some [decimalValue v], none))
    ∧ (2 ^ 32 ≤ decimalValue v →
        (EnvEngine.GetUint host e key).2 ≠ none ∧
        (EnvEngine.GetUint host e key).1 = 2 ^ 32 - 1 ∧
        (EnvEngine.GetUint host e key).1 ≠ decimalValue v)
    ∧ ((EnvEngine.GetUint64 host e key).2 = none ↔ decimalValue v ≤ 2 ^ 64 - 1)
    ∧ ((EnvEngine.GetUint64Slice host e key).2 = none ↔ decimalValue v ≤ 2 ^ 64 - 1)
    ∧ (decimalValue v ≤ 2 ^ 64 - 1 →
        EnvEngine.GetUint64 host e key = (decimalValue v, none) ∧
        EnvEngine.GetUint64Slice host e key = (some [decimalValue v], none)) := by
  have key32 : ∀ b : Nat, b ≤ 64 →
      ((viaNumError (ParseUint v b)).2 = none ↔ decimalValue v ≤ 2 ^ b - 1) ∧
      ((EnvEngine.slice host e key (fun p => ParseUint (trimSpace p) b)).2 = none
        ↔ decimalValue v ≤ 2 ^ b - 1) ∧
      (decimalValue v ≤ 2 ^ b - 1 →
        viaNumError (ParseUint v b) = (decimalValue v, none) ∧
        EnvEngine.slice host e key (fun p => ParseUint (trimSpace p) b)
          = (some [decimalValue v], none)) ∧
      (2 ^ b ≤ decimalValue v →
        (viaNumError (ParseUint v b)).2 ≠ none ∧ (viaNumError (ParseUint v b)).1 = 2 ^ b - 1) := by
    intro b hb
    obtain ⟨h1, h2, h3⟩ := ParseUint_decimal v b hb hdec
    have hsl := envSlice_decimal host e key (fun p => ParseUint p b) v hset hdec
    have hpos : 0 < 2 ^ b := Nat.pow_pos (by decide)
    by_cases hle : decimalValue v ≤ 2 ^ b - 1
    · have hp := h2 hle
      simp only [hp] at hsl
      refine ⟨⟨fun _ => hle, fun _ => by simp [viaNumError, hp]⟩,
        ⟨fun _ => hle, fun _ => by rw [hsl]⟩,
        fun _ => ⟨by simp [viaNumError, hp], hsl⟩, fun hge => ?_⟩
      omega
    · have hp := h3 (by omega)
      simp only [hp] at hsl
      refine ⟨⟨fun h => ?_, fun h => absurd h hle⟩, ⟨fun h => ?_, fun h => absurd h hle⟩,
        fun h => absurd h hle, fun _ => ⟨by simp [viaNumError, hp], by simp [viaNumError, hp]⟩⟩
      · simp [viaNumError, hp] at h
      · rw [hsl] at h
        simp at h
  obtain ⟨a1, a2, a3, a4⟩ := key32 32 (by decide)
  obtain ⟨b1, b2, b3, _⟩ := key32 64 (by decide)
  have hU : EnvEngine.GetUint host e key = viaNumError (ParseUint v 32) := by
    simp [EnvEngine.GetUint, EnvEngine.scalar, hset]
  have hU64 : EnvEngine.GetUint64 host e key = viaNumError (ParseUint v 64) := by
    simp [EnvEngine.GetUint64, EnvEngine.scalar, hset]
  rw [hU, hU64]
  refine ⟨a1, a2, a3, fun hge => ?_, b1, b2, b3⟩
  obtain ⟨x, y⟩ := a4 hge
  refine ⟨x, y, ?_⟩
  rw [y]
  have hpos : 0 < 2 ^ 32 := Nat.pow_pos (by decide)
  omega

theorem C37_uint_getters_take_32_bits_witness :
    EnvEngine.GetUint
        { LookupEnv := fun _ => some "4294967296",
          ParseFloat := sampleHost.ParseFloat, ToUpperCase := sampleHost.ToUpperCase }
        (NewEnvEngine []) "n"
      = (4294967295, some (GoError.foreign
          "strconv.ParseUint: parsing \"4294967296\": value out of range"))
    ∧ ¬ decimalValue "4294967296" ≤ 2 ^ 32 - 1
    ∧ ((EnvEngine.GetUint64
        { LookupEnv := fun _ => some "4294967296",
          ParseFloat := sampleHost.ParseFloat, ToUpperCase := sampleHost.ToUpperCase }
        (NewEnvEngine []) "n").2 = none ↔ decimalValue "4294967296" ≤ 2 ^ 64 - 1) :=
  ⟨by decide, by decide,
   (C37_uint_getters_take_32_bits
      { LookupEnv := fun _ => some "4294967296",
          ParseFloat := sampleHost.ParseFloat, ToUpperCase := sampleHost.ToUpperCase }
      (NewEnvEngine []) "n" "4294967296" rfl (by decide)).2.2.2.2.1⟩

/-! ## The integer slices of EnvEngine (C32) -/

theorem parseUintLoop_range (bitSize : Nat) :
    ∀ (cs : List Char) (n x : Nat),
      parseUintLoop bitSize cs n = (x, some NumErrKind.ErrRange) → x = 2 ^ bitSize - 1 := by
  intro cs
  induction cs with
  | nil => intro n x h; simp [parseUintLoop] at h
  | cons c cs ih =>
    intro n x h
    rw [parseUintLoop] at h
    by_cases h0 : isDigit c = false
    · rw [if_pos h0] at h
      simp at h
    · rw [if_neg h0] at h
      by_cases h1 : n ≥ (2 ^ 64 - 1) / 10 + 1
      · rw [if_pos h1] at h
        simp only [Prod.mk.injEq] at h
        exact h.1.symm
      · rw [if_neg h1] at h
        simp only at h
        by_cases h2 : (n * 10 + digitValue c) % 2 ^ 64 < n * 10 ∨
            (n * 10 + digitValue c) % 2 ^ 64 > 2 ^ bitSize - 1
        · rw [if_pos h2] at h
          simp only [Prod.mk.injEq] at h
          exact h.1.symm
        · rw [if_neg h2] at h
          exact ih _ x h

theorem parseIntAs_unfold (fn s : String) (bitSize : Nat) (hs : s ≠ "") :
    parseIntAs fn s bitSize =
      match parseUintKind (unsignedPart s) bitSize with
      | (_, some NumErrKind.ErrSyntax) =>
        (0, some { Func := fn, Num := s, Err := NumErrKind.ErrSyntax })
      | (un, _) =>
        if decide (s.data.head? = some '-') = false ∧ un ≥ 2 ^ (bitSize - 1) then
          (((2 ^ (bitSize - 1) : Nat) : Int) - 1,
            some { Func := fn, Num := s, Err := NumErrKind.ErrRange })
        else if decide (s.data.head? = some '-') = true ∧ un > 2 ^ (bitSize - 1) then
          (-((2 ^ (bitSize - 1) : Nat) : Int),
            some { Func := fn, Num := s, Err := NumErrKind.ErrRange })
        else if decide (s.data.head? = some '-') = true then (-(un : Int), none)
        else ((un : Int), none) := by
  simp only [parseIntAs, hs, if_false]
  rfl

/-- The Go function `strconv.Atoi` accepts exactly the valid decimal integers,
and returns the integer written. -/
theorem Atoi_spec (s : String) :
    ((Atoi s).2 = none ↔ isDecimalInt s = true) ∧
    (isDecimalInt s = true → Atoi s = (decimalIntValue s, none)) := by
  have h63 : (2 : Nat) ^ (64 - 1) = 9223372036854775808 := by norm_num
  have h63b : (2 : Nat) ^ 63 = 9223372036854775808 := by norm_num
  have h64 : (2 : Nat) ^ 64 - 1 = 18446744073709551615 := by norm_num
  by_cases hs : s = ""
  · subst hs
    refine ⟨⟨fun h => ?_, fun h => ?_⟩, fun h => ?_⟩
    · simp [Atoi, parseIntAs] at h
    · simp [isDecimalInt, isDecimal, unsignedPart] at h
    · simp [isDecimalInt, isDecimal, unsignedPart] at h
  · rw [Atoi, parseIntAs_unfold "Atoi" s 64 hs]
    cases hd : isDecimal (unsignedPart s) with
    | false =>
      have herr := parseUintKind_not_decimal (unsignedPart s) 64 hd
      have hno : isDecimalInt s = false := by simp [isDecimalInt, hd]
      rw [hno]
      rcases hk : parseUintKind (unsignedPart s) 64 with ⟨un, _ | k⟩
      · rw [hk] at herr; exact absurd rfl herr
      · cases k with
        | ErrSyntax => simp
        | ErrRange =>
          have hun : un = 2 ^ 64 - 1 := by
            have hne : unsignedPart s ≠ "" := by
              intro h0
              rw [h0] at hk
              simp [parseUintKind] at hk
            simp only [parseUintKind, hne, if_false] at hk
            exact parseUintLoop_range 64 _ _ _ hk
          rw [h64] at hun
          subst hun
          simp only [h63]
          split_ifs <;> simp_all
    | true =>
      have hk := parseUintKind_decimal (unsignedPart s) 64 (by decide) hd
      rw [h64] at hk
      simp only [isDecimalInt, hd, Bool.true_and, decimalIntValue, h63b]
      by_cases hle : decimalValue (unsignedPart s) ≤ 18446744073709551615
      · rw [if_pos hle] at hk
        rw [hk]
        simp only [h63]
        by_cases hneg : s.data.head? = some '-'
        · simp only [hneg, decide_True, if_true, true_and, decide_eq_true_eq]
          split_ifs <;> simp_all
        · simp only [hneg, decide_False, if_false, false_and, decide_eq_true_eq]
          split_ifs <;> simp_all
      · rw [if_neg hle] at hk
        rw [hk]
        simp only [h63]
        by_cases hneg : s.data.head? = some '-'
        · simp only [hneg, decide_True, if_true, true_and, decide_eq_true_eq]
          (split_ifs <;> simp_all)
          omega
        · simp only [hneg, decide_False, if_false, false_and, decide_eq_true_eq]
          (split_ifs <;> simp_all)
          omega

theorem parseElements_ok {α : Type} (parse : String → α × Option NumError) :
    ∀ (vs : List String) (i : Nat), (∀ p ∈ vs, (parse p).2 = none) →
      parseElements parse i vs = (some (vs.map fun p => (parse p).1), none)
  | [], _, _ => rfl
  | v :: rest, i, h => by
    have hv : (parse v).2 = none := h v (by simp)
    have hrest := parseElements_ok parse rest (i + 1) (fun p hp => h p (by simp [hp]))
    rcases hp : parse v with ⟨u, err⟩
    rw [hp] at hv
    simp only at hv
    subst hv
    simp [parseElements, hp, hrest]

theorem parseElements_bad {α : Type} (parse : String → α × Option NumError) :
    ∀ (vs : List String) (i j : Nat) (p : String) (err : NumError),
      vs[j]? = some p → (parse p).2 = some err →
      (∀ k q, k < j → vs[k]? = some q → (parse q).2 = none) →
      parseElements parse i vs = (none, some (elementError (i + j) err))
  | [], _, j, p, err, hj, _, _ => by simp at hj
  | v :: rest, i, 0, p, err, hj, hp, _ => by
    simp only [List.getElem?_cons_zero, Option.some.injEq] at hj
    subst hj
    rcases hv : parse v with ⟨u, e⟩
    rw [hv] at hp
    simp only at hp
    subst hp
    simp [parseElements, hv]
  | v :: rest, i, j + 1, p, err, hj, hp, hpre => by
    simp only [List.getElem?_cons_succ] at hj
    have hv : (parse v).2 = none := hpre 0 v (Nat.succ_pos j) (by simp)
    have hrest := parseElements_bad parse rest (i + 1) j p err hj hp
      (fun k q hk hq => hpre (k + 1) q (Nat.succ_lt_succ hk) (by simpa using hq))
    rcases hpv : parse v with ⟨u, e⟩
    rw [hpv] at hv
    simp only at hv
    subst hv
    simp only [parseElements, hpv, hrest]
    have : i + 1 + j = i + (j + 1) := by omega
    rw [this]

/-- C32: for the value `v` of the variable that `GetIntSlice` of an `EnvEngine`
reads.  An empty `v` gives the nil slice and no error.  Otherwise `v` is split
on the comma; if every piece, trimmed of surrounding white space, is a valid
decimal integer, the result is the list of the integers written, in order and
of the length of the split; if the piece of index `i` is the first that is
not, the result is nil and the message of the error starts with
"element i". -/
theorem C32_GetIntSlice_parses_the_pieces (host : Host) (e : EnvEngine) (key : String)
    (v : String) (hset : host.LookupEnv (e.getKey host key) = some v) :
    (v = "" → EnvEngine.GetIntSlice host e key = (none, none))
    ∧ (v ≠ "" → (∀ p ∈ splitComma v, isDecimalInt (trimSpace p) = true) →
        EnvEngine.GetIntSlice host e key
          = (some ((splitComma v).map fun p => decimalIntValue (trimSpace p)), none))
    ∧ (v ≠ "" → ∀ (i : Nat) (p : String), (splitComma v)[i]? = some p →
        isDecimalInt (trimSpace p) = false →
        (∀ k q, k < i → (splitComma v)[k]? = some q → isDecimalInt (trimSpace q) = true) →
        ∃ msg, EnvEngine.GetIntSlice host e key
          = (none, some (GoError.foreign ("element " ++ toString i ++ ": " ++ msg)))) := by
  refine ⟨fun h => ?_, fun hne hall => ?_, fun hne i p hi hbad hpre => ?_⟩
  · simp [EnvEngine.GetIntSlice, EnvEngine.slice, hset, h]
  · simp only [EnvEngine.GetIntSlice, EnvEngine.slice, hset, hne, if_false]
    rw [parseElements_ok _ _ 0 (fun p hp => ((Atoi_spec (trimSpace p)).1).2 (hall p hp))]
    congr 2
    apply List.map_congr_left
    intro p hp
    rw [(Atoi_spec (trimSpace p)).2 (hall p hp)]
  · simp only [EnvEngine.GetIntSlice, EnvEngine.slice, hset, hne, if_false]
    cases herr : (Atoi (trimSpace p)).2 with
    | none =>
      have := ((Atoi_spec (trimSpace p)).1).1 herr
      rw [hbad] at this
      cases this
    | some err =>
      refine ⟨err.Error, ?_⟩
      rw [parseElements_bad (fun v => Atoi (trimSpace v)) (splitComma v) 0 i p err hi herr
        (fun k q hk hq => ((Atoi_spec (trimSpace q)).1).2 (hpre k q hk hq))]
      simp [elementError]

theorem C32_GetIntSlice_parses_the_pieces_witness :
    EnvEngine.GetIntSlice
        { LookupEnv := fun _ => some "1,2 ,3",
          ParseFloat := sampleHost.ParseFloat, ToUpperCase := sampleHost.ToUpperCase }
        (NewEnvEngine []) "test.key"
      = (some [1, 2, 3], none)
    ∧ EnvEngine.GetIntSlice
        { LookupEnv := fun _ => some "1,invalid_int,3",
          ParseFloat := sampleHost.ParseFloat, ToUpperCase := sampleHost.ToUpperCase }
        (NewEnvEngine []) "test.key2"
      = (none, some (GoError.foreign
          "element 1: strconv.Atoi: parsing \"invalid_int\": invalid syntax")) :=
  ⟨((C32_GetIntSlice_parses_the_pieces
      { LookupEnv := fun _ => some "1,2 ,3",
          ParseFloat := sampleHost.ParseFloat, ToUpperCase := sampleHost.ToUpperCase }
      (NewEnvEngine []) "test.key" "1,2 ,3" rfl).2.1 (by decide) (by decide)).trans
    (by decide),
   by decide⟩

/-! ## Variables that are not set, and the message of a type mismatch (C31, C33) -/

/-- C31 fails in the code: for a variable that is not set, every getter of an
`EnvEngine` returns the zero value of its result type, as the claim has it,
but with the error `ErrKeyNotFound`, where the claim and the tests of the
package expect no error. -/
theorem C31_unset_variable_is_key_not_found :
    (∀ (host : Host) (e : EnvEngine) (ident : Nat) (acc : Accessor) (key : String),
      host.LookupEnv (e.getKey host key) = none →
      (EnvEngine.toEngine host e ident).call acc key = (zeroValue acc, some ErrKeyNotFound))
    ∧ sampleHost.LookupEnv ((NewEnvEngine []).getKey sampleHost "non_existing_key") = none
    ∧ EnvEngine.GetString sampleHost (NewEnvEngine []) "non_existing_key"
        = ("", some ErrKeyNotFound)
    ∧ EnvEngine.GetStringSlice sampleHost (NewEnvEngine []) "non_exiting_key"
        = (none, some ErrKeyNotFound)
    ∧ EnvEngine.GetInt sampleHost (NewEnvEngine []) "non_existing_key"
        = (0, some ErrKeyNotFound)
    ∧ EnvEngine.GetIntSlice sampleHost (NewEnvEngine []) "non_existing_key"
        = (none, some ErrKeyNotFound) :=
  ⟨envCall_unset, by decide, by decide, by decide, by decide, by decide⟩

/-- C33 fails in the code: the error of a type mismatch is made from the
stored value alone, or from the element of a stored `[]interface{}` alone, so
it is the same under every key and its message names no key.  On the map
with the string "x" under "port", `GetInt("port")` fails with a message in
which "port" does not occur; on the map with a `[]interface{}` under "ports"
whose second element is a string, `GetIntSlice("ports")` fails with a message
that names the type of the element, not the key and not the type of the stored
value. -/
theorem C33_type_mismatch_names_no_key :
    (∀ (data : List (String × GoValue)) (ident : Nat) (acc : Accessor) (key : String)
        (value : GoValue), data.lookup key = some value → accepts acc value = false →
      ((MapEngine.toEngine { data := some data } ident).call acc key).2
        = some (newErrTypeMismatch "" value))
    ∧ (MapEngine.GetInt { data := some [("port", GoValue.string "x")] } "port").2
        = some (GoError.wrapped Sentinel.typeMismatch "type mismatch: : string found")
    ∧ occursIn "port" "type mismatch: : string found" = false
    ∧ (MapEngine.GetIntSlice
          { data := some [("ports", GoValue.ifaceSlice [GoValue.int 1, GoValue.string "x"])] }
          "ports").2
        = some (GoError.wrapped Sentinel.typeMismatch "type mismatch: : string found")
    ∧ (GoValue.ifaceSlice [GoValue.int 1, GoValue.string "x"]).typeName = "[]interface {}"
    ∧ occursIn "[]interface {}" "type mismatch: : string found" = false := by
  refine ⟨?_, by decide, by decide, by decide, by decide, by decide⟩
  intro data ident acc key value hstored hno
  rcases mapCall_present data ident acc key value hstored with
    ⟨hyes, _⟩ | ⟨_, h⟩ | ⟨_, _, _, _, hyes, _⟩ | ⟨_, hyes, _⟩
  · rw [hno] at hyes; cases hyes
  · rw [h]; rfl
  · rw [hno] at hyes; cases hyes
  · rw [hno] at hyes; cases hyes

/-! ## flattenMap is idempotent (C38) -/

theorem mapSet_keys (result : List (String × GoValue)) (k : String) (v : GoValue) :
    (∀ x, x ∈ (mapSet result k v).map Prod.fst ↔ x = k ∨ x ∈ result.map Prod.fst) ∧
    ((result.map Prod.fst).Nodup → ((mapSet result k v).map Prod.fst).Nodup) ∧
    (∀ kv ∈ mapSet result k v, kv = (k, v) ∨ kv ∈ result) := by
  induction result with
  | nil => simp [mapSet]
  | cons kv rest ih =>
    obtain ⟨k1, v1⟩ := kv
    obtain ⟨ih1, ih2, ih3⟩ := ih
    by_cases h : k1 = k
    · subst h
      simp only [mapSet, if_true, List.map_cons, List.mem_cons]
      refine ⟨fun x => by tauto, fun hn => hn, ?_⟩
      intro kv hkv
      rcases hkv with rfl | hkv
      · exact Or.inl rfl
      · exact Or.inr (Or.inr hkv)
    · simp only [mapSet, h, if_false, List.map_cons, List.mem_cons, List.nodup_cons]
      refine ⟨fun x => ?_, fun hn => ⟨?_, ih2 hn.2⟩, ?_⟩
      · rw [ih1 x]; tauto
      · intro hmem
        rcases (ih1 k1).1 hmem with h1 | h1
        · exact h h1
        · exact hn.1 h1
      · intro kv hkv
        rcases hkv with rfl | hkv
        · exact Or.inr (Or.inl rfl)
        · rcases ih3 kv hkv with h1 | h1
          · exact Or.inl h1
          · exact Or.inr (Or.inr h1)

theorem setAllUnder_flat (k : String) : ∀ (inner result : List (String × GoValue)),
    (result.map Prod.fst).Nodup → (∀ kv ∈ result, isMap kv.2 = false) →
    (∀ kv ∈ inner, isMap kv.2 = false) →
    ((setAllUnder k result inner).map Prod.fst).Nodup ∧
    ∀ kv ∈ setAllUnder k result inner, isMap kv.2 = false
  | [], result, hn, hf, _ => by rw [setAllUnder]; exact ⟨hn, hf⟩
  | (kk, vv) :: rest, result, hn, hf, hi => by
    rw [setAllUnder]
    obtain ⟨_, h2, h3⟩ := mapSet_keys result (k ++ "." ++ kk) vv
    apply setAllUnder_flat k rest _ (h2 hn)
    · intro kv hkv
      rcases h3 kv hkv with rfl | h
      · exact hi (kk, vv) (by simp)
      · exact hf kv h
    · exact fun kv hkv => hi kv (by simp [hkv])

mutual
theorem flattenValue_flat : ∀ (v : GoValue) (k : String) (result : List (String × GoValue)),
    (result.map Prod.fst).Nodup → (∀ kv ∈ result, isMap kv.2 = false) →
    ((flattenValue result k v).map Prod.fst).Nodup ∧
    ∀ kv ∈ flattenValue result k v, isMap kv.2 = false
  | v, k, result, hn, hf => by
    cases v with
    | map inner =>
      rw [flattenValue]
      obtain ⟨_, h2⟩ := flattenLoop_flat inner [] (by simp) (by simp)
      exact setAllUnder_flat k _ result hn hf h2
    | _ =>
      simp only [flattenValue]
      refine ⟨(mapSet_keys result k _).2.1 hn, fun kv hkv => ?_⟩
      rcases (mapSet_keys result k _).2.2 kv hkv with rfl | h
      · rfl
      · exact hf kv h
theorem flattenLoop_flat : ∀ (m result : List (String × GoValue)),
    (result.map Prod.fst).Nodup → (∀ kv ∈ result, isMap kv.2 = false) →
    ((flattenLoop result m).map Prod.fst).Nodup ∧
    ∀ kv ∈ flattenLoop result m, isMap kv.2 = false
  | [], result, hn, hf => by rw [flattenLoop]; exact ⟨hn, hf⟩
  | kv :: rest, result, hn, hf => by
    rw [flattenLoop]
    obtain ⟨h1, h2⟩ := flattenValue_flat kv.2 kv.1 result hn hf
    exact flattenLoop_flat rest _ h1 h2
end

theorem leaves_keys_flat : ∀ (m : List (String × GoValue)), (∀ kv ∈ m, isMap kv.2 = false) →
    (leaves m).map (fun pv => joinPath "." pv.1) = m.map Prod.fst := by
  intro m h
  have := leaves_flat m h
  have h2 := congrArg (List.map Prod.fst) this
  simpa [List.map_map, Function.comp_def, dottedEntry] using h2

/-- C38: `flattenMap` is idempotent.  For every nested map, no value of the
flattened map is a `map[string]interface{}`, its keys are pairwise different,
and flattening it again gives the flattened map itself. -/
theorem C38_flattenMap_is_idempotent (m : List (String × GoValue)) :
    (∀ kv ∈ flattenMap m, isMap kv.2 = false)
    ∧ ((flattenMap m).map Prod.fst).Nodup
    ∧ flattenMap (flattenMap m) = flattenMap m := by
  obtain ⟨hn, hf⟩ := flattenLoop_flat m [] (by simp) (by simp)
  refine ⟨hf, hn, ?_⟩
  have hkeys := leaves_keys_flat (flattenMap m) hf
  rw [flattenMap_spec (flattenMap m) (by rw [hkeys]; exact hn)]
  exact leaves_flat (flattenMap m) hf

theorem C38_flattenMap_is_idempotent_witness :
    flattenMap [("a", GoValue.map [("b", GoValue.int 1)]), ("a.b", GoValue.int 2)]
      = [("a.b", GoValue.int 2)]
    ∧ flattenMap (flattenMap
        [("a", GoValue.map [("b", GoValue.int 1)]), ("a.b", GoValue.int 2)])
      = flattenMap [("a", GoValue.map [("b", GoValue.int 1)]), ("a.b", GoValue.int 2)] :=
  ⟨by rfl,
   (C38_flattenMap_is_idempotent
      [("a", GoValue.map [("b", GoValue.int 1)]), ("a.b", GoValue.int 2)]).2.2⟩

/-! ## The separator is set where it is read (C34) -/

theorem resolveField_outcome (engines : List Engine)
    (f : Engine → FieldState → FieldState × Option GoError) (v : FieldValue) :
    (resolveField engines f v).2.2 = Outcome.ok ∨
    ∃ err, (resolveField engines f v).2.2 = Outcome.error err := by
  simp only [resolveField]
  rcases readFromEnginesInSequence engines f (v, []) with ⟨st, _ | err⟩
  · exact Or.inl rfl
  · exact Or.inr ⟨err, rfl⟩

theorem unmarshalLeaf_outcome (engines : List Engine) (required : Bool) (key : String)
    (v : FieldValue) :
    (unmarshalLeaf engines required key v).2.2 = Outcome.ok ∨
    (∃ err, (unmarshalLeaf engines required key v).2.2 = Outcome.error err) ∨
    (∃ es, v = FieldValue.structSlice es ∧
      (unmarshalLeaf engines required key v).2.2 =
        Outcome.panic "reflect: call of reflect.Value.NumField on slice Value") := by
  cases v with
  | struct tn fs => exact Or.inl rfl
  | structSlice es => exact Or.inr (Or.inr ⟨es, rfl, rfl⟩)
  | otherSlice => exact Or.inl rfl
  | unsupported => exact Or.inl rfl
  | _ =>
    simp only [unmarshalLeaf]
    rcases resolveField_outcome engines _ _ with h | h
    · exact Or.inl h
    · exact Or.inr (Or.inl h)

theorem runValidator_outcome_cases (hooks : Hooks) (path tn : String)
    (r : Fields × List Event × Outcome) :
    (runValidator hooks path tn r).2.2 = r.2.2 ∨
    ∃ err, (runValidator hooks path tn r).2.2 = Outcome.error err := by
  obtain ⟨fs, tr, out⟩ := r
  cases out with
  | ok =>
    simp only [runValidator]
    cases hooks tn with
    | none => exact Or.inl rfl
    | some validate =>
      simp only
      cases validate fs with
      | none => exact Or.inl rfl
      | some err => exact Or.inr ⟨err, rfl⟩
  | error e => exact Or.inl rfl
  | panic msg => exact Or.inl rfl

mutual
theorem unmarshalField_separator_set (m : Manager) (hooks : Hooks)
    (hsep : m.plains ≠ [] → m.keySeparator ≠ none) :
    ∀ (v : FieldValue) (pfx tag : String),
      (unmarshalField m hooks pfx tag v).2.2 ≠
        Outcome.panic "invalid memory address or nil pointer dereference"
  | v, pfx, tag => by
    rcases unmarshalField_cases m hooks pfx tag v with
      ⟨_, h⟩ | ⟨_, _, _, h⟩ | ⟨_, _, h⟩ | ⟨hp, hk, _⟩ | ⟨hp, key, hk⟩
    · rw [h]; simp
    · rw [h]; simp
    · rw [h]; simp
    · exfalso
      have hpl := ((passesChecks_iff m tag).1 hp).2.2
      have hs := hsep hpl
      simp only [fieldKey] at hk
      split at hk
      · cases hk
      · cases hm : m.keySeparator with
        | none => exact hs hm
        | some sep => rw [hm] at hk; cases hk
    · cases v with
      | struct tn inner =>
        rw [unmarshalField_struct m hooks pfx tag key tn inner hp hk]
        have ih := unmarshalFields_separator_set m hooks hsep inner key
        rcases runValidator_outcome_cases hooks key tn (unmarshalFields m hooks key inner) with
          h | ⟨err, h⟩
        · rw [h]; exact ih
        · rw [h]; simp
      | _ =>
        rw [unmarshalField_leaf m hooks pfx tag key _ hp hk (by intro tn fs h; cases h)]
        rcases unmarshalLeaf_outcome (chainOf m tag) (isRequired tag) key _ with
          h | ⟨err, h⟩ | ⟨es, _, h⟩ <;> rw [h] <;> simp
theorem unmarshalFields_separator_set (m : Manager) (hooks : Hooks)
    (hsep : m.plains ≠ [] → m.keySeparator ≠ none) :
    ∀ (fs : Fields) (pfx : String),
      (unmarshalFields m hooks pfx fs).2.2 ≠
        Outcome.panic "invalid memory address or nil pointer dereference"
  | [], pfx => by simp [unmarshalFields]
  | (tag, v) :: rest, pfx => by
    have h1 := unmarshalField_separator_set m hooks hsep v pfx tag
    have h2 := unmarshalFields_separator_set m hooks hsep rest pfx
    rcases hf : unmarshalField m hooks pfx tag v with ⟨v1, tr, out⟩
    rw [hf] at h1
    cases out with
    | ok => rw [unmarshalFields_cons_ok m hooks pfx tag v v1 tr rest hf]; exact h2
    | error e =>
      rw [unmarshalFields_cons_stop m hooks pfx tag v v1 tr _ rest hf (by simp)]; simp
    | panic msg =>
      rw [unmarshalFields_cons_stop m hooks pfx tag v v1 tr _ rest hf (by simp)]; exact h1
end

theorem NewManager_keySeparator (seps : List String) :
    (seps = [] ∧ (NewManager (seps.map WithKeySeparator)).keySeparator = none) ∨
    ∃ s, (NewManager (seps.map WithKeySeparator)).keySeparator = some s := by
  rcases List.eq_nil_or_concat seps with h | ⟨init, s, h⟩
  · subst h
    exact Or.inl ⟨rfl, rfl⟩
  · subst h
    exact Or.inr ⟨s, by simp [NewManager, WithKeySeparator, List.foldl_append]⟩

/-- On a Manager built by `NewManager` and registrations, a plain list that is
not empty means that a registration has run the lazy initialisation, and the
separator is set. -/
theorem registered_separator_set (seps : List String) (rs : List Registration)
    (h : (Manager.registerAll (NewManager (seps.map WithKeySeparator)) rs).plains ≠ []) :
    (Manager.registerAll (NewManager (seps.map WithKeySeparator)) rs).init = true ∧
    ∃ sep, (Manager.registerAll (NewManager (seps.map WithKeySeparator)) rs).keySeparator
      = some sep := by
  obtain ⟨h0, h1, h2⟩ := NewManager_separators seps
  obtain ⟨a, _, c⟩ := registerAll_lists (NewManager (seps.map WithKeySeparator))
    (fun _ => ⟨h1, h2⟩) rs
  constructor
  · cases hi : (Manager.registerAll (NewManager (seps.map WithKeySeparator)) rs).init with
    | true => rfl
    | false => exact absurd (c hi).2 h
  · rcases NewManager_keySeparator seps with ⟨hnil, _⟩ | ⟨s, hs⟩
    · subst hnil
      have hrs : rs ≠ [] := by
        intro h3
        subst h3
        exact h rfl
      exact ⟨_, registerAll_default_keySeparator rs hrs⟩
    · exact ⟨s, registerAll_keySeparator s rs _ hs⟩

/-- C34: on a Manager obtained from `NewManager`, with or without separator
options, and changed through `AddPlainEngine` and `AddSecretEngine` only,
`Populate` never ends in the panic of a nil separator, whatever the target.
Wherever a field passes the chain checks, so that its key is built, a
registration has run the lazy initialisation and the separator is set: the key
is the segment itself under the empty parent path and the parent path, the
separator and the segment under any other. -/
theorem C34_separator_is_set_where_it_is_read (seps : List String)
    (rs : List Registration) (hooks : Hooks) (target : Target) :
    (Manager.Populate (Manager.registerAll (NewManager (seps.map WithKeySeparator)) rs)
        hooks target).2.2 ≠ Outcome.panic "invalid memory address or nil pointer dereference"
    ∧ (∀ tag : String,
        passesChecks (Manager.registerAll (NewManager (seps.map WithKeySeparator)) rs) tag
          = true →
        (Manager.registerAll (NewManager (seps.map WithKeySeparator)) rs).init = true ∧
        ∃ sep,
          (Manager.registerAll (NewManager (seps.map WithKeySeparator)) rs).keySeparator
            = some sep ∧
          ∀ pfx : String,
            fieldKey (Manager.registerAll (NewManager (seps.map WithKeySeparator)) rs) pfx
                (propName tag)
              = some (if pfx = "" then propName tag else pfx ++ sep ++ propName tag)) := by
  have hsep : (Manager.registerAll (NewManager (seps.map WithKeySeparator)) rs).plains ≠ [] →
      (Manager.registerAll (NewManager (seps.map WithKeySeparator)) rs).keySeparator ≠ none := by
    intro h
    obtain ⟨_, sep, hs⟩ := registered_separator_set seps rs h
    rw [hs]
    simp
  constructor
  · cases target with
    | nonPointer v => simp [Manager.Populate]
    | nilPointer => simp [Manager.Populate]
    | pointer w =>
      cases w with
      | struct tn fs =>
        rw [Populate_struct_outcome]
        rcases runValidator_outcome_cases hooks "" tn
          (unmarshalFields (Manager.registerAll (NewManager (seps.map WithKeySeparator)) rs)
            hooks "" fs) with h | ⟨err, h⟩
        · rw [h]
          exact unmarshalFields_separator_set _ hooks hsep fs ""
        · rw [h]; simp
      | _ => simp [Manager.Populate]
  · intro tag hp
    have hpl := ((passesChecks_iff _ tag).1 hp).2.2
    obtain ⟨hi, sep, hs⟩ := registered_separator_set seps rs hpl
    refine ⟨hi, sep, hs, fun pfx => ?_⟩
    simp only [fieldKey, hs]
    split <;> rfl

theorem C34_separator_is_set_where_it_is_read_witness :
    (Manager.Populate (NewManager []) noHooks
        (Target.pointer (FieldValue.struct "MyTestWithNestedConfig" nestedConfigFields))).2.2
      = Outcome.error ErrNoPlainEngineDefined
    ∧ (Manager.Populate (NewManager []) noHooks
        (Target.pointer (FieldValue.struct "MyTestWithNestedConfig" nestedConfigFields))).2.2
      ≠ Outcome.panic "invalid memory address or nil pointer dereference" :=
  ⟨by decide, (C34_separator_is_set_where_it_is_read [] [] noHooks
      (Target.pointer (FieldValue.struct "MyTestWithNestedConfig" nestedConfigFields))).1⟩

/-! ## The traversal of nested and narrow fields (C35, C36, C39, C40) -/

/-- C35 fails in the code: a bound field whose type is a slice of structures,
once it has passed the chain checks, is handed whole to `unmarshalObj`, whose
`NumField` call panics on a slice; so `Populate` panics on a pointer to a
structure with such a field, where the claim has it return. -/
theorem C35_slice_of_structures_panics :
    (∀ (m : Manager) (hooks : Hooks) (pfx tag key : String) (elems : List FieldValue),
      passesChecks m tag = true → fieldKey m pfx (propName tag) = some key →
      unmarshalField m hooks pfx tag (FieldValue.structSlice elems) =
        (FieldValue.structSlice elems, [],
          Outcome.panic "reflect: call of reflect.Value.NumField on slice Value"))
    ∧ Manager.Populate emptySourcesManager noHooks
        (Target.pointer (FieldValue.struct "Config" itemsFields)) =
      (Target.pointer (FieldValue.struct "Config" itemsFields), [],
        Outcome.panic "reflect: call of reflect.Value.NumField on slice Value") := by
  refine ⟨?_, by rfl⟩
  intro m hooks pfx tag key elems hp hk
  rw [unmarshalField_leaf m hooks pfx tag key _ hp hk (by intro tn fs h; cases h)]
  rfl

theorem wrapSigned_range (w : Nat) (x : Int) (hw : 0 < w) :
    -(2 : Int) ^ (w - 1) ≤ wrapSigned w x ∧ wrapSigned w x < (2 : Int) ^ (w - 1) ∧
    (wrapSigned w x - x) % (2 : Int) ^ w = 0 := by
  have hpow : (2 : Int) ^ w = 2 * (2 : Int) ^ (w - 1) := by
    obtain ⟨k, rfl⟩ : ∃ k, w = k + 1 := ⟨w - 1, by omega⟩
    simp [pow_succ, mul_comm]
  have hpos : (0 : Int) < (2 : Int) ^ (w - 1) := by positivity
  simp only [wrapSigned]
  generalize (2 : Int) ^ (w - 1) = h at hpow hpos
  rw [hpow]
  have h1 := Int.emod_nonneg (x + h) (show (2 * h) ≠ 0 by omega)
  have h2 := Int.emod_lt_of_pos (x + h) (show (0 : Int) < 2 * h by omega)
  refine ⟨by omega, by omega, ?_⟩
  have : (x + h) % (2 * h) - h - x = -(2 * h * ((x + h) / (2 * h))) := by
    have := Int.emod_add_ediv (x + h) (2 * h)
    omega
  rw [this]
  simp

theorem wrapSigned_eq_iff (w : Nat) (x : Int) (hw : 0 < w) :
    wrapSigned w x = x ↔ -(2 : Int) ^ (w - 1) ≤ x ∧ x < (2 : Int) ^ (w - 1) := by
  constructor
  · intro h
    have := wrapSigned_range w x hw
    rw [h] at this
    exact ⟨this.1, this.2.1⟩
  · rintro ⟨h1, h2⟩
    exact wrapSigned_of_fits w x hw h1 h2

theorem wrapUnsigned_eq_iff (w : Nat) (x : Nat) : wrapUnsigned w x = x ↔ x < 2 ^ w := by
  constructor
  · intro h
    rw [← h]
    exact Nat.mod_lt _ (Nat.pow_pos (by decide))
  · exact wrapUnsigned_of_fits w x

/-- C36: a bound field of kind int8, int16 or int32 (of kind int as well), resp.
uint8, uint16 or uint32, that has passed the chain checks and whose first
engine returns an integer: the field ends holding that integer reduced modulo
`2^w`, `w` the width of the field, in two's complement for a signed kind, and
the loop goes on without error.  What is stored equals what the engine
returned exactly when that fits in `w` bits. -/
theorem C36_narrow_integer_fields_wrap (m : Manager) (hooks : Hooks) (pfx tag key : String)
    (e : Engine) (rest : List Engine) (hp : passesChecks m tag = true)
    (hk : fieldKey m pfx (propName tag) = some key) (hchain : chainOf m tag = e :: rest) :
    (∀ (k : IntKind) (v0 x : Int), e.GetInt key = (x, none) →
      unmarshalField m hooks pfx tag (FieldValue.int k v0) =
        (FieldValue.int k (wrapSigned k.bits x), [Event.read e.ident Accessor.GetInt key],
          Outcome.ok) ∧
      (wrapSigned k.bits x - x) % (2 : Int) ^ k.bits = 0 ∧
      -(2 : Int) ^ (k.bits - 1) ≤ wrapSigned k.bits x ∧
      wrapSigned k.bits x < (2 : Int) ^ (k.bits - 1) ∧
      (wrapSigned k.bits x = x ↔
        -(2 : Int) ^ (k.bits - 1) ≤ x ∧ x < (2 : Int) ^ (k.bits - 1)))
    ∧ (∀ (k : UintKind) (v0 x : Nat), e.GetUint key = (x, none) →
      unmarshalField m hooks pfx tag (FieldValue.uint k v0) =
        (FieldValue.uint k (x % 2 ^ k.bits), [Event.read e.ident Accessor.GetUint key],
          Outcome.ok) ∧
      (x % 2 ^ k.bits = x ↔ x < 2 ^ k.bits)) := by
  constructor
  · intro k v0 x hx
    have hw : 0 < k.bits := by cases k <;> decide
    obtain ⟨h1, h2, h3⟩ := wrapSigned_range k.bits x hw
    refine ⟨?_, h3, h1, h2, wrapSigned_eq_iff k.bits x hw⟩
    rw [unmarshalField_leaf m hooks pfx tag key _ hp hk (by intro tn fs h; cases h), hchain]
    obtain ⟨acc, hacc, heq⟩ := unmarshalLeaf_head_found_acc (isRequired tag) key
      (FieldValue.int k v0) e rest rfl (by simp [readError, hx])
    simp only [accessorOf, Option.some.injEq] at hacc
    subst hacc
    rw [heq]
    simp [storedValue, hx]
  · intro k v0 x hx
    refine ⟨?_, wrapUnsigned_eq_iff k.bits x⟩
    rw [unmarshalField_leaf m hooks pfx tag key _ hp hk (by intro tn fs h; cases h), hchain]
    obtain ⟨acc, hacc, heq⟩ := unmarshalLeaf_head_found_acc (isRequired tag) key
      (FieldValue.uint k v0) e rest rfl (by simp [readError, hx])
    simp only [accessorOf, Option.some.injEq] at hacc
    subst hacc
    rw [heq]
    simp [storedValue, hx, wrapUnsigned]

theorem C36_narrow_integer_fields_wrap_witness :
    unmarshalField int8Manager noHooks "" "n" (FieldValue.int IntKind.int8 0) =
      (FieldValue.int IntKind.int8 (wrapSigned 8 300), [Event.read 1 Accessor.GetInt "n"],
        Outcome.ok)
    ∧ wrapSigned 8 300 = 44 :=
  ⟨((C36_narrow_integer_fields_wrap int8Manager noHooks "" "n" "n"
      (mapSource 1 [("n", GoValue.int 300)]) [] (by decide) (by decide) (by rfl)).1
      IntKind.int8 0 300 (by decide)).1,
   by decide⟩

theorem readError_eq_call (e : Engine) (key : String) (v : FieldValue) (acc : Accessor)
    (h : accessorOf v = some acc) : readError e key v = (e.call acc key).2 := by
  cases v <;> simp only [accessorOf, Option.some.injEq, reduceCtorEq] at h <;> subst h <;> rfl

/-- A scalar field that is not required and whose first engine answers with a
key-not-found error: the field is left as it is and the loop goes on. -/
theorem unmarshalLeaf_lenient_absent (e : Engine) (rest : List Engine) (key : String)
    (v : FieldValue) (hs : isScalarKind v = true)
    (habs : errorsIs (readError e key v) Sentinel.keyNotFound = true) :
    ∃ acc, accessorOf v = some acc ∧
      unmarshalLeaf (e :: rest) false key v = (v, [Event.read e.ident acc key], Outcome.ok) := by
  obtain ⟨acc, hacc, heq⟩ := unmarshalLeaf_eq_resolve (e :: rest) false key v
    (isScalarKind_isReadKind v hs)
  refine ⟨acc, hacc, ?_⟩
  rw [heq, hs]
  simp only [Bool.not_false, Bool.and_self, resolveField, readFromEnginesInSequence]
  rw [readLoop_head_lenient acc v key e rest none (v, []) habs]
  rfl

/-- C39, the code on the claim.  The flags of a field that holds a structure
are not handed down: two annotations of the field that both pass the chain
checks and give the same key leave the same result; an inner field without the
secret flag is resolved on the plain chain, whatever the flags of the field
around it; a scalar inner field that is not required and that the first plain
source lacks raises no error.  The last part of the claim fails on a slice:
under the field `credentials`, tagged secret and required, the string `user`
and the slice `scopes`, neither required, are both read from the plain source
(object 1), none from the secret one; the missing `user` raises no error and
the missing `scopes` ends `Populate` with a key-not-found error. -/
theorem C39_flags_are_not_inherited :
    (∀ (m : Manager) (hooks : Hooks) (pfx outer1 outer2 key tn : String) (fs : Fields),
      passesChecks m outer1 = true → passesChecks m outer2 = true →
      fieldKey m pfx (propName outer1) = some key →
      fieldKey m pfx (propName outer2) = some key →
      unmarshalField m hooks pfx outer1 (FieldValue.struct tn fs) =
        unmarshalField m hooks pfx outer2 (FieldValue.struct tn fs))
    ∧ (∀ (m : Manager) (hooks : Hooks) (path inner key : String) (v : FieldValue),
      passesChecks m inner = true → isSecret inner = false →
      fieldKey m path (propName inner) = some key →
      (∀ tn fs, v ≠ FieldValue.struct tn fs) →
      unmarshalField m hooks path inner v = unmarshalLeaf m.plains (isRequired inner) key v)
    ∧ (∀ (m : Manager) (hooks : Hooks) (path inner key : String) (v : FieldValue)
        (e : Engine) (rest : List Engine),
      passesChecks m inner = true → isSecret inner = false → isRequired inner = false →
      fieldKey m path (propName inner) = some key → isScalarKind v = true →
      m.plains = e :: rest →
      errorsIs (readError e key v) Sentinel.keyNotFound = true →
      (unmarshalField m hooks path inner v).1 = v ∧
      (unmarshalField m hooks path inner v).2.2 = Outcome.ok)
    ∧ isSecret "credentials,secret,required" = true
    ∧ isRequired "credentials,secret,required" = true
    ∧ Manager.Populate emptySourcesManager noHooks
        (Target.pointer (FieldValue.struct "Config" credentialsFields)) =
      (Target.pointer (FieldValue.struct "Config" credentialsFields),
        [Event.read 1 Accessor.GetString "credentials.user",
         Event.read 1 Accessor.GetStringSlice "credentials.scopes"],
        Outcome.error (keyNotFoundOf "credentials.scopes")) := by
  refine ⟨?_, ?_, ?_, by decide, by decide, by rfl⟩
  · intro m hooks pfx outer1 outer2 key tn fs hp1 hp2 hk1 hk2
    rw [unmarshalField_struct m hooks pfx outer1 key tn fs hp1 hk1,
      unmarshalField_struct m hooks pfx outer2 key tn fs hp2 hk2]
  · intro m hooks path inner key v hp hsec hk hv
    rw [unmarshalField_leaf m hooks path inner key v hp hk hv]
    simp [chainOf, hsec]
  · intro m hooks path inner key v e rest hp hsec hreq hk hs hpl habs
    have hv : ∀ tn fs, v ≠ FieldValue.struct tn fs :=
      isReadKind_not_struct v (isScalarKind_isReadKind v hs)
    rw [unmarshalField_leaf m hooks path inner key v hp hk hv]
    have hc : chainOf m inner = e :: rest := by simp [chainOf, hsec, hpl]
    rw [hc, hreq]
    obtain ⟨acc, _, heq⟩ := unmarshalLeaf_lenient_absent e rest key v hs habs
    rw [heq]
    exact ⟨rfl, rfl⟩

theorem append_middle_ne (a b s t : String) (h : s ≠ t) : a ++ s ++ b ≠ a ++ t ++ b := by
  intro heq
  apply h
  have h1 := congrArg String.data heq
  simp only [String.data_append, List.append_assoc] at h1
  have h2 := List.append_cancel_left h1
  have h3 := List.append_cancel_right h2
  exact String.ext h3

/-- C40: on a Manager built with `WithKeySeparator(s)`, `s` other than ".", whose
plain chain is the one source `NewMapEngine({k1: {k2: v}})`, for a target with a
bound structure field `k1` that holds a required field `k2` of a kind that
`Populate` reads, the fields before them binding without error: the flattened
data holds `v` under `k1.k2`; the key built for the field is `k1 + s + k2`, which
the flattened data does not hold; and `Populate` returns an error that
satisfies `errors.Is(err, ErrKeyNotFound)`. -/
theorem C40_flattened_keys_are_joined_by_the_dot (s k1 k2 : String) (v : GoValue)
    (ident : Nat) (rs : List Registration) (m : Manager) (hooks : Hooks)
    (tn tn2 outerTag innerTag : String) (v0 : FieldValue)
    (pre pre1 post ipre ipre1 ipost : Fields) (tr itr : List Event)
    (hm : m = Manager.registerAll (NewManager [WithKeySeparator s]) rs)
    (hrs : plainEngines rs =
      [MapEngine.toEngine (NewMapEngine [(k1, GoValue.map [(k2, v)])]) ident])
    (hs : s ≠ ".") (hv : isMap v = false)
    (houter : propName outerTag = k1 ∧ isSecret outerTag = false)
    (hinner : propName innerTag = k2 ∧ isSecret innerTag = false ∧
      isRequired innerTag = true)
    (hk1 : k1 ≠ "" ∧ k1 ≠ "-") (hk2 : k2 ≠ "" ∧ k2 ≠ "-")
    (hkind : isReadKind v0 = true)
    (hpre : unmarshalFields m hooks "" pre = (pre1, tr, Outcome.ok))
    (hipre : unmarshalFields m hooks k1 ipre = (ipre1, itr, Outcome.ok)) :
    flattenMap [(k1, GoValue.map [(k2, v)])] = [(k1 ++ "." ++ k2, v)]
    ∧ fieldKey m k1 (propName innerTag) = some (k1 ++ s ++ k2)
    ∧ (flattenMap [(k1, GoValue.map [(k2, v)])]).lookup (k1 ++ s ++ k2) = none
    ∧ ∃ err,
        (Manager.Populate m hooks
          (Target.pointer (FieldValue.struct tn
            (pre ++ (outerTag, FieldValue.struct tn2 (ipre ++ (innerTag, v0) :: ipost))
              :: post)))).2.2 = Outcome.error err
        ∧ errorsIs (some err) Sentinel.keyNotFound = true := by
  obtain ⟨ho1, ho2⟩ := houter
  obtain ⟨hi1, hi2, hi3⟩ := hinner
  have hflat : flattenMap [(k1, GoValue.map [(k2, v)])] = [(k1 ++ "." ++ k2, v)] := by
    cases v <;> first
      | rfl
      | (simp [isMap] at hv)
  have hne : k1 ++ "." ++ k2 ≠ k1 ++ s ++ k2 := append_middle_ne k1 k2 "." s (Ne.symm hs)
  have hlook : (flattenMap [(k1, GoValue.map [(k2, v)])]).lookup (k1 ++ s ++ k2) = none := by
    rw [hflat]
    have hb : (k1 ++ s ++ k2 == k1 ++ "." ++ k2) = false := by
      simpa using Ne.symm hne
    simp only [List.lookup, hb]
  have hplains : m.plains =
      [MapEngine.toEngine (NewMapEngine [(k1, GoValue.map [(k2, v)])]) ident] := by
    obtain ⟨a, _, _⟩ := registerAll_lists (NewManager [WithKeySeparator s])
      (fun _ => ⟨rfl, rfl⟩) rs
    rw [hm, a, hrs]
    rfl
  have hsep : m.keySeparator = some s := by
    rw [hm]
    exact registerAll_keySeparator s rs _ rfl
  have hkey1 : fieldKey m "" (propName outerTag) = some k1 := by simp [fieldKey, ho1]
  have hkey2 : fieldKey m k1 (propName innerTag) = some (k1 ++ s ++ k2) := by
    simp [fieldKey, hk1.1, hsep, hi1]
  have hp1 : passesChecks m outerTag = true := by
    rw [passesChecks_iff]
    refine ⟨(isBound_eq_true_iff outerTag).2 ?_, ?_, ?_⟩
    · rw [ho1]; exact fun h => h.elim hk1.2 hk1.1
    · rw [ho2]; intro h; cases h
    · rw [hplains]; simp
  have hp2 : passesChecks m innerTag = true := by
    rw [passesChecks_iff]
    refine ⟨(isBound_eq_true_iff innerTag).2 ?_, ?_, ?_⟩
    · rw [hi1]; exact fun h => h.elim hk2.2 hk2.1
    · rw [hi2]; intro h; cases h
    · rw [hplains]; simp
  refine ⟨hflat, hkey2, hlook, ?_⟩
  have habs : ∀ e ∈ chainOf m innerTag,
      errorsIs (readError e (k1 ++ s ++ k2) v0) Sentinel.keyNotFound = true := by
    intro e he
    simp only [chainOf, hi2, hplains, List.mem_singleton] at he
    simp only [Bool.false_eq_true, if_false, List.mem_singleton] at he
    subst he
    obtain ⟨acc, hacc, _⟩ := unmarshalLeaf_eq_resolve [] true "" v0 hkind
    rw [readError_eq_call _ _ v0 acc hacc]
    have := mapCall_absent (flattenMap [(k1, GoValue.map [(k2, v)])]) ident acc
      (k1 ++ s ++ k2) hlook
    simp only [NewMapEngine]
    rw [this]
    rfl
  obtain ⟨err, h1, h2⟩ := unmarshalLeaf_strict_absent (chainOf m innerTag)
    (isRequired innerTag) (k1 ++ s ++ k2) v0 hkind (by simp [hi3]) habs
  refine ⟨err, ?_, h2⟩
  apply Populate_reaches_stop m hooks tn _ k1 innerTag v0 (Outcome.error err)
  · exact Reaches.inside "" pre pre1 tr outerTag tn2 (ipre ++ (innerTag, v0) :: ipost) post
      k1 k1 innerTag v0 hpre hp1 hkey1
      (Reaches.here k1 ipre ipre1 itr innerTag v0 ipost hipre)
  · rw [unmarshalField_leaf m hooks k1 innerTag (k1 ++ s ++ k2) v0 hp2 hkey2
      (isReadKind_not_struct v0 hkind)]
    exact h1
  · simp

theorem C40_flattened_keys_are_joined_by_the_dot_witness :
    (flattenMap databaseMap).lookup "database.dsn" = some (GoValue.string "X")
    ∧ (flattenMap databaseMap).lookup "database/dsn" = none
    ∧ ∃ err,
        (Manager.Populate slashManager noHooks
          (Target.pointer (FieldValue.struct "Config" databaseFields))).2.2 = Outcome.error err
        ∧ errorsIs (some err) Sentinel.keyNotFound = true :=
  ⟨by rfl, by rfl,
   (C40_flattened_keys_are_joined_by_the_dot "/" "database" "dsn" (GoValue.string "X") 1
      [Registration.plain (MapEngine.toEngine (NewMapEngine databaseMap) 1)] slashManager
      noHooks "Config" "Database" "database" "dsn,required" (FieldValue.string "")
      [] [] [] [] [] [] [] [] rfl rfl
      (by decide) rfl ⟨by decide, by decide⟩ ⟨by decide, by decide, by decide⟩
      ⟨by decide, by decide⟩ ⟨by decide, by decide⟩ rfl
      (unmarshalFields_nil slashManager noHooks "")
      (unmarshalFields_nil slashManager noHooks "database")).2.2.2⟩

end Config
